import Mathlib

/-!
# Verification of the csp-lib search engine

A shallow embedding of the core of the `csp-lib` constraint-satisfaction
solver (files `src/csp.c`, `src/forward-checking.c`, `src/heuristics.c`),
together with theorems settling the specification claims about it.

Machine-level conventions of the embedding:

* C `size_t` values are modelled as `Nat` (the code only increments,
  compares and indexes with them, far below any overflow).
* The caller-supplied `const void *data` pointer is modelled by an
  `Option D` for an arbitrary type `D`; `none` stands for the null
  pointer (the initial unary-pruning pass of
  `csp_forward_check_context_create` passes `NULL`).
* A constraint's `check` function pointer is modelled as a Lean function
  closed over the constraint; the scope array is the `scope` field and
  `arity` is its length (the C code allocates exactly `arity` scope
  slots).
* Mutable `size_t *` / `bool *` arrays are modelled as Lean lists updated
  with `List.set`; reads use `List.getD` (an out-of-range C read is
  undefined behaviour, the `getD` default is never relied upon by the
  theorems' hypotheses).
* The recursive solvers take a fuel argument; the entry points hand them
  enough fuel that it never runs out (the C recursion depth is bounded by
  the number of variables).
* The external `volatile sig_atomic_t timeout_occurred` flag is modelled
  as a `Bool` parameter threaded unchanged through the recursion: it
  represents a run during which the flag has a constant value.
-/

namespace CspLib

/-- A CSP constraint (struct `_CSPConstraint` in `csp.inc`): an ordered
scope of variable identifiers (the flexible array member `variables`,
whose length is the `arity` field) and the checker function pointer
`check`; the checker receives the assignment snapshot and the caller
data. -/
structure CSPConstraint (D : Type) where
  scope : List Nat
  check : List Nat → Option D → Bool

/-- Arity of a constraint (`csp_constraint_get_arity`): the number of
scope slots. -/
def csp_constraint_get_arity {D : Type} (con : CSPConstraint D) : Nat :=
  con.scope.length

/-- Scope accessor (`csp_constraint_get_variable`). -/
def csp_constraint_get_variable {D : Type} (con : CSPConstraint D) (index : Nat) : Nat :=
  con.scope.getD index 0

/-- A CSP problem (struct `_CSPProblem`): the per-variable domain sizes
(array `domains`, length `num_domains`) and the installed constraints
(array `constraints`, length `num_constraints`). -/
structure CSPProblem (D : Type) where
  domains : List Nat
  constraints : List (CSPConstraint D)

/-- `csp_problem_get_num_domains`. -/
def csp_problem_get_num_domains {D : Type} (csp : CSPProblem D) : Nat :=
  csp.domains.length

/-- `csp_problem_get_num_constraints`. -/
def csp_problem_get_num_constraints {D : Type} (csp : CSPProblem D) : Nat :=
  csp.constraints.length

/-- `csp_problem_get_domain`. -/
def csp_problem_get_domain {D : Type} (csp : CSPProblem D) (index : Nat) : Nat :=
  csp.domains.getD index 0

/-- `csp_constraint_to_check` (`csp.c:123`): true iff every variable of
the constraint's scope is `< index`, i.e. already assigned by the plain
backtracking solver. -/
def csp_constraint_to_check {D : Type} (con : CSPConstraint D) (index : Nat) : Bool :=
  con.scope.all (fun v => v < index)

/-- The loop body of `csp_problem_is_consistent` (`csp.c:254`): walk the
constraints in installation order; return `false` at the first
constraint that is due for checking (`csp_constraint_to_check`) and
fails; return `true` when the list is exhausted. -/
def consistentList {D : Type} (values : List Nat) (data : Option D) (index : Nat) :
    List (CSPConstraint D) → Bool
  | [] => true
  | con :: rest =>
    if csp_constraint_to_check con index && !(con.check values data) then false
    else consistentList values data index rest

/-- `csp_problem_is_consistent` (`csp.c:254`). -/
def csp_problem_is_consistent {D : Type} (csp : CSPProblem D) (values : List Nat)
    (data : Option D) (index : Nat) : Bool :=
  consistentList values data index csp.constraints

/-- The inner `for` loop of `csp_problem_backtrack` (`csp.c:294`):
try the candidate values in ascending order; `rec` is the recursive
call at `index + 1`. On success the solved assignment snapshot is
returned, otherwise `none`. -/
def btTry {D : Type} (csp : CSPProblem D) (data : Option D)
    (rec : List Nat → Option (List Nat)) (index : Nat) :
    List Nat → List Nat → Option (List Nat)
  | [], _ => none
  | v :: rest, values =>
    let values1 := values.set index v
    if csp_problem_is_consistent csp values1 data (index + 1) then
      match rec values1 with
      | some out => some out
      | none => btTry csp data rec index rest values1
    else btTry csp data rec index rest values1

/-- Fuelled form of `csp_problem_backtrack` (`csp.c:285`).  The C
function recurses with `index + 1` until `index = num_domains`; the fuel
argument bounds the remaining recursion depth and the entry point
supplies `num_domains - index`, which never runs out. -/
def csp_problem_backtrackF {D : Type} (csp : CSPProblem D) (data : Option D) :
    Nat → Nat → List Nat → Option (List Nat)
  | fuel, index, values =>
    if index = csp.domains.length then some values
    else
      match fuel with
      | 0 => none
      | fuel' + 1 =>
        btTry csp data (csp_problem_backtrackF csp data fuel' (index + 1)) index
          (List.range (csp.domains.getD index 0)) values

/-- `csp_problem_backtrack` (`csp.c:285`). -/
def csp_problem_backtrack {D : Type} (csp : CSPProblem D) (values : List Nat)
    (data : Option D) (index : Nat) : Option (List Nat) :=
  csp_problem_backtrackF csp data (csp.domains.length - index) index values

/-- `csp_problem_solve` (`csp.c:280`): plain backtracking from index 0.
Returns `some out` when the C function returns `true` with `out` in the
caller's array, `none` when it returns `false`. -/
def csp_problem_solve {D : Type} (csp : CSPProblem D) (values : List Nat)
    (data : Option D) : Option (List Nat) :=
  csp_problem_backtrack csp values data 0

/-- The forward checking context (struct `_CSPForwardCheckContext` in
`forward-checking.h`): number of variables, original domain sizes, the
per-variable live masks (`current_domains[i][v]` true iff value `v` is
still a candidate for variable `i`) and the per-variable assigned
flags. -/
structure CSPForwardCheckContext where
  num_domains : Nat
  original_domain_sizes : List Nat
  current_domains : List (List Bool)
  assigned : List Bool
  deriving DecidableEq, Repr

/-- Read live-mask bit `v` of variable `w` (`ctx->current_domains[w][v]`). -/
def maskGet (ctx : CSPForwardCheckContext) (w v : Nat) : Bool :=
  (ctx.current_domains.getD w []).getD v false

/-- Write live-mask bit `v` of variable `w`. -/
def maskSet (ctx : CSPForwardCheckContext) (w v : Nat) (b : Bool) : CSPForwardCheckContext :=
  { ctx with current_domains :=
      ctx.current_domains.set w ((ctx.current_domains.getD w []).set v b) }

/-- Write assigned flag of variable `w` (`ctx->assigned[w] = b`). -/
def setAssigned (ctx : CSPForwardCheckContext) (w : Nat) (b : Bool) : CSPForwardCheckContext :=
  { ctx with assigned := ctx.assigned.set w b }

/-- Count the live values of variable `i`: the inner counting loops of
`select_unassigned_var` (`heuristics.c:53`) and of the initial unary
pruning pass (`forward-checking.c:277`). -/
def countLive (ctx : CSPForwardCheckContext) (i : Nat) : Nat :=
  ((List.range (ctx.original_domain_sizes.getD i 0)).filter (fun v => maskGet ctx i v)).length

/-- The value loop of the initial unary pruning pass
(`forward-checking.c:268`): for each still-live value `d` of `var`,
store it in the scratch array `tmp_vals` and evaluate the unary
constraint's checker with NULL caller data; on failure clear the
live-mask bit. -/
def unaryPruneVals {D : Type} (con : CSPConstraint D) (var : Nat) :
    List Nat → CSPForwardCheckContext → List Nat → CSPForwardCheckContext × List Nat
  | [], ctx, tmp => (ctx, tmp)
  | d :: ds, ctx, tmp =>
    if maskGet ctx var d then
      let tmp1 := tmp.set var d
      if con.check tmp1 none then unaryPruneVals con var ds ctx tmp1
      else unaryPruneVals con var ds (maskSet ctx var d false) tmp1
    else unaryPruneVals con var ds ctx tmp

/-- The constraint loop of the initial unary pruning pass
(`forward-checking.c:261`): only arity-1 constraints participate; after
pruning a variable, if exactly one live value remains the variable is
marked assigned.  The scratch array `tmp_vals` is threaded through
because the C code reuses one `calloc`'d array for the whole pass. -/
def unaryPrune {D : Type} :
    List (CSPConstraint D) → CSPForwardCheckContext → List Nat →
    CSPForwardCheckContext × List Nat
  | [], ctx, tmp => (ctx, tmp)
  | con :: rest, ctx, tmp =>
    if csp_constraint_get_arity con ≠ 1 then unaryPrune rest ctx tmp
    else
      let var := csp_constraint_get_variable con 0
      let dsize := ctx.original_domain_sizes.getD var 0
      let p := unaryPruneVals con var (List.range dsize) ctx tmp
      let ctx2 := if countLive p.1 var = 1 then setAssigned p.1 var true else p.1
      unaryPrune rest ctx2 p.2

/-- `csp_forward_check_context_create` (`forward-checking.c:204`):
original sizes copied from the problem, all mask bits initialised to
true, all assigned flags to false, followed by the initial unary
pruning pass run on a zero-initialised scratch assignment. -/
def csp_forward_check_context_create {D : Type} (csp : CSPProblem D) :
    CSPForwardCheckContext :=
  let n := csp_problem_get_num_domains csp
  let ctx0 : CSPForwardCheckContext :=
    { num_domains := n
      original_domain_sizes := csp.domains
      current_domains := csp.domains.map (fun d => List.replicate d true)
      assigned := List.replicate n false }
  (unaryPrune csp.constraints ctx0 (List.replicate n 0)).1

/-- `fc_is_consistent` (`forward-checking.c:31`): a constraint is tested
iff every variable of its scope is currently marked assigned in the
context; a tested constraint must pass its checker. -/
def fc_is_consistent {D : Type} (csp : CSPProblem D) (values : List Nat) (data : Option D)
    (ctx : CSPForwardCheckContext) : Bool :=
  csp.constraints.all (fun con =>
    if con.scope.all (fun v => ctx.assigned.getD v false) then con.check values data
    else true)

/-- The `other`-variable selection shared by `order_values_lcv`
(`heuristics.c:148`) and `prune_neighbors` (`heuristics.c:256`): for a
binary constraint with scope `(a, b)`, the scope partner of `var`, or
`none` (C: `SIZE_MAX`) when `var` is not in the scope. -/
def lcvOther {D : Type} (con : CSPConstraint D) (var : Nat) : Option Nat :=
  let a := csp_constraint_get_variable con 0
  let b := csp_constraint_get_variable con 1
  if a = var then some b else if b = var then some a else none

/-- `select_unassigned_var`'s scan (`heuristics.c:48`): fold over the
variable identifiers keeping the best `(variable, live count)` pair;
`none` stands for the `SIZE_MAX` initial sentinel. -/
def mrvFold (ctx : CSPForwardCheckContext) :
    List Nat → Option (Nat × Nat) → Option (Nat × Nat)
  | [], best => best
  | i :: is, best =>
    if ctx.assigned.getD i false then mrvFold ctx is best
    else
      let count := countLive ctx i
      match best with
      | none => mrvFold ctx is (some (i, count))
      | some (bi, bc) =>
        if count < bc then mrvFold ctx is (some (i, count))
        else mrvFold ctx is (some (bi, bc))

/-- `select_unassigned_var` (`heuristics.c:42`): the unassigned variable
with the fewest live values, lowest identifier winning ties.  When every
variable is assigned the C function returns `SIZE_MAX`; the embedding
returns `num_domains` (the driver never uses the result in that case). -/
def select_unassigned_var (ctx : CSPForwardCheckContext) : Nat :=
  match mrvFold ctx (List.range ctx.num_domains) none with
  | some (i, _) => i
  | none => ctx.num_domains

/-- The innermost loop of `order_values_lcv` (`heuristics.c:159`): for
each live value `o` of `other`, write it into the snapshot and count a
conflict when the checker fails.  The mutated snapshot is returned
because the C code writes through the caller's array. -/
def lcvCountOther {D : Type} (con : CSPConstraint D) (data : Option D)
    (other : Nat) (ctx : CSPForwardCheckContext) :
    List Nat → List Nat → Nat → Nat × List Nat
  | [], vals, conflicts => (conflicts, vals)
  | o :: os, vals, conflicts =>
    if maskGet ctx other o then
      let vals1 := vals.set other o
      if con.check vals1 data then lcvCountOther con data other ctx os vals1 conflicts
      else lcvCountOther con data other ctx os vals1 (conflicts + 1)
    else lcvCountOther con data other ctx os vals conflicts

/-- The constraint loop of `order_values_lcv` (`heuristics.c:135`): only
arity-2 constraints whose scope contains `var` with an unassigned
partner contribute conflicts. -/
def lcvCons {D : Type} (ctx : CSPForwardCheckContext) (data : Option D) (var : Nat) :
    List (CSPConstraint D) → List Nat → Nat → Nat × List Nat
  | [], vals, conflicts => (conflicts, vals)
  | con :: rest, vals, conflicts =>
    if csp_constraint_get_arity con ≠ 2 then lcvCons ctx data var rest vals conflicts
    else
      match lcvOther con var with
      | none => lcvCons ctx data var rest vals conflicts
      | some other =>
        if ctx.assigned.getD other false then lcvCons ctx data var rest vals conflicts
        else
          let p := lcvCountOther con data other ctx
            (List.range (ctx.original_domain_sizes.getD other 0)) vals conflicts
          lcvCons ctx data var rest p.2 p.1

/-- The candidate loop of `order_values_lcv` (`heuristics.c:122`): for
each live value of `var`, write it into the snapshot and total its
conflicts over all constraints, accumulating `(value, conflicts)` pairs
in candidate order. -/
def lcvVals {D : Type} (csp : CSPProblem D) (ctx : CSPForwardCheckContext)
    (data : Option D) (var : Nat) :
    List Nat → List Nat → List (Nat × Nat) → List (Nat × Nat) × List Nat
  | [], vals, pairs => (pairs, vals)
  | val :: vs, vals, pairs =>
    if maskGet ctx var val then
      let vals1 := vals.set var val
      let p := lcvCons ctx data var csp.constraints vals1 0
      lcvVals csp ctx data var vs p.2 (pairs ++ [(val, p.1)])
    else lcvVals csp ctx data var vs vals pairs

/-- One step of the insertion sort of `order_values_lcv`
(`heuristics.c:182`): insert a pair into an already sorted list, after
every element whose conflict count is not larger (the sort is stable). -/
def lcvInsert (p : Nat × Nat) : List (Nat × Nat) → List (Nat × Nat)
  | [] => [p]
  | q :: qs => if q.2 > p.2 then p :: q :: qs else q :: lcvInsert p qs

/-- The insertion sort of `order_values_lcv` (`heuristics.c:182`):
pairs are taken in their original order and inserted into the sorted
prefix. -/
def lcvSort (ps : List (Nat × Nat)) : List (Nat × Nat) :=
  ps.foldl (fun acc p => lcvInsert p acc) []

/-- `order_values_lcv` (`heuristics.c:98`): collect the live values of
`var` with their conflict counts, sort them stably by conflict count,
and return the ordered values together with the mutated snapshot. -/
def order_values_lcv {D : Type} (csp : CSPProblem D) (ctx : CSPForwardCheckContext)
    (values : List Nat) (data : Option D) (var : Nat) : List Nat × List Nat :=
  let p := lcvVals csp ctx data var
    (List.range (ctx.original_domain_sizes.getD var 0)) values []
  ((lcvSort p.1).map Prod.fst, p.2)

/-- The value loop of `prune_neighbors` (`heuristics.c:270`): for each
still-live value `o` of `other`, write it into the snapshot; when the
checker fails, clear the live-mask bit, append `o` to `pruned[other]`
and increment `counts[other]`. -/
def pruneVals {D : Type} (con : CSPConstraint D) (data : Option D) (other : Nat) :
    List Nat → CSPForwardCheckContext → List Nat → List Nat → List (List Nat) →
    CSPForwardCheckContext × List Nat × List Nat × List (List Nat)
  | [], ctx, vals, counts, pruned => (ctx, vals, counts, pruned)
  | o :: os, ctx, vals, counts, pruned =>
    if maskGet ctx other o then
      let vals1 := vals.set other o
      if con.check vals1 data then pruneVals con data other os ctx vals1 counts pruned
      else
        pruneVals con data other os (maskSet ctx other o false) vals1
          (counts.set other (counts.getD other 0 + 1))
          (pruned.set other ((pruned.getD other []) ++ [o]))
    else pruneVals con data other os ctx vals counts pruned

/-- The constraint loop of `prune_neighbors` (`heuristics.c:243`): only
arity-2 constraints whose scope contains `var` with an unassigned
partner prune; the `malloc` of `pruned[other]` is a no-op in the list
model. -/
def pruneCons {D : Type} (data : Option D) (var : Nat) :
    List (CSPConstraint D) → CSPForwardCheckContext → List Nat → List Nat →
    List (List Nat) → CSPForwardCheckContext × List Nat × List Nat × List (List Nat)
  | [], ctx, vals, counts, pruned => (ctx, vals, counts, pruned)
  | con :: rest, ctx, vals, counts, pruned =>
    if csp_constraint_get_arity con ≠ 2 then pruneCons data var rest ctx vals counts pruned
    else
      match lcvOther con var with
      | none => pruneCons data var rest ctx vals counts pruned
      | some other =>
        if ctx.assigned.getD other false then pruneCons data var rest ctx vals counts pruned
        else
          let st := pruneVals con data other
            (List.range (ctx.original_domain_sizes.getD other 0)) ctx vals counts pruned
          pruneCons data var rest st.1 st.2.1 st.2.2.1 st.2.2.2

/-- `prune_neighbors` (`heuristics.c:234`). -/
def prune_neighbors {D : Type} (csp : CSPProblem D) (values : List Nat) (data : Option D)
    (ctx : CSPForwardCheckContext) (var : Nat) (counts : List Nat)
    (pruned : List (List Nat)) :
    CSPForwardCheckContext × List Nat × List Nat × List (List Nat) :=
  pruneCons data var csp.constraints ctx values counts pruned

/-- Restore the recorded prunes of one variable: the inner loop of
`restore_pruned` (`heuristics.c:315`) sets each recorded mask bit back
to true. -/
def restoreVar (ctx : CSPForwardCheckContext) (i : Nat) (entries : List Nat) :
    CSPForwardCheckContext :=
  entries.foldl (fun c v => maskSet c i v true) ctx

/-- `restore_pruned` (`heuristics.c:311`): for every variable `i`, set
the first `counts[i]` entries of `pruned[i]` back to true in the live
mask (the subsequent `free(pruned[i])` is a no-op in the model). -/
def restore_pruned (ctx : CSPForwardCheckContext) (counts : List Nat)
    (pruned : List (List Nat)) : CSPForwardCheckContext :=
  (List.range ctx.num_domains).foldl
    (fun c i => restoreVar c i ((pruned.getD i []).take (counts.getD i 0))) ctx

/-- All-variables-assigned test at the top of `backtrack_fc`
(`forward-checking.c:101`). -/
def allAssigned (ctx : CSPForwardCheckContext) : Bool :=
  (List.range ctx.num_domains).all (fun v => ctx.assigned.getD v false)

/-- The per-frame prune step of `backtrack_fc`
(`forward-checking.c:150`–`162`): allocate a zeroed `counts` array and a
NULL-initialised `pruned` array of `num_domains` entries and run
`prune_neighbors` with them. -/
def prune_neighbors_fresh {D : Type} (csp : CSPProblem D) (values : List Nat)
    (data : Option D) (ctx : CSPForwardCheckContext) (var : Nat) :
    CSPForwardCheckContext × List Nat × List Nat × List (List Nat) :=
  prune_neighbors csp values data ctx var (List.replicate ctx.num_domains 0)
    (List.replicate ctx.num_domains [])

/-- The value loop of `backtrack_fc` (`forward-checking.c:123`): try the
LCV-ordered values in turn.  Assign, test `fc_is_consistent` (on failure
reset the assigned flag and continue), prune the neighbours with a fresh
zeroed prune log, recurse (`rec` is the recursive call one level
deeper); on success restore the prunes and report the solution, on
failure restore the prunes, reset the assigned flag and continue. -/
def fcTry {D : Type} (csp : CSPProblem D) (data : Option D)
    (rec : List Nat → CSPForwardCheckContext → Bool × List Nat × CSPForwardCheckContext)
    (var : Nat) :
    List Nat → List Nat → CSPForwardCheckContext →
    Bool × List Nat × CSPForwardCheckContext
  | [], values, ctx => (false, values, ctx)
  | val :: rest, values, ctx =>
    let values1 := values.set var val
    let ctx1 := setAssigned ctx var true
    if fc_is_consistent csp values1 data ctx1 then
      let st := prune_neighbors_fresh csp values1 data ctx1 var
      let r := rec st.2.1 st.1
      if r.1 then (true, r.2.1, restore_pruned r.2.2 st.2.2.1 st.2.2.2)
      else
        let ctx4 := restore_pruned r.2.2 st.2.2.1 st.2.2.2
        fcTry csp data rec var rest r.2.1 (setAssigned ctx4 var false)
    else fcTry csp data rec var rest values1 (setAssigned ctx1 var false)

/-- Fuelled form of `backtrack_fc` (`forward-checking.c:91`): poll the
timeout flag, test for completion, pick the MRV variable, order its
values with LCV (which mutates the snapshot) and run the value loop.
The entry point supplies fuel exceeding the number of unassigned
variables, which the recursion never exhausts. -/
def backtrack_fc {D : Type} (csp : CSPProblem D) (data : Option D) (timeout : Bool) :
    Nat → List Nat → CSPForwardCheckContext → Bool × List Nat × CSPForwardCheckContext
  | 0, values, ctx => (false, values, ctx)
  | fuel + 1, values, ctx =>
    if timeout then (false, values, ctx)
    else if allAssigned ctx then (true, values, ctx)
    else
      let var := select_unassigned_var ctx
      let p := order_values_lcv csp ctx values data var
      fcTry csp data (backtrack_fc csp data timeout fuel) var p.1 p.2 ctx

/-- `csp_problem_solve_forward_checking` (`forward-checking.c:338`):
create the context, run the recursive driver, destroy the context (a
no-op in the model) and return the verdict together with the caller's
snapshot. -/
def csp_problem_solve_forward_checking {D : Type} (csp : CSPProblem D)
    (values : List Nat) (data : Option D) (timeout : Bool) : Bool × List Nat :=
  let ctx := csp_forward_check_context_create csp
  let r := backtrack_fc csp data timeout (ctx.num_domains + 1) values ctx
  (r.1, r.2.1)

/-! ## List helper lemmas -/

theorem getD_set_eq {α : Type} (l : List α) (i : Nat) (a d : α) (h : i < l.length) :
    (l.set i a).getD i d = a := by
  rw [List.getD_eq_getElem?_getD, List.getElem?_set, if_pos rfl, if_pos h]
  rfl

theorem getD_set_ne {α : Type} (l : List α) (i j : Nat) (a d : α) (h : i ≠ j) :
    (l.set i a).getD j d = l.getD j d := by
  rw [List.getD_eq_getElem?_getD, List.getElem?_set, if_neg h, ← List.getD_eq_getElem?_getD]

theorem set_getD_self {α : Type} (l : List α) (i : Nat) (d : α) :
    l.set i (l.getD i d) = l := by
  apply List.ext_getElem?
  intro n
  rw [List.getElem?_set]
  split
  · next heq =>
    subst heq
    split
    · next hl =>
      rw [List.getD_eq_getElem?_getD]
      rcases hx : l[i]? with _ | x
      · exact absurd hx (by simp [List.getElem?_eq_some_iff.symm, hl, ne_eq,
          List.getElem?_eq_none_iff.mp, Nat.not_le.mpr hl] at hx ⊢)
      · simp [hx]
    · next hl =>
      symm
      exact List.getElem?_eq_none (Nat.le_of_not_lt hl)
  · rfl

theorem set_set_cancel {α : Type} (l : List α) (i : Nat) (a : α)
    (h : l.getD i a = a) : (l.set i a) = l := by
  conv_lhs => rw [← h]
  exact set_getD_self l i a

theorem getD_replicate' {α : Type} (n m : Nat) (a d : α) :
    (List.replicate n a).getD m d = if m < n then a else d := by
  rw [List.getD_eq_getElem?_getD, List.getElem?_replicate]
  split <;> rfl

/-! ## C6: the consistency oracle -/

/-- A throwaway constraint used as the `getD` default when indexing the
constraint array (never actually selected by the theorems). -/
def defaultConstraint (D : Type) : CSPConstraint D := ⟨[], fun _ _ => true⟩

/-- The constraint installed in slot `j` (`csp->constraints[j]`). -/
def conAt {D : Type} (csp : CSPProblem D) (j : Nat) : CSPConstraint D :=
  csp.constraints.getD j (defaultConstraint D)

theorem consistentList_true_iff {D : Type} (values : List Nat) (data : Option D)
    (index : Nat) (cons : List (CSPConstraint D)) :
    consistentList values data index cons = true ↔
      ∀ con ∈ cons, csp_constraint_to_check con index = true →
        con.check values data = true := by
  induction cons with
  | nil => simp [consistentList]
  | cons con rest ih =>
    simp only [consistentList]
    by_cases hc : (csp_constraint_to_check con index && !(con.check values data)) = true
    · rw [if_pos hc]
      simp only [Bool.and_eq_true, Bool.not_eq_true'] at hc
      constructor
      · intro h; exact absurd h (by simp)
      · intro h
        have := h con (List.mem_cons_self con rest) hc.1
        rw [this] at hc
        exact absurd hc.2 (by simp)
    · rw [if_neg hc, ih]
      simp only [Bool.and_eq_true, Bool.not_eq_true', not_and] at hc
      constructor
      · intro h con' hmem hto
        rcases List.mem_cons.mp hmem with heq | hmem'
        · subst heq
          rcases hchk : con'.check values data with _ | _
          · exact absurd (hc hto) (by simp [hchk])
          · rfl
        · exact h con' hmem' hto
      · intro h con' hmem hto
        exact h con' (List.mem_cons_of_mem con hmem) hto

theorem consistentList_false_iff {D : Type} (values : List Nat) (data : Option D)
    (index : Nat) (cons : List (CSPConstraint D)) :
    consistentList values data index cons = false ↔
      ∃ j, j < cons.length ∧
        (csp_constraint_to_check (cons.getD j (defaultConstraint D)) index = true ∧
          (cons.getD j (defaultConstraint D)).check values data = false) ∧
        ∀ k, k < j → csp_constraint_to_check (cons.getD k (defaultConstraint D)) index = true →
          (cons.getD k (defaultConstraint D)).check values data = true := by
  induction cons with
  | nil => simp [consistentList]
  | cons con rest ih =>
    simp only [consistentList]
    by_cases hc : (csp_constraint_to_check con index && !(con.check values data)) = true
    · rw [if_pos hc]
      simp only [Bool.and_eq_true, Bool.not_eq_true'] at hc
      constructor
      · intro _
        exact ⟨0, Nat.succ_pos _, by simpa [List.getD_cons_zero] using hc, by omega⟩
      · intro _; rfl
    · rw [if_neg hc, ih]
      simp only [Bool.and_eq_true, Bool.not_eq_true', not_and] at hc
      constructor
      · rintro ⟨j, hj, hfail, hbefore⟩
        refine ⟨j + 1, by simpa using Nat.succ_lt_succ hj, by simpa [List.getD_cons_succ] using hfail, ?_⟩
        intro k hk
        cases k with
        | zero =>
          intro hto
          simp only [List.getD_cons_zero] at hto ⊢
          rcases hchk : con.check values data with _ | _
          · exact absurd (hc hto) (by simp [hchk])
          · rfl
        | succ k' =>
          simp only [List.getD_cons_succ]
          exact hbefore k' (Nat.lt_of_succ_lt_succ hk)
      · rintro ⟨j, hj, hfail, hbefore⟩
        cases j with
        | zero =>
          simp only [List.getD_cons_zero] at hfail
          exact absurd (hc hfail.1) (by simp [hfail.2])
        | succ j' =>
          refine ⟨j', Nat.lt_of_succ_lt_succ hj, by simpa [List.getD_cons_succ] using hfail, ?_⟩
          intro k hk
          have := hbefore (k + 1) (Nat.succ_lt_succ hk)
          simpa [List.getD_cons_succ] using this

/-- C6: `csp_problem_is_consistent P A d i` returns true iff every
installed constraint whose scope variables all lie in `[0, i)` is
satisfied by the snapshot `A` under caller data `d`; a constraint with
any scope variable `≥ i` is skipped (its `csp_constraint_to_check` is
false); and the oracle, walking constraints in installation order,
returns false exactly when some constraint is the first one that is due
for checking and fails. -/
theorem c6_consistency_oracle {D : Type} (csp : CSPProblem D) (values : List Nat)
    (data : Option D) (index : Nat) :
    (csp_problem_is_consistent csp values data index = true ↔
      ∀ con ∈ csp.constraints, (∀ v ∈ con.scope, v < index) →
        con.check values data = true)
    ∧ (∀ con ∈ csp.constraints, (∃ v ∈ con.scope, index ≤ v) →
        csp_constraint_to_check con index = false)
    ∧ (csp_problem_is_consistent csp values data index = false ↔
      ∃ j, j < csp_problem_get_num_constraints csp ∧
        (csp_constraint_to_check (conAt csp j) index = true ∧
          (conAt csp j).check values data = false) ∧
        ∀ k, k < j → csp_constraint_to_check (conAt csp k) index = true →
          (conAt csp k).check values data = true) := by
  refine ⟨?_, ?_, ?_⟩
  · rw [csp_problem_is_consistent, consistentList_true_iff]
    constructor
    · intro h con hmem hscope
      exact h con hmem (by simp [csp_constraint_to_check, List.all_eq_true]; exact hscope)
    · intro h con hmem hto
      simp only [csp_constraint_to_check, List.all_eq_true, decide_eq_true_eq] at hto
      exact h con hmem hto
  · rintro con _ ⟨v, hv, hge⟩
    simp only [csp_constraint_to_check]
    rcases hall : con.scope.all (fun v => decide (v < index)) with _ | _
    · rfl
    · rw [List.all_eq_true] at hall
      have := hall v hv
      simp only [decide_eq_true_eq] at this
      omega
  · exact consistentList_false_iff values data index csp.constraints

/-! ## C8: cancellation -/

/-- C8: the forward-checking driver polls the cancellation flag at the
top of every recursion frame; a frame entered with the flag set returns
false at once with the snapshot and context untouched, and hence
`csp_problem_solve_forward_checking` returns false when the flag is set
before it is called. -/
theorem c8_cancellation {D : Type} (csp : CSPProblem D) (data : Option D)
    (fuel : Nat) (values : List Nat) (ctx : CSPForwardCheckContext) :
    backtrack_fc csp data true fuel values ctx = (false, values, ctx)
    ∧ (csp_problem_solve_forward_checking csp values data true).1 = false := by
  constructor
  · cases fuel with
    | zero => rfl
    | succ n => rfl
  · rfl

/-! ## C9: problem teardown -/

/-- One heap allocation of the problem model, used to record the trace
of `free` calls made by the teardown functions: the problem's
constraint-pointer array, its domain-size array, the problem record
itself, and the constraint object installed in a given slot. -/
inductive FreedResource where
  | constraintArray : FreedResource
  | domainArray : FreedResource
  | problemRecord : FreedResource
  | constraint (index : Nat) : FreedResource
  deriving DecidableEq

/-- `csp_problem_destroy` (`csp.c:200`) as its trace of `free` calls, in
source order: `free(csp->constraints)` releases the pointer array,
`free(csp->domains)` the domain sizes, `free(csp)` the record.  The
loop one would need to free each installed constraint object is absent
from the source. -/
def csp_problem_destroy {D : Type} (_csp : CSPProblem D) : List FreedResource :=
  [FreedResource.constraintArray, FreedResource.domainArray, FreedResource.problemRecord]

/-- A one-slot problem with one installed constraint, used to exhibit
the teardown behaviour. -/
def destroyDemo : CSPProblem Unit :=
  ⟨[1], [⟨[0], fun _ _ => true⟩]⟩

/-- C9 counterexample: `destroyDemo` has an installed constraint (slot
0), yet destroying the problem does not free it. -/
theorem c9_counterexample :
    0 < csp_problem_get_num_constraints destroyDemo ∧
    FreedResource.constraint 0 ∉ csp_problem_destroy destroyDemo := by
  exact ⟨by decide, by decide⟩

/-- C9 amended: destroying a problem frees exactly the problem's own
arrays — the constraint-pointer array, the domain array and the problem
record — and never an installed constraint object; constraints remain
owned by the caller (as `csp.h` documents for `csp_problem_destroy`). -/
theorem c9_destroy_frees_only_problem_arrays {D : Type} (csp : CSPProblem D) :
    csp_problem_destroy csp =
      [FreedResource.constraintArray, FreedResource.domainArray,
        FreedResource.problemRecord]
    ∧ ∀ i, FreedResource.constraint i ∉ csp_problem_destroy csp := by
  refine ⟨rfl, ?_⟩
  intro i h
  simp [csp_problem_destroy] at h

/-! ## Mask read/write lemmas -/

theorem getD_eq_default_of_le {α : Type} (l : List α) (n : Nat) (d : α)
    (h : l.length ≤ n) : l.getD n d = d := by
  rw [List.getD_eq_getElem?_getD, List.getElem?_eq_none h]
  rfl

theorem maskSet_fields (ctx : CSPForwardCheckContext) (w v : Nat) (b : Bool) :
    (maskSet ctx w v b).num_domains = ctx.num_domains ∧
    (maskSet ctx w v b).original_domain_sizes = ctx.original_domain_sizes ∧
    (maskSet ctx w v b).assigned = ctx.assigned := ⟨rfl, rfl, rfl⟩

theorem maskSet_rows_length (ctx : CSPForwardCheckContext) (w v : Nat) (b : Bool) :
    (maskSet ctx w v b).current_domains.length = ctx.current_domains.length :=
  List.length_set ..

theorem maskSet_row_length (ctx : CSPForwardCheckContext) (w v : Nat) (b : Bool)
    (w' : Nat) :
    ((maskSet ctx w v b).current_domains.getD w' []).length =
      (ctx.current_domains.getD w' []).length := by
  by_cases h : w = w'
  · subst h
    by_cases hw : w < ctx.current_domains.length
    · simp only [maskSet]
      rw [getD_set_eq _ _ _ _ hw, List.length_set]
    · simp only [maskSet]
      rw [List.set_eq_of_length_le (Nat.le_of_not_lt hw)]
  · simp only [maskSet]
    rw [getD_set_ne _ _ _ _ _ h]

theorem maskGet_maskSet_self (ctx : CSPForwardCheckContext) (w v : Nat) (b : Bool)
    (hw : w < ctx.current_domains.length)
    (hv : v < (ctx.current_domains.getD w []).length) :
    maskGet (maskSet ctx w v b) w v = b := by
  simp only [maskGet, maskSet]
  rw [getD_set_eq _ _ _ _ hw, getD_set_eq _ _ _ _ hv]

theorem maskGet_maskSet_ne (ctx : CSPForwardCheckContext) (w v : Nat) (b : Bool)
    (w' v' : Nat) (h : w ≠ w' ∨ v ≠ v') :
    maskGet (maskSet ctx w v b) w' v' = maskGet ctx w' v' := by
  rcases h with h | h
  · simp only [maskGet, maskSet]
    rw [getD_set_ne _ _ _ _ _ h]
  · by_cases hw : w = w'
    · subst hw
      by_cases hwl : w < ctx.current_domains.length
      · simp only [maskGet, maskSet]
        rw [getD_set_eq _ _ _ _ hwl, getD_set_ne _ _ _ _ _ h]
      · simp only [maskGet, maskSet]
        rw [List.set_eq_of_length_le (Nat.le_of_not_lt hwl)]
    · simp only [maskGet, maskSet]
      rw [getD_set_ne _ _ _ _ _ hw]

theorem maskGet_true_lt (ctx : CSPForwardCheckContext) (w v : Nat)
    (h : maskGet ctx w v = true) :
    w < ctx.current_domains.length ∧ v < (ctx.current_domains.getD w []).length := by
  constructor
  · by_contra hw
    rw [maskGet, getD_eq_default_of_le _ _ _ (Nat.le_of_not_lt hw), List.getD_nil] at h
    exact absurd h (by simp)
  · by_contra hv
    rw [maskGet, getD_eq_default_of_le _ _ _ (Nat.le_of_not_lt hv)] at h
    exact absurd h (by simp)

theorem setAssigned_fields (ctx : CSPForwardCheckContext) (w : Nat) (b : Bool) :
    (setAssigned ctx w b).num_domains = ctx.num_domains ∧
    (setAssigned ctx w b).original_domain_sizes = ctx.original_domain_sizes ∧
    (setAssigned ctx w b).current_domains = ctx.current_domains := ⟨rfl, rfl, rfl⟩

/-! ## The prune-log invariant (C10, C5) -/

/-- Invariant relating the entry state `c0` of a `prune_neighbors` call
to the running state `(ctx, counts, pruned)` of its loops: only mask
bits change; `counts` mirrors the lengths of the per-variable prune
records; recorded values are pairwise distinct, were live at entry, lie
inside the variable's original domain, and are exactly the mask bits
cleared so far. -/
structure PruneInv (c0 ctx : CSPForwardCheckContext) (counts : List Nat)
    (pruned : List (List Nat)) : Prop where
  nd : ctx.num_domains = c0.num_domains
  ods : ctx.original_domain_sizes = c0.original_domain_sizes
  asg : ctx.assigned = c0.assigned
  mlen : c0.current_domains.length ≤ c0.num_domains
  rowsLen : ctx.current_domains.length = c0.current_domains.length
  rowLen : ∀ w, (ctx.current_domains.getD w []).length =
    (c0.current_domains.getD w []).length
  countsLen : counts.length = c0.num_domains
  prunedLen : pruned.length = c0.num_domains
  countsEq : ∀ w, counts.getD w 0 = (pruned.getD w []).length
  nodup : ∀ w, (pruned.getD w []).Nodup
  wasLive : ∀ w o, o ∈ pruned.getD w [] → maskGet c0 w o = true
  inRange : ∀ w o, o ∈ pruned.getD w [] → o < c0.original_domain_sizes.getD w 0
  masks : ∀ w o, maskGet ctx w o =
    (maskGet c0 w o && !(decide (o ∈ pruned.getD w [])))

theorem pruneInv_init (c0 : CSPForwardCheckContext)
    (hm : c0.current_domains.length ≤ c0.num_domains) :
    PruneInv c0 c0 (List.replicate c0.num_domains 0)
      (List.replicate c0.num_domains ([] : List Nat)) := by
  refine ⟨rfl, rfl, rfl, hm, rfl, fun _ => rfl, List.length_replicate .., List.length_replicate ..,
    ?_, ?_, ?_, ?_, ?_⟩
  · intro w
    rw [getD_replicate', getD_replicate']
    split <;> rfl
  · intro w
    rw [getD_replicate']
    split <;> simp
  · intro w o h
    rw [getD_replicate'] at h
    revert h
    split <;> simp
  · intro w o h
    rw [getD_replicate'] at h
    revert h
    split <;> simp
  · intro w o
    rw [getD_replicate']
    split <;> simp

theorem pruneVals_spec {D : Type} (con : CSPConstraint D) (data : Option D) (other : Nat)
    (c0 : CSPForwardCheckContext) :
    ∀ (os : List Nat) (ctx : CSPForwardCheckContext) (vals counts : List Nat)
      (pruned : List (List Nat)),
    PruneInv c0 ctx counts pruned →
    (∀ o ∈ os, o < c0.original_domain_sizes.getD other 0) →
    PruneInv c0 (pruneVals con data other os ctx vals counts pruned).1
        (pruneVals con data other os ctx vals counts pruned).2.2.1
        (pruneVals con data other os ctx vals counts pruned).2.2.2 ∧
      (pruneVals con data other os ctx vals counts pruned).2.1.length = vals.length ∧
      (∀ q, q ≠ other →
        (pruneVals con data other os ctx vals counts pruned).2.1.getD q 0 =
          vals.getD q 0) ∧
      (∀ w o, o ∈ pruned.getD w [] →
        o ∈ (pruneVals con data other os ctx vals counts pruned).2.2.2.getD w []) ∧
      (∀ w o, o ∈ (pruneVals con data other os ctx vals counts pruned).2.2.2.getD w [] →
        o ∈ pruned.getD w [] ∨
          (w = other ∧ ∃ vmid : List Nat, vmid.length = vals.length ∧
            (∀ q, q ≠ other → vmid.getD q 0 = vals.getD q 0) ∧
            (other < vals.length → vmid.getD other 0 = o) ∧
            con.check vmid data = false)) := by
  intro os
  induction os with
  | nil =>
    intro ctx vals counts pruned hinv _
    simp only [pruneVals]
    exact ⟨hinv, by simp, by simp, fun _ _ h => h, fun _ _ h => Or.inl h⟩
  | cons o os ih =>
    intro ctx vals counts pruned hinv hos
    simp only [pruneVals]
    by_cases hlive : maskGet ctx other o = true
    · rw [if_pos hlive]
      by_cases hchk : con.check (vals.set other o) data = true
      · rw [if_pos hchk]
        obtain ⟨h1, h2, h3, h4, h5⟩ := ih ctx (vals.set other o) counts pruned hinv
          (fun o' ho' => hos o' (List.mem_cons_of_mem _ ho'))
        refine ⟨h1, by rw [h2, List.length_set], ?_, h4, ?_⟩
        · intro q hq
          rw [h3 q hq, getD_set_ne _ _ _ _ _ (fun h => hq h.symm)]
        · intro w o' ho'
          rcases h5 w o' ho' with h | ⟨hw, vmid, hl, ha, hg, hc⟩
          · exact Or.inl h
          · refine Or.inr ⟨hw, vmid, by rw [hl, List.length_set], ?_, ?_, hc⟩
            · intro q hq
              rw [ha q hq, getD_set_ne _ _ _ _ _ (fun h => hq h.symm)]
            · intro hlt
              exact hg (by rwa [List.length_set])
      · rw [if_neg hchk]
        -- record branch: combine the mask-level facts before recursing
        have hm0 : maskGet c0 other o = true ∧ o ∉ pruned.getD other [] := by
          have hmm := hinv.masks other o
          rw [hlive] at hmm
          constructor
          · by_contra h
            rw [Bool.not_eq_true] at h
            rw [h] at hmm
            simp at hmm
          · intro hmem
            simp at hmm
            rw [List.getD_eq_getElem?_getD] at hmem
            exact hmm.2 hmem
        have hwlt : other < c0.current_domains.length ∧
            o < (c0.current_domains.getD other []).length :=
          maskGet_true_lt c0 other o hm0.1
        have hond : other < c0.num_domains := Nat.lt_of_lt_of_le hwlt.1 hinv.mlen
        have hoctx : other < ctx.current_domains.length := by
          rw [hinv.rowsLen]; exact hwlt.1
        have hoctxrow : o < (ctx.current_domains.getD other []).length := by
          rw [hinv.rowLen]; exact hwlt.2
        have hocnt : other < counts.length := by rw [hinv.countsLen]; exact hond
        have hoprn : other < pruned.length := by rw [hinv.prunedLen]; exact hond
        have hinv' : PruneInv c0 (maskSet ctx other o false)
            (counts.set other (counts.getD other 0 + 1))
            (pruned.set other (pruned.getD other [] ++ [o])) := by
          refine ⟨?_, ?_, ?_, hinv.mlen, ?_, ?_, ?_, ?_, ?_, ?_, ?_, ?_, ?_⟩
          · rw [(maskSet_fields ctx other o false).1, hinv.nd]
          · rw [(maskSet_fields ctx other o false).2.1, hinv.ods]
          · rw [(maskSet_fields ctx other o false).2.2, hinv.asg]
          · rw [maskSet_rows_length, hinv.rowsLen]
          · intro w
            rw [maskSet_row_length, hinv.rowLen]
          · rw [List.length_set, hinv.countsLen]
          · rw [List.length_set, hinv.prunedLen]
          · intro w
            by_cases hw : other = w
            · subst hw
              rw [getD_set_eq _ _ _ _ hocnt, getD_set_eq _ _ _ _ hoprn,
                List.length_append, hinv.countsEq]
              rfl
            · rw [getD_set_ne _ _ _ _ _ hw,
                getD_set_ne _ _ _ _ _ hw, hinv.countsEq]
          · intro w
            by_cases hw : other = w
            · subst hw
              rw [getD_set_eq _ _ _ _ hoprn]
              rw [List.nodup_append]
              exact ⟨hinv.nodup other, List.nodup_singleton o,
                by intro a ha hb; rw [List.mem_singleton] at hb; subst hb; exact hm0.2 ha⟩
            · rw [getD_set_ne _ _ _ _ _ hw]
              exact hinv.nodup w
          · intro w o' hmem
            by_cases hw : other = w
            · subst hw
              rw [getD_set_eq _ _ _ _ hoprn] at hmem
              rcases List.mem_append.mp hmem with h | h
              · exact hinv.wasLive _ _ h
              · rw [List.mem_singleton] at h
                rw [h]
                exact hm0.1
            · rw [getD_set_ne _ _ _ _ _ hw] at hmem
              exact hinv.wasLive _ _ hmem
          · intro w o' hmem
            by_cases hw : other = w
            · subst hw
              rw [getD_set_eq _ _ _ _ hoprn] at hmem
              rcases List.mem_append.mp hmem with h | h
              · exact hinv.inRange _ _ h
              · rw [List.mem_singleton] at h
                rw [h]
                exact hos o (List.mem_cons_self _ _)
            · rw [getD_set_ne _ _ _ _ _ hw] at hmem
              exact hinv.inRange _ _ hmem
          · intro w o'
            by_cases hw : other = w
            · subst hw
              rw [getD_set_eq _ _ _ _ hoprn]
              by_cases ho : o = o'
              · subst ho
                rw [maskGet_maskSet_self _ _ _ _ hoctx hoctxrow]
                simp [List.mem_append]
              · rw [maskGet_maskSet_ne _ _ _ _ _ _ (Or.inr ho),
                  hinv.masks]
                have hne : ¬(o' = o) := fun h => ho h.symm
                simp only [List.mem_append, List.mem_singleton, hne, or_false]
            · rw [getD_set_ne _ _ _ _ _ hw,
                maskGet_maskSet_ne _ _ _ _ _ _ (Or.inl hw),
                hinv.masks]
        obtain ⟨h1, h2, h3, h4, h5⟩ := ih (maskSet ctx other o false) (vals.set other o)
          (counts.set other (counts.getD other 0 + 1))
          (pruned.set other (pruned.getD other [] ++ [o])) hinv'
          (fun o' ho' => hos o' (List.mem_cons_of_mem _ ho'))
        refine ⟨h1, by rw [h2, List.length_set], ?_, ?_, ?_⟩
        · intro q hq
          rw [h3 q hq, getD_set_ne _ _ _ _ _ (fun h => hq h.symm)]
        · intro w o' hmem
          apply h4
          by_cases hw : other = w
          · subst hw
            rw [getD_set_eq _ _ _ _ hoprn]
            exact List.mem_append_left _ hmem
          · rw [getD_set_ne _ _ _ _ _ hw]
            exact hmem
        · intro w o' hmem
          rcases h5 w o' hmem with h | ⟨hw, vmid, hl, ha, hg, hc⟩
          · by_cases hw : other = w
            · subst hw
              rw [getD_set_eq _ _ _ _ hoprn] at h
              rcases List.mem_append.mp h with h | h
              · exact Or.inl h
              · rw [List.mem_singleton] at h
                rw [h]
                refine Or.inr ⟨rfl, vals.set other o, List.length_set .., ?_, ?_, ?_⟩
                · intro q hq
                  rw [getD_set_ne _ _ _ _ _ (fun h => hq h.symm)]
                · intro hlt
                  rw [getD_set_eq _ _ _ _ hlt]
                · rwa [Bool.not_eq_true] at hchk
            · rw [getD_set_ne _ _ _ _ _ hw] at h
              exact Or.inl h
          · refine Or.inr ⟨hw, vmid, by rw [hl, List.length_set], ?_, ?_, hc⟩
            · intro q hq
              rw [ha q hq, getD_set_ne _ _ _ _ _ (fun h => hq h.symm)]
            · intro hlt
              exact hg (by rwa [List.length_set])
    · rw [if_neg hlive]
      exact ih ctx vals counts pruned hinv (fun o' ho' => hos o' (List.mem_cons_of_mem _ ho'))

theorem pruneCons_spec {D : Type} (data : Option D) (var : Nat)
    (c0 : CSPForwardCheckContext) :
    ∀ (cons : List (CSPConstraint D)) (ctx : CSPForwardCheckContext)
      (vals counts : List Nat) (pruned : List (List Nat)),
    PruneInv c0 ctx counts pruned →
    PruneInv c0 (pruneCons data var cons ctx vals counts pruned).1
        (pruneCons data var cons ctx vals counts pruned).2.2.1
        (pruneCons data var cons ctx vals counts pruned).2.2.2 ∧
      (pruneCons data var cons ctx vals counts pruned).2.1.length = vals.length ∧
      (∀ q, c0.assigned.getD q false = true →
        (pruneCons data var cons ctx vals counts pruned).2.1.getD q 0 = vals.getD q 0) ∧
      (∀ w o, o ∈ pruned.getD w [] →
        o ∈ (pruneCons data var cons ctx vals counts pruned).2.2.2.getD w []) ∧
      (∀ w o, o ∈ (pruneCons data var cons ctx vals counts pruned).2.2.2.getD w [] →
        o ∈ pruned.getD w [] ∨
          ∃ con ∈ cons, con.scope.length = 2 ∧ lcvOther con var = some w ∧
            c0.assigned.getD w false = false ∧
            ∃ vmid : List Nat, vmid.length = vals.length ∧
              (∀ q, c0.assigned.getD q false = true → vmid.getD q 0 = vals.getD q 0) ∧
              (w < vals.length → vmid.getD w 0 = o) ∧
              con.check vmid data = false) := by
  intro cons
  induction cons with
  | nil =>
    intro ctx vals counts pruned hinv
    simp only [pruneCons]
    exact ⟨hinv, by simp, by simp, fun _ _ h => h, fun _ _ h => Or.inl h⟩
  | cons con rest ih =>
    intro ctx vals counts pruned hinv
    simp only [pruneCons]
    by_cases har : csp_constraint_get_arity con ≠ 2
    · rw [if_pos har]
      obtain ⟨h1, h2, h3, h4, h5⟩ := ih ctx vals counts pruned hinv
      refine ⟨h1, h2, h3, h4, ?_⟩
      intro w o hmem
      rcases h5 w o hmem with h | ⟨con', hcmem, hrest⟩
      · exact Or.inl h
      · exact Or.inr ⟨con', List.mem_cons_of_mem _ hcmem, hrest⟩
    · rw [if_neg har]
      split
      · obtain ⟨h1, h2, h3, h4, h5⟩ := ih ctx vals counts pruned hinv
        refine ⟨h1, h2, h3, h4, ?_⟩
        intro w o hmem
        rcases h5 w o hmem with h | ⟨con', hcmem, hrest⟩
        · exact Or.inl h
        · exact Or.inr ⟨con', List.mem_cons_of_mem _ hcmem, hrest⟩
      · next other hoth =>
        by_cases hasg : ctx.assigned.getD other false = true
        · rw [if_pos hasg]
          obtain ⟨h1, h2, h3, h4, h5⟩ := ih ctx vals counts pruned hinv
          refine ⟨h1, h2, h3, h4, ?_⟩
          intro w o hmem
          rcases h5 w o hmem with h | ⟨con', hcmem, hrest⟩
          · exact Or.inl h
          · exact Or.inr ⟨con', List.mem_cons_of_mem _ hcmem, hrest⟩
        · rw [if_neg hasg]
          have hasg0 : c0.assigned.getD other false = false := by
            rw [← hinv.asg]
            exact Bool.not_eq_true _ ▸ hasg
          obtain ⟨p1, p2, p3, p4, p5⟩ := pruneVals_spec con data other c0
            (List.range (ctx.original_domain_sizes.getD other 0)) ctx vals counts pruned
            hinv
            (by
              intro o ho
              rw [← hinv.ods]
              exact List.mem_range.mp ho)
          obtain ⟨h1, h2, h3, h4, h5⟩ := ih _ _ _ _ p1
          refine ⟨h1, by rw [h2, p2], ?_, ?_, ?_⟩
          · intro q hq
            rw [h3 q hq, p3 q ?_]
            intro hqo
            rw [hqo, hasg0] at hq
            exact absurd hq (by simp)
          · intro w o hmem
            exact h4 w o (p4 w o hmem)
          · intro w o hmem
            rcases h5 w o hmem with h | ⟨con', hcmem, hs2, hsoth, hsasg, vmid, hl, ha, hg, hc⟩
            · rcases p5 w o h with h' | ⟨hw, vmid, hl, ha, hg, hc⟩
              · exact Or.inl h'
              · refine Or.inr ⟨con, List.mem_cons_self _ _, ?_, ?_, ?_, vmid, hl, ?_, ?_, hc⟩
                · exact not_not.mp har
                · rw [hw]
                  exact hoth
                · rw [hw]
                  exact hasg0
                · intro q hq
                  apply ha
                  intro hqo
                  rw [hqo, hasg0] at hq
                  exact absurd hq (by simp)
                · rw [hw]
                  exact hg
            · refine Or.inr ⟨con', List.mem_cons_of_mem _ hcmem, hs2, hsoth, hsasg, vmid,
                by rw [hl, p2], ?_, ?_, hc⟩
              · intro q hq
                rw [ha q hq]
                apply p3 q
                intro hqo
                rw [hqo, hasg0] at hq
                exact absurd hq (by simp)
              · rw [p2] at hg
                exact hg

theorem nodup_lt_length_le (l : List Nat) (n : Nat) (hnd : l.Nodup)
    (hlt : ∀ o ∈ l, o < n) : l.length ≤ n := by
  classical
  have h1 : l.toFinset ⊆ Finset.range n := by
    intro x hx
    rw [List.mem_toFinset] at hx
    exact Finset.mem_range.mpr (hlt x hx)
  have h2 := Finset.card_le_card h1
  rw [Finset.card_range] at h2
  rwa [List.toFinset_card_of_nodup hnd] at h2

theorem maskGet_maskSet (ctx : CSPForwardCheckContext) (w v : Nat) (b : Bool)
    (w' o : Nat) :
    maskGet (maskSet ctx w v b) w' o =
      if w = w' ∧ v = o ∧ w < ctx.current_domains.length ∧
          v < (ctx.current_domains.getD w []).length
      then b else maskGet ctx w' o := by
  by_cases hw : w = w'
  · subst hw
    by_cases hv : v = o
    · subst hv
      by_cases hwl : w < ctx.current_domains.length
      · by_cases hvl : v < (ctx.current_domains.getD w []).length
        · rw [if_pos ⟨rfl, rfl, hwl, hvl⟩]
          exact maskGet_maskSet_self ctx w v b hwl hvl
        · rw [if_neg (by tauto)]
          simp only [maskGet, maskSet]
          rw [getD_set_eq _ _ _ _ hwl, List.set_eq_of_length_le (Nat.le_of_not_lt hvl)]
      · rw [if_neg (by tauto)]
        simp only [maskGet, maskSet]
        rw [List.set_eq_of_length_le (Nat.le_of_not_lt hwl)]
    · rw [if_neg (by tauto)]
      exact maskGet_maskSet_ne ctx w v b w o (Or.inr hv)
  · rw [if_neg (by tauto)]
    exact maskGet_maskSet_ne ctx w v b w' o (Or.inl hw)

theorem restoreVar_fields (i : Nat) (entries : List Nat) :
    ∀ ctx : CSPForwardCheckContext,
    (restoreVar ctx i entries).num_domains = ctx.num_domains ∧
    (restoreVar ctx i entries).original_domain_sizes = ctx.original_domain_sizes ∧
    (restoreVar ctx i entries).assigned = ctx.assigned ∧
    (restoreVar ctx i entries).current_domains.length = ctx.current_domains.length ∧
    ∀ w, ((restoreVar ctx i entries).current_domains.getD w []).length =
      (ctx.current_domains.getD w []).length := by
  induction entries with
  | nil => exact fun ctx => ⟨rfl, rfl, rfl, rfl, fun _ => rfl⟩
  | cons e es ih =>
    intro ctx
    have h := ih (maskSet ctx i e true)
    simp only [restoreVar, List.foldl_cons] at h ⊢
    refine ⟨h.1, h.2.1, h.2.2.1, ?_, ?_⟩
    · rw [h.2.2.2.1, maskSet_rows_length]
    · intro w
      rw [h.2.2.2.2 w, maskSet_row_length]

theorem maskGet_restoreVar (i : Nat) (entries : List Nat) :
    ∀ (ctx : CSPForwardCheckContext) (w o : Nat),
    maskGet (restoreVar ctx i entries) w o =
      (maskGet ctx w o ||
        (decide (w = i) && decide (o ∈ entries) &&
          decide (w < ctx.current_domains.length) &&
          decide (o < (ctx.current_domains.getD w []).length))) := by
  induction entries with
  | nil =>
    intro ctx w o
    simp [restoreVar]
  | cons e es ih =>
    intro ctx w o
    simp only [restoreVar, List.foldl_cons] at ih ⊢
    rw [ih (maskSet ctx i e true) w o, maskGet_maskSet, maskSet_rows_length,
      maskSet_row_length]
    by_cases hb : i = w ∧ e = o ∧ i < ctx.current_domains.length ∧
        e < (ctx.current_domains.getD i []).length
    · rw [if_pos hb]
      obtain ⟨h1, h2, h3, h4⟩ := hb
      rw [Bool.eq_iff_iff]
      simp only [Bool.or_eq_true, Bool.and_eq_true, decide_eq_true_eq, List.mem_cons]
      constructor
      · intro _
        right
        refine ⟨⟨⟨h1.symm, Or.inl h2.symm⟩, ?_⟩, ?_⟩
        · rw [← h1]; exact h3
        · rw [← h1, ← h2]; exact h4
      · intro _
        exact Or.inl trivial
    · rw [if_neg hb]
      rw [Bool.eq_iff_iff]
      simp only [Bool.or_eq_true, Bool.and_eq_true, decide_eq_true_eq, List.mem_cons]
      constructor
      · rintro (h | ⟨⟨⟨hwi, hmem⟩, hl⟩, hr⟩)
        · exact Or.inl h
        · exact Or.inr ⟨⟨⟨hwi, Or.inr hmem⟩, hl⟩, hr⟩
      · rintro (h | ⟨⟨⟨hwi, hmem | hmem⟩, hl⟩, hr⟩)
        · exact Or.inl h
        · exfalso
          apply hb
          refine ⟨hwi.symm, hmem.symm, ?_, ?_⟩
          · rw [← hwi]; exact hl
          · rw [← hwi, ← hmem]; exact hr
        · exact Or.inr ⟨⟨⟨hwi, hmem⟩, hl⟩, hr⟩

theorem restore_pruned_fields (ctx : CSPForwardCheckContext) (counts : List Nat)
    (pruned : List (List Nat)) :
    (restore_pruned ctx counts pruned).num_domains = ctx.num_domains ∧
    (restore_pruned ctx counts pruned).original_domain_sizes =
      ctx.original_domain_sizes ∧
    (restore_pruned ctx counts pruned).assigned = ctx.assigned ∧
    (restore_pruned ctx counts pruned).current_domains.length =
      ctx.current_domains.length ∧
    ∀ w, ((restore_pruned ctx counts pruned).current_domains.getD w []).length =
      (ctx.current_domains.getD w []).length := by
  rw [restore_pruned]
  generalize List.range ctx.num_domains = is
  induction is generalizing ctx with
  | nil => exact ⟨rfl, rfl, rfl, rfl, fun _ => rfl⟩
  | cons i is ih =>
    rw [List.foldl_cons]
    have h2 := restoreVar_fields i ((pruned.getD i []).take (counts.getD i 0)) ctx
    have h1 := ih (restoreVar ctx i ((pruned.getD i []).take (counts.getD i 0)))
    refine ⟨h1.1.trans h2.1, h1.2.1.trans h2.2.1, h1.2.2.1.trans h2.2.2.1,
      h1.2.2.2.1.trans h2.2.2.2.1, ?_⟩
    intro w
    rw [h1.2.2.2.2 w, h2.2.2.2.2 w]

theorem maskGet_restore_fold (counts : List Nat) (pruned : List (List Nat)) :
    ∀ (is : List Nat) (ctx : CSPForwardCheckContext) (w o : Nat),
    maskGet
        (is.foldl (fun c i => restoreVar c i ((pruned.getD i []).take (counts.getD i 0)))
          ctx) w o =
      (maskGet ctx w o ||
        (decide (w ∈ is) && decide (o ∈ (pruned.getD w []).take (counts.getD w 0)) &&
          decide (w < ctx.current_domains.length) &&
          decide (o < (ctx.current_domains.getD w []).length))) := by
  intro is
  induction is with
  | nil =>
    intro ctx w o
    simp
  | cons i is ih =>
    intro ctx w o
    rw [List.foldl_cons]
    have hfields := restoreVar_fields i ((pruned.getD i []).take (counts.getD i 0)) ctx
    rw [ih (restoreVar ctx i ((pruned.getD i []).take (counts.getD i 0))) w o,
      maskGet_restoreVar, hfields.2.2.2.1, hfields.2.2.2.2 w]
    rw [Bool.eq_iff_iff]
    simp only [Bool.or_eq_true, Bool.and_eq_true, decide_eq_true_eq, List.mem_cons]
    constructor
    · rintro ((h | ⟨⟨⟨hwi, hmem⟩, hl⟩, hr⟩) | ⟨⟨⟨hin, hmem⟩, hl⟩, hr⟩)
      · exact Or.inl h
      · refine Or.inr ⟨⟨⟨Or.inl hwi, ?_⟩, hl⟩, hr⟩
        rw [hwi]
        exact hmem
      · exact Or.inr ⟨⟨⟨Or.inr hin, hmem⟩, hl⟩, hr⟩
    · rintro (h | ⟨⟨⟨hwi | hin, hmem⟩, hl⟩, hr⟩)
      · exact Or.inl (Or.inl h)
      · refine Or.inl (Or.inr ⟨⟨⟨hwi, ?_⟩, hl⟩, hr⟩)
        rw [← hwi]
        exact hmem
      · exact Or.inr ⟨⟨⟨hin, hmem⟩, hl⟩, hr⟩

theorem maskGet_restore_pruned (ctx : CSPForwardCheckContext) (counts : List Nat)
    (pruned : List (List Nat)) (w o : Nat) :
    maskGet (restore_pruned ctx counts pruned) w o =
      (maskGet ctx w o ||
        (decide (w < ctx.num_domains) &&
          decide (o ∈ (pruned.getD w []).take (counts.getD w 0)) &&
          decide (w < ctx.current_domains.length) &&
          decide (o < (ctx.current_domains.getD w []).length))) := by
  rw [restore_pruned, maskGet_restore_fold]
  rw [Bool.eq_iff_iff]
  simp only [Bool.or_eq_true, Bool.and_eq_true, decide_eq_true_eq, List.mem_range]

theorem getD_eq_getElem' {α : Type} (l : List α) (n : Nat) (d : α)
    (h : n < l.length) : l.getD n d = l[n] := by
  rw [List.getD_eq_getElem?_getD, List.getElem?_eq_getElem h]
  rfl

theorem masks_ext (c1 c2 : CSPForwardCheckContext)
    (hlen : c1.current_domains.length = c2.current_domains.length)
    (hrow : ∀ w, (c1.current_domains.getD w []).length =
      (c2.current_domains.getD w []).length)
    (hget : ∀ w o, maskGet c1 w o = maskGet c2 w o) :
    c1.current_domains = c2.current_domains := by
  have hrows : ∀ w, c1.current_domains.getD w [] = c2.current_domains.getD w [] := by
    intro w
    apply List.ext_getElem?
    intro o
    rcases Nat.lt_or_ge o (c1.current_domains.getD w []).length with ho | ho
    · have ho2 : o < (c2.current_domains.getD w []).length := by
        rw [← hrow w]; exact ho
      rw [List.getElem?_eq_getElem ho, List.getElem?_eq_getElem ho2]
      have h1 := hget w o
      simp only [maskGet] at h1
      rw [getD_eq_getElem' _ _ _ ho, getD_eq_getElem' _ _ _ ho2] at h1
      exact congrArg some h1
    · have ho2 : (c2.current_domains.getD w []).length ≤ o := by
        rw [← hrow w]; exact ho
      rw [List.getElem?_eq_none ho, List.getElem?_eq_none ho2]
  apply List.ext_getElem?
  intro w
  rcases Nat.lt_or_ge w c1.current_domains.length with hw | hw
  · have hw2 : w < c2.current_domains.length := by rw [← hlen]; exact hw
    rw [List.getElem?_eq_getElem hw, List.getElem?_eq_getElem hw2]
    have h := hrows w
    rw [getD_eq_getElem' _ _ _ hw, getD_eq_getElem' _ _ _ hw2] at h
    exact congrArg some h
  · have hw2 : c2.current_domains.length ≤ w := by rw [← hlen]; exact hw
    rw [List.getElem?_eq_none hw, List.getElem?_eq_none hw2]

theorem prune_neighbors_fresh_def {D : Type} (csp : CSPProblem D) (values : List Nat)
    (data : Option D) (ctx : CSPForwardCheckContext) (var : Nat) :
    prune_neighbors_fresh csp values data ctx var =
      pruneCons data var csp.constraints ctx values
        (List.replicate ctx.num_domains 0) (List.replicate ctx.num_domains []) := rfl

/-- C10: running `prune_neighbors` from a fresh zeroed prune log leaves,
for every variable `w`, a record `pruned[w]` of pairwise distinct values
each of which was live at entry and lies below `w`'s original domain
size; `counts[w]` equals the number of recorded values and is at most
the original domain size; the mask bits cleared are exactly the
recorded values; and the assigned flags (and the other context fields)
do not change. -/
theorem c10_prune_log {D : Type} (csp : CSPProblem D) (values : List Nat)
    (data : Option D) (ctx : CSPForwardCheckContext) (var : Nat)
    (hm : ctx.current_domains.length ≤ ctx.num_domains) :
    (∀ w, ((prune_neighbors_fresh csp values data ctx var).2.2.2.getD w []).Nodup) ∧
    (∀ w o, o ∈ (prune_neighbors_fresh csp values data ctx var).2.2.2.getD w [] →
      maskGet ctx w o = true) ∧
    (∀ w, (prune_neighbors_fresh csp values data ctx var).2.2.1.getD w 0 =
      ((prune_neighbors_fresh csp values data ctx var).2.2.2.getD w []).length) ∧
    (∀ w, (prune_neighbors_fresh csp values data ctx var).2.2.1.getD w 0 ≤
      ctx.original_domain_sizes.getD w 0) ∧
    (∀ w o, maskGet (prune_neighbors_fresh csp values data ctx var).1 w o =
      (maskGet ctx w o &&
        !(decide (o ∈ (prune_neighbors_fresh csp values data ctx var).2.2.2.getD w [])))) ∧
    (prune_neighbors_fresh csp values data ctx var).1.assigned = ctx.assigned ∧
    (prune_neighbors_fresh csp values data ctx var).1.num_domains = ctx.num_domains ∧
    (prune_neighbors_fresh csp values data ctx var).1.original_domain_sizes =
      ctx.original_domain_sizes := by
  rw [prune_neighbors_fresh_def]
  obtain ⟨hinv, _, _, _, _⟩ := pruneCons_spec data var ctx csp.constraints ctx values
    (List.replicate ctx.num_domains 0) (List.replicate ctx.num_domains [])
    (pruneInv_init ctx hm)
  refine ⟨fun w => hinv.nodup w, fun w o h => hinv.wasLive w o h,
    fun w => hinv.countsEq w, ?_, fun w o => hinv.masks w o, hinv.asg, hinv.nd, hinv.ods⟩
  intro w
  rw [hinv.countsEq w]
  exact nodup_lt_length_le _ _ (hinv.nodup w) (fun o ho => hinv.inRange w o ho)

/-- The binary "different" constraint on variables 0 and 1, as installed
by the repository's own prune test (`test_prune_neighbors`). -/
def diffCon01 : CSPConstraint Nat :=
  ⟨[0, 1], fun vals _ => decide (vals.getD 0 0 ≠ vals.getD 1 0)⟩

/-- Two variables with domains `{0,1}` and one "different" constraint. -/
def pruneDemo : CSPProblem Nat := ⟨[2, 2], [diffCon01]⟩

/-- The context of `test_prune_neighbors` just after variable 0 is
assigned. -/
def pruneDemoCtx : CSPForwardCheckContext :=
  setAssigned (csp_forward_check_context_create pruneDemo) 0 true

theorem c10_witness :
    pruneDemoCtx.current_domains.length ≤ pruneDemoCtx.num_domains ∧
    ((∀ w, ((prune_neighbors_fresh pruneDemo [0, 0] none pruneDemoCtx 0).2.2.2.getD
        w []).Nodup) ∧
    (∀ w o, o ∈ (prune_neighbors_fresh pruneDemo [0, 0] none pruneDemoCtx 0).2.2.2.getD
        w [] → maskGet pruneDemoCtx w o = true) ∧
    (∀ w, (prune_neighbors_fresh pruneDemo [0, 0] none pruneDemoCtx 0).2.2.1.getD w 0 =
      ((prune_neighbors_fresh pruneDemo [0, 0] none pruneDemoCtx 0).2.2.2.getD
        w []).length) ∧
    (∀ w, (prune_neighbors_fresh pruneDemo [0, 0] none pruneDemoCtx 0).2.2.1.getD w 0 ≤
      pruneDemoCtx.original_domain_sizes.getD w 0) ∧
    (∀ w o, maskGet (prune_neighbors_fresh pruneDemo [0, 0] none pruneDemoCtx 0).1 w o =
      (maskGet pruneDemoCtx w o &&
        !(decide (o ∈ (prune_neighbors_fresh pruneDemo [0, 0] none
            pruneDemoCtx 0).2.2.2.getD w [])))) ∧
    (prune_neighbors_fresh pruneDemo [0, 0] none pruneDemoCtx 0).1.assigned =
      pruneDemoCtx.assigned ∧
    (prune_neighbors_fresh pruneDemo [0, 0] none pruneDemoCtx 0).1.num_domains =
      pruneDemoCtx.num_domains ∧
    (prune_neighbors_fresh pruneDemo [0, 0] none pruneDemoCtx 0).1.original_domain_sizes =
      pruneDemoCtx.original_domain_sizes) :=
  ⟨by decide, c10_prune_log pruneDemo [0, 0] none pruneDemoCtx 0 (by decide)⟩

/-- C5: `prune_neighbors` run with a zeroed `counts` array and
NULL-initialised `pruned` entries, followed by `restore_pruned` with the
log it produced, leaves every variable's live mask bit-for-bit equal to
its state before the prune step. -/
theorem c5_prune_restore_identity {D : Type} (csp : CSPProblem D) (values : List Nat)
    (data : Option D) (ctx : CSPForwardCheckContext) (var : Nat)
    (hm : ctx.current_domains.length ≤ ctx.num_domains) :
    (restore_pruned (prune_neighbors_fresh csp values data ctx var).1
        (prune_neighbors_fresh csp values data ctx var).2.2.1
        (prune_neighbors_fresh csp values data ctx var).2.2.2).current_domains =
      ctx.current_domains := by
  rw [prune_neighbors_fresh_def]
  set st := pruneCons data var csp.constraints ctx values
    (List.replicate ctx.num_domains 0) (List.replicate ctx.num_domains []) with hst
  obtain ⟨hinv, -, -, -, -⟩ := pruneCons_spec data var ctx csp.constraints ctx values
    (List.replicate ctx.num_domains 0) (List.replicate ctx.num_domains [])
    (pruneInv_init ctx hm)
  rw [← hst] at hinv
  have hrf := restore_pruned_fields st.1 st.2.2.1 st.2.2.2
  apply masks_ext
  · rw [hrf.2.2.2.1, hinv.rowsLen]
  · intro w
    rw [hrf.2.2.2.2 w, hinv.rowLen w]
  · intro w o
    rw [maskGet_restore_pruned]
    have htake : (st.2.2.2.getD w []).take (st.2.2.1.getD w 0) = st.2.2.2.getD w [] := by
      rw [hinv.countsEq w]
      exact List.take_length _
    rw [htake, hinv.masks w o, hinv.nd, hinv.rowsLen, hinv.rowLen w]
    by_cases hmem : o ∈ st.2.2.2.getD w []
    · have hlv := hinv.wasLive w o hmem
      have hb := maskGet_true_lt ctx w o hlv
      rw [hlv, decide_eq_true hmem, decide_eq_true (Nat.lt_of_lt_of_le hb.1 hm),
        decide_eq_true hb.1, decide_eq_true hb.2]
      rfl
    · rw [decide_eq_false hmem]
      simp

theorem c5_witness :
    pruneDemoCtx.current_domains.length ≤ pruneDemoCtx.num_domains ∧
    (restore_pruned (prune_neighbors_fresh pruneDemo [0, 0] none pruneDemoCtx 0).1
        (prune_neighbors_fresh pruneDemo [0, 0] none pruneDemoCtx 0).2.2.1
        (prune_neighbors_fresh pruneDemo [0, 0] none pruneDemoCtx 0).2.2.2).current_domains =
      pruneDemoCtx.current_domains :=
  ⟨by decide, c5_prune_restore_identity pruneDemo [0, 0] none pruneDemoCtx 0 (by decide)⟩

/-! ## Context extensionality and MRV facts -/

theorem ctx_ext (c1 c2 : CSPForwardCheckContext) (h1 : c1.num_domains = c2.num_domains)
    (h2 : c1.original_domain_sizes = c2.original_domain_sizes)
    (h3 : c1.current_domains = c2.current_domains)
    (h4 : c1.assigned = c2.assigned) : c1 = c2 := by
  cases c1
  cases c2
  cases h1
  cases h2
  cases h3
  cases h4
  rfl

theorem setAssigned_cancel (ctx : CSPForwardCheckContext) (var : Nat)
    (h : ctx.assigned.getD var false = false) :
    setAssigned (setAssigned ctx var true) var false = ctx := by
  refine ctx_ext _ _ rfl rfl rfl ?_
  show (ctx.assigned.set var true).set var false = ctx.assigned
  rw [List.set_set]
  exact set_set_cancel _ _ _ h

theorem mrvFold_none (ctx : CSPForwardCheckContext) :
    ∀ (is : List Nat) (best : Option (Nat × Nat)),
    mrvFold ctx is best = none → best = none := by
  intro is
  induction is with
  | nil => exact fun best h => h
  | cons i is ih =>
    intro best h
    rcases best with _ | ⟨bi, bc⟩
    · rfl
    · exfalso
      simp only [mrvFold] at h
      by_cases ha : ctx.assigned.getD i false = true
      · rw [if_pos ha] at h
        exact absurd (ih _ h) (by simp)
      · rw [if_neg ha] at h
        by_cases hc : countLive ctx i < bc
        · rw [if_pos hc] at h
          exact absurd (ih _ h) (by simp)
        · rw [if_neg hc] at h
          exact absurd (ih _ h) (by simp)

theorem mrvFold_sound (ctx : CSPForwardCheckContext) :
    ∀ (is : List Nat) (best : Option (Nat × Nat)) (p : Nat × Nat),
    mrvFold ctx is best = some p →
    best = some p ∨ (p.1 ∈ is ∧ ctx.assigned.getD p.1 false = false) := by
  intro is
  induction is with
  | nil => exact fun best p h => Or.inl h
  | cons i is ih =>
    intro best p h
    rcases best with _ | ⟨bi, bc⟩
    · simp only [mrvFold] at h
      by_cases ha : ctx.assigned.getD i false = true
      · rw [if_pos ha] at h
        rcases ih none p h with h' | h'
        · exact absurd h' (by simp)
        · exact Or.inr ⟨List.mem_cons_of_mem _ h'.1, h'.2⟩
      · rw [if_neg ha] at h
        have hnotass : ctx.assigned.getD i false = false := by
          rcases hx : ctx.assigned.getD i false with _ | _
          · rfl
          · exact absurd hx ha
        rcases ih _ p h with h' | h'
        · rw [Option.some.injEq] at h'
          refine Or.inr ⟨?_, ?_⟩
          · rw [← h']
            exact List.mem_cons_self _ _
          · rw [← h']
            exact hnotass
        · exact Or.inr ⟨List.mem_cons_of_mem _ h'.1, h'.2⟩
    · simp only [mrvFold] at h
      by_cases ha : ctx.assigned.getD i false = true
      · rw [if_pos ha] at h
        rcases ih _ p h with h' | h'
        · exact Or.inl h'
        · exact Or.inr ⟨List.mem_cons_of_mem _ h'.1, h'.2⟩
      · rw [if_neg ha] at h
        have hnotass : ctx.assigned.getD i false = false := by
          rcases hx : ctx.assigned.getD i false with _ | _
          · rfl
          · exact absurd hx ha
        by_cases hc : countLive ctx i < bc
        · rw [if_pos hc] at h
          rcases ih _ p h with h' | h'
          · rw [Option.some.injEq] at h'
            refine Or.inr ⟨?_, ?_⟩
            · rw [← h']
              exact List.mem_cons_self _ _
            · rw [← h']
              exact hnotass
          · exact Or.inr ⟨List.mem_cons_of_mem _ h'.1, h'.2⟩
        · rw [if_neg hc] at h
          rcases ih _ p h with h' | h'
          · exact Or.inl h'
          · exact Or.inr ⟨List.mem_cons_of_mem _ h'.1, h'.2⟩

theorem mrvFold_progress (ctx : CSPForwardCheckContext) :
    ∀ (is : List Nat) (best : Option (Nat × Nat)) (i : Nat),
    i ∈ is → ctx.assigned.getD i false = false → mrvFold ctx is best ≠ none := by
  intro is
  induction is with
  | nil =>
    intro best i h
    exact absurd h (by simp)
  | cons j is ih =>
    intro best i hmem hun h
    rcases List.mem_cons.mp hmem with heq | hmem'
    · subst heq
      rcases best with _ | ⟨bi, bc⟩
      · simp only [mrvFold] at h
        rw [if_neg (by rw [hun]; simp)] at h
        exact absurd (mrvFold_none ctx _ _ h) (by simp)
      · simp only [mrvFold] at h
        rw [if_neg (by rw [hun]; simp)] at h
        by_cases hc : countLive ctx i < bc
        · rw [if_pos hc] at h
          exact absurd (mrvFold_none ctx _ _ h) (by simp)
        · rw [if_neg hc] at h
          exact absurd (mrvFold_none ctx _ _ h) (by simp)
    · rcases best with _ | ⟨bi, bc⟩
      · simp only [mrvFold] at h
        by_cases ha : ctx.assigned.getD j false = true
        · rw [if_pos ha] at h
          exact ih none i hmem' hun h
        · rw [if_neg ha] at h
          exact ih _ i hmem' hun h
      · simp only [mrvFold] at h
        by_cases ha : ctx.assigned.getD j false = true
        · rw [if_pos ha] at h
          exact ih _ i hmem' hun h
        · rw [if_neg ha] at h
          by_cases hc : countLive ctx j < bc
          · rw [if_pos hc] at h
            exact ih _ i hmem' hun h
          · rw [if_neg hc] at h
            exact ih _ i hmem' hun h

/-- When some variable is still unassigned, `select_unassigned_var`
returns an unassigned variable identifier below `num_domains`. -/
theorem select_unassigned_var_spec (ctx : CSPForwardCheckContext)
    (h : allAssigned ctx = false) :
    ctx.assigned.getD (select_unassigned_var ctx) false = false ∧
    select_unassigned_var ctx < ctx.num_domains := by
  rw [allAssigned, List.all_eq_false] at h
  obtain ⟨i, hmem, hfalse⟩ := h
  have hun : ctx.assigned.getD i false = false := by
    rcases hx : ctx.assigned.getD i false with _ | _
    · rfl
    · exact absurd hx hfalse
  rcases hfold : mrvFold ctx (List.range ctx.num_domains) none with _ | p
  · exact absurd hfold (mrvFold_progress ctx _ none i hmem hun)
  · rcases mrvFold_sound ctx _ none p hfold with h' | h'
    · exact absurd h' (by simp)
    · rw [select_unassigned_var, hfold]
      exact ⟨h'.2, List.mem_range.mp h'.1⟩

/-! ## Restoration through the FC driver (C3) -/

/-- Generalised prune/restore identity: restoring with a prune log onto
any context whose masks coincide with the post-prune masks recovers the
pre-prune masks. -/
theorem restore_of_pruneInv (c0 st1 cx : CSPForwardCheckContext)
    (counts : List Nat) (pruned : List (List Nat))
    (hinv : PruneInv c0 st1 counts pruned)
    (hmask : cx.current_domains = st1.current_domains)
    (hnd : cx.num_domains = c0.num_domains) :
    (restore_pruned cx counts pruned).current_domains = c0.current_domains := by
  have hrf := restore_pruned_fields cx counts pruned
  apply masks_ext
  · rw [hrf.2.2.2.1, hmask, hinv.rowsLen]
  · intro w
    rw [hrf.2.2.2.2 w, hmask, hinv.rowLen w]
  · intro w o
    rw [maskGet_restore_pruned]
    have hmg : maskGet cx w o = maskGet st1 w o := by
      rw [maskGet, maskGet, hmask]
    have htake : (pruned.getD w []).take (counts.getD w 0) = pruned.getD w [] := by
      rw [hinv.countsEq w]
      exact List.take_length _
    rw [htake, hmg, hinv.masks w o, hnd, hmask, hinv.rowsLen, hinv.rowLen w]
    by_cases hmem : o ∈ pruned.getD w []
    · have hlv := hinv.wasLive w o hmem
      have hb := maskGet_true_lt c0 w o hlv
      rw [hlv, decide_eq_true hmem, decide_eq_true (Nat.lt_of_lt_of_le hb.1 hinv.mlen),
        decide_eq_true hb.1, decide_eq_true hb.2]
      rfl
    · rw [decide_eq_false hmem]
      simp

theorem fcTry_restores {D : Type} (csp : CSPProblem D) (data : Option D)
    (rec : List Nat → CSPForwardCheckContext → Bool × List Nat × CSPForwardCheckContext)
    (hrec : ∀ (values : List Nat) (ctx : CSPForwardCheckContext),
      ctx.current_domains.length ≤ ctx.num_domains →
      ((rec values ctx).2.2.num_domains = ctx.num_domains ∧
        (rec values ctx).2.2.original_domain_sizes = ctx.original_domain_sizes ∧
        (rec values ctx).2.2.current_domains = ctx.current_domains) ∧
      ((rec values ctx).1 = false → (rec values ctx).2.2 = ctx))
    (var : Nat) :
    ∀ (order values : List Nat) (ctx : CSPForwardCheckContext),
    ctx.current_domains.length ≤ ctx.num_domains →
    ctx.assigned.getD var false = false →
    ((fcTry csp data rec var order values ctx).2.2.num_domains = ctx.num_domains ∧
      (fcTry csp data rec var order values ctx).2.2.original_domain_sizes =
        ctx.original_domain_sizes ∧
      (fcTry csp data rec var order values ctx).2.2.current_domains =
        ctx.current_domains) ∧
    ((fcTry csp data rec var order values ctx).1 = false →
      (fcTry csp data rec var order values ctx).2.2 = ctx) := by
  intro order
  induction order with
  | nil =>
    intro values ctx _ _
    exact ⟨⟨rfl, rfl, rfl⟩, fun _ => rfl⟩
  | cons val rest ih =>
    intro values ctx hm hvar
    simp only [fcTry]
    by_cases hcons :
        fc_is_consistent csp (values.set var val) data (setAssigned ctx var true) = true
    · rw [if_pos hcons]
      set st := prune_neighbors_fresh csp (values.set var val) data
        (setAssigned ctx var true) var with hst
      have hm1 : (setAssigned ctx var true).current_domains.length ≤
          (setAssigned ctx var true).num_domains := hm
      have hinv : PruneInv (setAssigned ctx var true) st.1 st.2.2.1 st.2.2.2 := by
        rw [hst, prune_neighbors_fresh_def]
        exact (pruneCons_spec data var (setAssigned ctx var true) csp.constraints
          (setAssigned ctx var true) (values.set var val)
          (List.replicate (setAssigned ctx var true).num_domains 0)
          (List.replicate (setAssigned ctx var true).num_domains [])
          (pruneInv_init (setAssigned ctx var true) hm1)).1
      have hmst : st.1.current_domains.length ≤ st.1.num_domains := by
        rw [hinv.rowsLen, hinv.nd]
        exact hm1
      obtain ⟨hrf, hrfalse⟩ := hrec st.2.1 st.1 hmst
      by_cases hr1 : (rec st.2.1 st.1).1 = true
      · rw [if_pos hr1]
        have hnd : (rec st.2.1 st.1).2.2.num_domains =
            (setAssigned ctx var true).num_domains := hrf.1.trans hinv.nd
        have hrst := restore_pruned_fields (rec st.2.1 st.1).2.2 st.2.2.1 st.2.2.2
        refine ⟨⟨?_, ?_, ?_⟩, ?_⟩
        · rw [hrst.1, hrf.1, hinv.nd]
          rfl
        · rw [hrst.2.1, hrf.2.1, hinv.ods]
          rfl
        · exact restore_of_pruneInv (setAssigned ctx var true) st.1
            (rec st.2.1 st.1).2.2 st.2.2.1 st.2.2.2 hinv hrf.2.2 hnd
        · intro h
          exact absurd h (by simp)
      · rw [if_neg hr1]
        have hr1f : (rec st.2.1 st.1).1 = false := by
          rcases hx : (rec st.2.1 st.1).1 with _ | _
          · rfl
          · exact absurd hx hr1
        have heq : (rec st.2.1 st.1).2.2 = st.1 := hrfalse hr1f
        have hctxnext : setAssigned
            (restore_pruned (rec st.2.1 st.1).2.2 st.2.2.1 st.2.2.2) var false = ctx := by
          have hrst := restore_pruned_fields (rec st.2.1 st.1).2.2 st.2.2.1 st.2.2.2
          apply ctx_ext
          · show (restore_pruned (rec st.2.1 st.1).2.2 st.2.2.1 st.2.2.2).num_domains =
              ctx.num_domains
            rw [hrst.1, heq, hinv.nd]
            rfl
          · show (restore_pruned (rec st.2.1 st.1).2.2
                st.2.2.1 st.2.2.2).original_domain_sizes = ctx.original_domain_sizes
            rw [hrst.2.1, heq, hinv.ods]
            rfl
          · show (restore_pruned (rec st.2.1 st.1).2.2 st.2.2.1 st.2.2.2).current_domains =
              ctx.current_domains
            exact restore_of_pruneInv (setAssigned ctx var true) st.1
              (rec st.2.1 st.1).2.2 st.2.2.1 st.2.2.2 hinv
              (by rw [heq]) (by rw [heq, hinv.nd])
          · show ((restore_pruned (rec st.2.1 st.1).2.2
                st.2.2.1 st.2.2.2).assigned).set var false = ctx.assigned
            rw [hrst.2.2.1, heq, hinv.asg]
            show ((ctx.assigned.set var true).set var false) = ctx.assigned
            rw [List.set_set]
            exact set_set_cancel _ _ _ hvar
        rw [hctxnext]
        exact ih (rec st.2.1 st.1).2.1 ctx hm hvar
    · rw [if_neg hcons]
      rw [setAssigned_cancel ctx var hvar]
      exact ih (values.set var val) ctx hm hvar

/-- Restoration behaviour of the recursive FC driver: the context
returned by `backtrack_fc` always carries the entry live masks (they
are restored on both the SOLVED and the UNSATISFIED paths), and on an
UNSATISFIED (or cancelled) return the whole context — assigned flags
included — equals its entry state. -/
theorem backtrack_fc_restores {D : Type} (csp : CSPProblem D) (data : Option D)
    (timeout : Bool) :
    ∀ (fuel : Nat) (values : List Nat) (ctx : CSPForwardCheckContext),
    ctx.current_domains.length ≤ ctx.num_domains →
    ((backtrack_fc csp data timeout fuel values ctx).2.2.num_domains = ctx.num_domains ∧
      (backtrack_fc csp data timeout fuel values ctx).2.2.original_domain_sizes =
        ctx.original_domain_sizes ∧
      (backtrack_fc csp data timeout fuel values ctx).2.2.current_domains =
        ctx.current_domains) ∧
    ((backtrack_fc csp data timeout fuel values ctx).1 = false →
      (backtrack_fc csp data timeout fuel values ctx).2.2 = ctx) := by
  intro fuel
  induction fuel with
  | zero =>
    intro values ctx _
    exact ⟨⟨rfl, rfl, rfl⟩, fun _ => rfl⟩
  | succ fuel ih =>
    intro values ctx hm
    simp only [backtrack_fc]
    by_cases ht : timeout = true
    · rw [if_pos ht]
      exact ⟨⟨rfl, rfl, rfl⟩, fun _ => rfl⟩
    · rw [if_neg ht]
      by_cases hall : allAssigned ctx = true
      · rw [if_pos hall]
        exact ⟨⟨rfl, rfl, rfl⟩, fun _ => by simp⟩
      · rw [if_neg hall]
        have hallf : allAssigned ctx = false := by
          rcases hx : allAssigned ctx with _ | _
          · rfl
          · exact absurd hx hall
        have hsel := select_unassigned_var_spec ctx hallf
        exact fcTry_restores csp data (backtrack_fc csp data timeout fuel)
          (fun v c hmc => ih v c hmc) (select_unassigned_var ctx) _ _ ctx hm hsel.1

/-- A single variable with domain `{0}` and no constraints. -/
def c3Demo : CSPProblem Nat := ⟨[1], []⟩

/-- C3 counterexample: a terminating FC search of `c3Demo` (run exactly
as `csp_problem_solve_forward_checking` runs it, with fuel
`num_domains + 1 = 2`) returns SOLVED, yet at exit the context's
assigned flags are `[true]` while they were `[false]` at entry: the
success path of `backtrack_fc` restores the pruned masks but never
resets `ctx->assigned[var]`. -/
theorem c3_counterexample :
    (backtrack_fc c3Demo none false 2 [0]
      (csp_forward_check_context_create c3Demo)).1 = true ∧
    (backtrack_fc c3Demo none false 2 [0]
        (csp_forward_check_context_create c3Demo)).2.2.assigned ≠
      (csp_forward_check_context_create c3Demo).assigned := by
  exact ⟨by decide, by decide⟩

/-- C3 amended: for every terminating FC search, the per-variable live
masks of the context at exit of the outermost `backtrack_fc` call equal
their values at entry (on SOLVED as on UNSATISFIED returns); when the
call returns UNSATISFIED the whole context — assigned flags included —
equals its entry state.  On SOLVED returns the assigned flags of the
variables assigned along the success path remain set. -/
theorem c3_fc_stack_discipline {D : Type} (csp : CSPProblem D) (data : Option D)
    (timeout : Bool) (fuel : Nat) (values : List Nat) (ctx : CSPForwardCheckContext)
    (hm : ctx.current_domains.length ≤ ctx.num_domains) :
    (backtrack_fc csp data timeout fuel values ctx).2.2.current_domains =
      ctx.current_domains ∧
    ((backtrack_fc csp data timeout fuel values ctx).1 = false →
      (backtrack_fc csp data timeout fuel values ctx).2.2 = ctx) := by
  obtain ⟨hf, hfalse⟩ := backtrack_fc_restores csp data timeout fuel values ctx hm
  exact ⟨hf.2.2, hfalse⟩

/-- Two variables with domain `{0}` and one "different" constraint:
unsatisfiable (scenario 3 of the spec). -/
def c3UnsatDemo : CSPProblem Nat := ⟨[1, 1], [diffCon01]⟩

theorem c3_witness :
    (csp_forward_check_context_create c3UnsatDemo).current_domains.length ≤
      (csp_forward_check_context_create c3UnsatDemo).num_domains ∧
    ((backtrack_fc c3UnsatDemo none false 3 [0, 0]
        (csp_forward_check_context_create c3UnsatDemo)).2.2.current_domains =
      (csp_forward_check_context_create c3UnsatDemo).current_domains ∧
    ((backtrack_fc c3UnsatDemo none false 3 [0, 0]
        (csp_forward_check_context_create c3UnsatDemo)).1 = false →
      (backtrack_fc c3UnsatDemo none false 3 [0, 0]
          (csp_forward_check_context_create c3UnsatDemo)).2.2 =
        csp_forward_check_context_create c3UnsatDemo)) :=
  ⟨by decide, c3_fc_stack_discipline c3UnsatDemo none false 3 [0, 0]
    (csp_forward_check_context_create c3UnsatDemo) (by decide)⟩

/-! ## Which snapshot slots the heuristics write (C1, C2, C4) -/

theorem bool_not_true {b : Bool} (h : ¬(b = true)) : b = false := by
  rcases hb : b with _ | _
  · rfl
  · exact absurd hb h

theorem lcvCountOther_vals {D : Type} (con : CSPConstraint D) (data : Option D)
    (other : Nat) (ctx : CSPForwardCheckContext) :
    ∀ (os vals : List Nat) (conflicts : Nat),
    (lcvCountOther con data other ctx os vals conflicts).2.length = vals.length ∧
    ∀ q, q ≠ other →
      (lcvCountOther con data other ctx os vals conflicts).2.getD q 0 =
        vals.getD q 0 := by
  intro os
  induction os with
  | nil =>
    intro vals conflicts
    exact ⟨rfl, fun _ _ => rfl⟩
  | cons o os ih =>
    intro vals conflicts
    simp only [lcvCountOther]
    by_cases hlive : maskGet ctx other o = true
    · rw [if_pos hlive]
      by_cases hchk : con.check (vals.set other o) data = true
      · rw [if_pos hchk]
        obtain ⟨h1, h2⟩ := ih (vals.set other o) conflicts
        refine ⟨by rw [h1, List.length_set], ?_⟩
        intro q hq
        rw [h2 q hq, getD_set_ne _ _ _ _ _ (fun h => hq h.symm)]
      · rw [if_neg hchk]
        obtain ⟨h1, h2⟩ := ih (vals.set other o) (conflicts + 1)
        refine ⟨by rw [h1, List.length_set], ?_⟩
        intro q hq
        rw [h2 q hq, getD_set_ne _ _ _ _ _ (fun h => hq h.symm)]
    · rw [if_neg hlive]
      exact ih vals conflicts

theorem lcvCons_vals {D : Type} (ctx : CSPForwardCheckContext) (data : Option D)
    (var : Nat) :
    ∀ (cons : List (CSPConstraint D)) (vals : List Nat) (conflicts : Nat),
    (lcvCons ctx data var cons vals conflicts).2.length = vals.length ∧
    ∀ q, ctx.assigned.getD q false = true →
      (lcvCons ctx data var cons vals conflicts).2.getD q 0 = vals.getD q 0 := by
  intro cons
  induction cons with
  | nil =>
    intro vals conflicts
    exact ⟨rfl, fun _ _ => rfl⟩
  | cons con rest ih =>
    intro vals conflicts
    simp only [lcvCons]
    by_cases har : csp_constraint_get_arity con ≠ 2
    · rw [if_pos har]
      exact ih vals conflicts
    · rw [if_neg har]
      split
      · exact ih vals conflicts
      · next other hoth =>
        by_cases hasg : ctx.assigned.getD other false = true
        · rw [if_pos hasg]
          exact ih vals conflicts
        · rw [if_neg hasg]
          obtain ⟨h1, h2⟩ := lcvCountOther_vals con data other ctx
            (List.range (ctx.original_domain_sizes.getD other 0)) vals conflicts
          obtain ⟨h3, h4⟩ := ih
            (lcvCountOther con data other ctx
              (List.range (ctx.original_domain_sizes.getD other 0)) vals conflicts).2
            (lcvCountOther con data other ctx
              (List.range (ctx.original_domain_sizes.getD other 0)) vals conflicts).1
          refine ⟨h3.trans h1, ?_⟩
          intro q hq
          rw [h4 q hq]
          apply h2 q
          intro hqo
          rw [hqo, bool_not_true hasg] at hq
          exact absurd hq (by simp)

theorem lcvVals_vals {D : Type} (csp : CSPProblem D) (ctx : CSPForwardCheckContext)
    (data : Option D) (var : Nat) :
    ∀ (cands vals : List Nat) (pairs : List (Nat × Nat)),
    (lcvVals csp ctx data var cands vals pairs).2.length = vals.length ∧
    ∀ q, q ≠ var → ctx.assigned.getD q false = true →
      (lcvVals csp ctx data var cands vals pairs).2.getD q 0 = vals.getD q 0 := by
  intro cands
  induction cands with
  | nil =>
    intro vals pairs
    exact ⟨rfl, fun _ _ _ => rfl⟩
  | cons val vs ih =>
    intro vals pairs
    simp only [lcvVals]
    by_cases hlive : maskGet ctx var val = true
    · rw [if_pos hlive]
      obtain ⟨h1, h2⟩ := lcvCons_vals ctx data var csp.constraints (vals.set var val) 0
      obtain ⟨h3, h4⟩ := ih (lcvCons ctx data var csp.constraints (vals.set var val) 0).2
        (pairs ++ [(val, (lcvCons ctx data var csp.constraints (vals.set var val) 0).1)])
      refine ⟨by rw [h3, h1, List.length_set], ?_⟩
      intro q hq hassq
      rw [h4 q hq hassq, h2 q hassq, getD_set_ne _ _ _ _ _ (fun h => hq h.symm)]
    · rw [if_neg hlive]
      exact ih vals pairs

theorem order_values_lcv_vals {D : Type} (csp : CSPProblem D)
    (ctx : CSPForwardCheckContext) (values : List Nat) (data : Option D) (var : Nat) :
    (order_values_lcv csp ctx values data var).2.length = values.length ∧
    ∀ q, q ≠ var → ctx.assigned.getD q false = true →
      (order_values_lcv csp ctx values data var).2.getD q 0 = values.getD q 0 := by
  rw [order_values_lcv]
  exact lcvVals_vals csp ctx data var
    (List.range (ctx.original_domain_sizes.getD var 0)) values []

/-- After a failed subtree the driver's restore step and assigned-flag
reset bring the context back exactly to its state at the top of the
value loop. -/
theorem fc_restore_roundtrip {D : Type} (csp : CSPProblem D) (data : Option D)
    (values1 : List Nat) (ctx : CSPForwardCheckContext) (var : Nat)
    (hm : ctx.current_domains.length ≤ ctx.num_domains)
    (hvar : ctx.assigned.getD var false = false) :
    setAssigned
      (restore_pruned
        (prune_neighbors_fresh csp values1 data (setAssigned ctx var true) var).1
        (prune_neighbors_fresh csp values1 data (setAssigned ctx var true) var).2.2.1
        (prune_neighbors_fresh csp values1 data (setAssigned ctx var true) var).2.2.2)
      var false = ctx := by
  set st := prune_neighbors_fresh csp values1 data (setAssigned ctx var true) var with hst
  have hinv : PruneInv (setAssigned ctx var true) st.1 st.2.2.1 st.2.2.2 := by
    rw [hst, prune_neighbors_fresh_def]
    exact (pruneCons_spec data var (setAssigned ctx var true) csp.constraints
      (setAssigned ctx var true) values1
      (List.replicate (setAssigned ctx var true).num_domains 0)
      (List.replicate (setAssigned ctx var true).num_domains [])
      (pruneInv_init (setAssigned ctx var true) hm)).1
  have hrst := restore_pruned_fields st.1 st.2.2.1 st.2.2.2
  apply ctx_ext
  · show (restore_pruned st.1 st.2.2.1 st.2.2.2).num_domains = ctx.num_domains
    rw [hrst.1, hinv.nd]
    rfl
  · show (restore_pruned st.1 st.2.2.1 st.2.2.2).original_domain_sizes =
      ctx.original_domain_sizes
    rw [hrst.2.1, hinv.ods]
    rfl
  · show (restore_pruned st.1 st.2.2.1 st.2.2.2).current_domains = ctx.current_domains
    exact restore_of_pruneInv (setAssigned ctx var true) st.1 st.1 st.2.2.1 st.2.2.2
      hinv rfl hinv.nd
  · show ((restore_pruned st.1 st.2.2.1 st.2.2.2).assigned).set var false = ctx.assigned
    rw [hrst.2.2.1, hinv.asg]
    show (ctx.assigned.set var true).set var false = ctx.assigned
    rw [List.set_set]
    exact set_set_cancel _ _ _ hvar

theorem fcTry_preserves {D : Type} (csp : CSPProblem D) (data : Option D)
    (rec : List Nat → CSPForwardCheckContext → Bool × List Nat × CSPForwardCheckContext)
    (hrecP : ∀ (v : List Nat) (c : CSPForwardCheckContext),
      c.current_domains.length ≤ c.num_domains →
      (rec v c).2.1.length = v.length ∧
      ∀ q, c.assigned.getD q false = true → (rec v c).2.1.getD q 0 = v.getD q 0)
    (hrecF : ∀ (v : List Nat) (c : CSPForwardCheckContext),
      c.current_domains.length ≤ c.num_domains →
      (rec v c).1 = false → (rec v c).2.2 = c)
    (var : Nat) :
    ∀ (order values : List Nat) (ctx : CSPForwardCheckContext),
    ctx.current_domains.length ≤ ctx.num_domains →
    ctx.assigned.getD var false = false →
    (fcTry csp data rec var order values ctx).2.1.length = values.length ∧
    ∀ q, q ≠ var → ctx.assigned.getD q false = true →
      (fcTry csp data rec var order values ctx).2.1.getD q 0 = values.getD q 0 := by
  intro order
  induction order with
  | nil =>
    intro values ctx _ _
    exact ⟨rfl, fun _ _ _ => rfl⟩
  | cons val rest ih =>
    intro values ctx hm hvar
    simp only [fcTry]
    by_cases hcons :
        fc_is_consistent csp (values.set var val) data (setAssigned ctx var true) = true
    · rw [if_pos hcons]
      set st := prune_neighbors_fresh csp (values.set var val) data
        (setAssigned ctx var true) var with hst
      have hm1 : (setAssigned ctx var true).current_domains.length ≤
          (setAssigned ctx var true).num_domains := hm
      have hspec := pruneCons_spec data var (setAssigned ctx var true) csp.constraints
        (setAssigned ctx var true) (values.set var val)
        (List.replicate (setAssigned ctx var true).num_domains 0)
        (List.replicate (setAssigned ctx var true).num_domains [])
        (pruneInv_init (setAssigned ctx var true) hm1)
      rw [← prune_neighbors_fresh_def, ← hst] at hspec
      obtain ⟨hinv, hplen, hppres, -, -⟩ := hspec
      have hmst : st.1.current_domains.length ≤ st.1.num_domains := by
        rw [hinv.rowsLen, hinv.nd]
        exact hm1
      obtain ⟨hrl, hrp⟩ := hrecP st.2.1 st.1 hmst
      have hq1 : ∀ q, q ≠ var → ctx.assigned.getD q false = true →
          (rec st.2.1 st.1).2.1.getD q 0 = values.getD q 0 := by
        intro q hq hassq
        have hassq1 : (setAssigned ctx var true).assigned.getD q false = true := by
          show (ctx.assigned.set var true).getD q false = true
          rw [getD_set_ne _ _ _ _ _ (fun h => hq h.symm)]
          exact hassq
        have h1 : st.1.assigned.getD q false = true := by
          rw [hinv.asg]
          exact hassq1
        rw [hrp q h1, hppres q hassq1, getD_set_ne _ _ _ _ _ (fun h => hq h.symm)]
      have hl1 : (rec st.2.1 st.1).2.1.length = values.length := by
        rw [hrl, hplen, List.length_set]
      by_cases hr1 : (rec st.2.1 st.1).1 = true
      · rw [if_pos hr1]
        exact ⟨hl1, hq1⟩
      · rw [if_neg hr1]
        have heq : (rec st.2.1 st.1).2.2 = st.1 :=
          hrecF st.2.1 st.1 hmst (bool_not_true hr1)
        rw [heq, hst, fc_restore_roundtrip csp data (values.set var val) ctx var hm hvar,
          ← hst]
        obtain ⟨h3, h4⟩ := ih (rec st.2.1 st.1).2.1 ctx hm hvar
        refine ⟨h3.trans hl1, ?_⟩
        intro q hq hassq
        rw [h4 q hq hassq, hq1 q hq hassq]
    · rw [if_neg hcons]
      rw [setAssigned_cancel ctx var hvar]
      obtain ⟨h3, h4⟩ := ih (values.set var val) ctx hm hvar
      refine ⟨by rw [h3, List.length_set], ?_⟩
      intro q hq hassq
      rw [h4 q hq hassq, getD_set_ne _ _ _ _ _ (fun h => hq h.symm)]

/-- The recursive FC driver writes the snapshot only at variables that
are unassigned in its entry context: slots of assigned variables keep
their values, and the snapshot's length never changes. -/
theorem backtrack_fc_preserves {D : Type} (csp : CSPProblem D) (data : Option D)
    (timeout : Bool) :
    ∀ (fuel : Nat) (values : List Nat) (ctx : CSPForwardCheckContext),
    ctx.current_domains.length ≤ ctx.num_domains →
    (backtrack_fc csp data timeout fuel values ctx).2.1.length = values.length ∧
    ∀ q, ctx.assigned.getD q false = true →
      (backtrack_fc csp data timeout fuel values ctx).2.1.getD q 0 =
        values.getD q 0 := by
  intro fuel
  induction fuel with
  | zero =>
    intro values ctx _
    exact ⟨rfl, fun _ _ => rfl⟩
  | succ fuel ih =>
    intro values ctx hm
    simp only [backtrack_fc]
    by_cases ht : timeout = true
    · rw [if_pos ht]
      exact ⟨rfl, fun _ _ => rfl⟩
    · rw [if_neg ht]
      by_cases hall : allAssigned ctx = true
      · rw [if_pos hall]
        exact ⟨rfl, fun _ _ => rfl⟩
      · rw [if_neg hall]
        have hsel := select_unassigned_var_spec ctx (bool_not_true hall)
        obtain ⟨hvl, hvp⟩ := order_values_lcv_vals csp ctx values data
          (select_unassigned_var ctx)
        obtain ⟨h1, h2⟩ := fcTry_preserves csp data (backtrack_fc csp data timeout fuel)
          (fun v c hmc => ih v c hmc)
          (fun v c hmc hf => (backtrack_fc_restores csp data timeout fuel v c hmc).2 hf)
          (select_unassigned_var ctx)
          (order_values_lcv csp ctx values data (select_unassigned_var ctx)).1
          (order_values_lcv csp ctx values data (select_unassigned_var ctx)).2 ctx hm
          hsel.1
        refine ⟨h1.trans hvl, ?_⟩
        intro q hassq
        have hqvar : q ≠ select_unassigned_var ctx := by
          intro h
          rw [h, hsel.1] at hassq
          exact absurd hassq (by simp)
        rw [h2 q hqvar hassq, hvp q hqvar hassq]

/-! ## C1: soundness of both solvers -/

/-- A fully built problem: every installed constraint has arity ≥ 1 (as
`csp_constraint_create` asserts) and every scope variable is below the
number of variables (as `csp_problem_set_constraint` asserts). -/
def fullyBuilt {D : Type} (csp : CSPProblem D) : Prop :=
  ∀ con ∈ csp.constraints, con.scope ≠ [] ∧ ∀ v ∈ con.scope, v < csp.domains.length

/-- The predicate contract of the spec: a checker's verdict depends only
on the snapshot positions inside its constraint's scope. -/
def respectsContract {D : Type} (csp : CSPProblem D) : Prop :=
  ∀ con ∈ csp.constraints, ∀ (vals vals' : List Nat) (data : Option D),
    (∀ v ∈ con.scope, vals.getD v 0 = vals'.getD v 0) →
    con.check vals data = con.check vals' data

theorem fc_is_consistent_assigned_congr {D : Type} (csp : CSPProblem D) (v : List Nat)
    (data : Option D) (c c' : CSPForwardCheckContext) (h : c.assigned = c'.assigned) :
    fc_is_consistent csp v data c = fc_is_consistent csp v data c' := by
  simp only [fc_is_consistent, h]

theorem allAssigned_congr (c c' : CSPForwardCheckContext)
    (h1 : c.num_domains = c'.num_domains) (h2 : c.assigned = c'.assigned) :
    allAssigned c = allAssigned c' := by
  simp only [allAssigned, h1, h2]

theorem fc_is_consistent_values_congr {D : Type} (csp : CSPProblem D) (data : Option D)
    (hcontract : respectsContract csp) (c : CSPForwardCheckContext) (v v' : List Nat)
    (hagree : ∀ q, c.assigned.getD q false = true → v.getD q 0 = v'.getD q 0) :
    fc_is_consistent csp v data c = fc_is_consistent csp v' data c := by
  have key : ∀ con ∈ csp.constraints,
      (if con.scope.all (fun x => c.assigned.getD x false) then con.check v data
        else true) =
      (if con.scope.all (fun x => c.assigned.getD x false) then con.check v' data
        else true) := by
    intro con hc
    by_cases hready : con.scope.all (fun x => c.assigned.getD x false) = true
    · rw [if_pos hready, if_pos hready]
      apply hcontract con hc
      intro x hx
      exact hagree x (List.all_eq_true.mp hready x hx)
    · rw [if_neg hready, if_neg hready]
  rw [Bool.eq_iff_iff, fc_is_consistent, fc_is_consistent, List.all_eq_true,
    List.all_eq_true]
  constructor
  · intro h con hc
    rw [← key con hc]
    exact h con hc
  · intro h con hc
    rw [key con hc]
    exact h con hc

theorem fc_is_consistent_all {D : Type} (csp : CSPProblem D) (data : Option D)
    (hfb : fullyBuilt csp) (v : List Nat) (c : CSPForwardCheckContext)
    (hall : allAssigned c = true) (hnd : c.num_domains = csp.domains.length)
    (h : fc_is_consistent csp v data c = true) :
    ∀ con ∈ csp.constraints, con.check v data = true := by
  intro con hc
  rw [fc_is_consistent, List.all_eq_true] at h
  have hcon := h con hc
  have hready : con.scope.all (fun x => c.assigned.getD x false) = true := by
    rw [List.all_eq_true]
    intro x hx
    have hxlt : x < csp.domains.length := (hfb con hc).2 x hx
    rw [allAssigned, List.all_eq_true] at hall
    exact hall x (List.mem_range.mpr (by rw [hnd]; exact hxlt))
  rw [if_pos hready] at hcon
  exact hcon

theorem fc_is_consistent_of_none_assigned {D : Type} (csp : CSPProblem D)
    (data : Option D) (v : List Nat) (c : CSPForwardCheckContext) (hfb : fullyBuilt csp)
    (hnone : ∀ q, q < csp.domains.length → c.assigned.getD q false = false) :
    fc_is_consistent csp v data c = true := by
  rw [fc_is_consistent, List.all_eq_true]
  intro con hc
  obtain ⟨hne, hlt⟩ := hfb con hc
  have hready : con.scope.all (fun x => c.assigned.getD x false) = false := by
    rcases hs : con.scope with _ | ⟨x, xs⟩
    · exact absurd hs hne
    · rw [List.all_eq_false]
      refine ⟨x, List.mem_cons_self _ _, ?_⟩
      rw [hnone x (hlt x (by rw [hs]; exact List.mem_cons_self _ _))]
      simp
  rw [if_neg (by rw [hready]; simp)]

theorem fcTry_sound {D : Type} (csp : CSPProblem D) (data : Option D)
    (hcontract : respectsContract csp)
    (rec : List Nat → CSPForwardCheckContext → Bool × List Nat × CSPForwardCheckContext)
    (var : Nat)
    (hrecS : ∀ (v : List Nat) (c : CSPForwardCheckContext),
      c.current_domains.length ≤ c.num_domains →
      fc_is_consistent csp v data c = true → (rec v c).1 = true →
      fc_is_consistent csp (rec v c).2.1 data (rec v c).2.2 = true ∧
      allAssigned (rec v c).2.2 = true ∧ (rec v c).2.2.num_domains = c.num_domains)
    (hrecP : ∀ (v : List Nat) (c : CSPForwardCheckContext),
      c.current_domains.length ≤ c.num_domains →
      (rec v c).2.1.length = v.length ∧
      ∀ q, c.assigned.getD q false = true → (rec v c).2.1.getD q 0 = v.getD q 0)
    (hrecF : ∀ (v : List Nat) (c : CSPForwardCheckContext),
      c.current_domains.length ≤ c.num_domains →
      (rec v c).1 = false → (rec v c).2.2 = c) :
    ∀ (order values : List Nat) (ctx : CSPForwardCheckContext),
    ctx.current_domains.length ≤ ctx.num_domains →
    ctx.assigned.getD var false = false →
    fc_is_consistent csp values data ctx = true →
    (fcTry csp data rec var order values ctx).1 = true →
    fc_is_consistent csp (fcTry csp data rec var order values ctx).2.1 data
        (fcTry csp data rec var order values ctx).2.2 = true ∧
    allAssigned (fcTry csp data rec var order values ctx).2.2 = true ∧
    (fcTry csp data rec var order values ctx).2.2.num_domains = ctx.num_domains := by
  intro order
  induction order with
  | nil =>
    intro values ctx _ _ _ htrue
    exact absurd htrue (by simp [fcTry])
  | cons val rest ih =>
    intro values ctx hm hvar hP htrue
    simp only [fcTry] at htrue ⊢
    by_cases hcons :
        fc_is_consistent csp (values.set var val) data (setAssigned ctx var true) = true
    · rw [if_pos hcons] at htrue ⊢
      set st := prune_neighbors_fresh csp (values.set var val) data
        (setAssigned ctx var true) var with hst
      have hm1 : (setAssigned ctx var true).current_domains.length ≤
          (setAssigned ctx var true).num_domains := hm
      have hspec := pruneCons_spec data var (setAssigned ctx var true) csp.constraints
        (setAssigned ctx var true) (values.set var val)
        (List.replicate (setAssigned ctx var true).num_domains 0)
        (List.replicate (setAssigned ctx var true).num_domains [])
        (pruneInv_init (setAssigned ctx var true) hm1)
      rw [← prune_neighbors_fresh_def, ← hst] at hspec
      obtain ⟨hinv, hplen, hppres, -, -⟩ := hspec
      have hmst : st.1.current_domains.length ≤ st.1.num_domains := by
        rw [hinv.rowsLen, hinv.nd]
        exact hm1
      have hPst : fc_is_consistent csp st.2.1 data st.1 = true := by
        rw [fc_is_consistent_assigned_congr csp st.2.1 data st.1
          (setAssigned ctx var true) hinv.asg]
        rw [fc_is_consistent_values_congr csp data hcontract (setAssigned ctx var true)
          st.2.1 (values.set var val) (fun q hq => hppres q hq)]
        exact hcons
      by_cases hr1 : (rec st.2.1 st.1).1 = true
      · rw [if_pos hr1] at htrue ⊢
        obtain ⟨hS1, hS2, hS3⟩ := hrecS st.2.1 st.1 hmst hPst hr1
        have hrst := restore_pruned_fields (rec st.2.1 st.1).2.2 st.2.2.1 st.2.2.2
        refine ⟨?_, ?_, ?_⟩
        · rw [fc_is_consistent_assigned_congr csp (rec st.2.1 st.1).2.1 data _
            (rec st.2.1 st.1).2.2 hrst.2.2.1]
          exact hS1
        · rw [allAssigned_congr _ (rec st.2.1 st.1).2.2 hrst.1 hrst.2.2.1]
          exact hS2
        · rw [hrst.1, hS3, hinv.nd]
          rfl
      · rw [if_neg hr1] at htrue ⊢
        have heq : (rec st.2.1 st.1).2.2 = st.1 :=
          hrecF st.2.1 st.1 hmst (bool_not_true hr1)
        rw [heq, hst, fc_restore_roundtrip csp data (values.set var val) ctx var hm hvar,
          ← hst] at htrue ⊢
        apply ih (rec st.2.1 st.1).2.1 ctx hm hvar ?Pnext htrue
        obtain ⟨hrl, hrp⟩ := hrecP st.2.1 st.1 hmst
        rw [fc_is_consistent_values_congr csp data hcontract ctx (rec st.2.1 st.1).2.1
          values ?agree]
        · exact hP
        · intro q hq
          have hqvar : q ≠ var := by
            intro h
            rw [h, hvar] at hq
            exact absurd hq (by simp)
          have hassq1 : (setAssigned ctx var true).assigned.getD q false = true := by
            show (ctx.assigned.set var true).getD q false = true
            rw [getD_set_ne _ _ _ _ _ (fun h => hqvar h.symm)]
            exact hq
          have h1 : st.1.assigned.getD q false = true := by
            rw [hinv.asg]
            exact hassq1
          rw [hrp q h1, hppres q hassq1,
            getD_set_ne _ _ _ _ _ (fun h => hqvar h.symm)]
    · rw [if_neg hcons] at htrue ⊢
      rw [setAssigned_cancel ctx var hvar] at htrue ⊢
      apply ih (values.set var val) ctx hm hvar ?Pnext2 htrue
      rw [fc_is_consistent_values_congr csp data hcontract ctx (values.set var val)
        values ?agree2]
      · exact hP
      · intro q hq
        have hqvar : q ≠ var := by
          intro h
          rw [h, hvar] at hq
          exact absurd hq (by simp)
        rw [getD_set_ne _ _ _ _ _ (fun h => hqvar h.symm)]

/-- Soundness of the recursive FC driver: a SOLVED return carries a
snapshot on which every constraint whose scope is (now fully) assigned
passes, with every variable assigned at exit. -/
theorem backtrack_fc_sound {D : Type} (csp : CSPProblem D) (data : Option D)
    (timeout : Bool) (hcontract : respectsContract csp) :
    ∀ (fuel : Nat) (values : List Nat) (ctx : CSPForwardCheckContext),
    ctx.current_domains.length ≤ ctx.num_domains →
    fc_is_consistent csp values data ctx = true →
    (backtrack_fc csp data timeout fuel values ctx).1 = true →
    fc_is_consistent csp (backtrack_fc csp data timeout fuel values ctx).2.1 data
        (backtrack_fc csp data timeout fuel values ctx).2.2 = true ∧
    allAssigned (backtrack_fc csp data timeout fuel values ctx).2.2 = true ∧
    (backtrack_fc csp data timeout fuel values ctx).2.2.num_domains =
      ctx.num_domains := by
  intro fuel
  induction fuel with
  | zero =>
    intro values ctx _ _ htrue
    exact absurd htrue (by simp [backtrack_fc])
  | succ fuel ih =>
    intro values ctx hm hP htrue
    simp only [backtrack_fc] at htrue ⊢
    by_cases ht : timeout = true
    · rw [if_pos ht] at htrue
      exact absurd htrue (by simp)
    · rw [if_neg ht] at htrue ⊢
      by_cases hall : allAssigned ctx = true
      · rw [if_pos hall] at htrue ⊢
        exact ⟨hP, hall, rfl⟩
      · rw [if_neg hall] at htrue ⊢
        have hsel := select_unassigned_var_spec ctx (bool_not_true hall)
        have hPl : fc_is_consistent csp
            (order_values_lcv csp ctx values data (select_unassigned_var ctx)).2 data
            ctx = true := by
          obtain ⟨-, hvp⟩ := order_values_lcv_vals csp ctx values data
            (select_unassigned_var ctx)
          rw [fc_is_consistent_values_congr csp data hcontract ctx _ values ?agree3]
          · exact hP
          · intro q hq
            have hqvar : q ≠ select_unassigned_var ctx := by
              intro h
              rw [h, hsel.1] at hq
              exact absurd hq (by simp)
            exact hvp q hqvar hq
        exact fcTry_sound csp data hcontract (backtrack_fc csp data timeout fuel)
          (select_unassigned_var ctx)
          (fun v c hmc => ih v c hmc)
          (fun v c hmc => backtrack_fc_preserves csp data timeout fuel v c hmc)
          (fun v c hmc hf => (backtrack_fc_restores csp data timeout fuel v c hmc).2 hf)
          _ _ ctx hm hsel.1 hPl htrue

theorem btTry_sound {D : Type} (csp : CSPProblem D) (data : Option D)
    (rec : List Nat → Option (List Nat)) (index : Nat)
    (hrec : ∀ v out, csp_problem_is_consistent csp v data (index + 1) = true →
      rec v = some out →
      csp_problem_is_consistent csp out data csp.domains.length = true) :
    ∀ (cands values out : List Nat), btTry csp data rec index cands values = some out →
    csp_problem_is_consistent csp out data csp.domains.length = true := by
  intro cands
  induction cands with
  | nil =>
    intro values out h
    exact absurd h (by simp [btTry])
  | cons v rest ih =>
    intro values out h
    simp only [btTry] at h
    by_cases hcons : csp_problem_is_consistent csp (values.set index v) data
        (index + 1) = true
    · rw [if_pos hcons] at h
      rcases hr : rec (values.set index v) with _ | out'
      · rw [hr] at h
        exact ih _ out h
      · rw [hr] at h
        simp only [Option.some.injEq] at h
        rw [← h]
        exact hrec (values.set index v) out' hcons hr
    · rw [if_neg hcons] at h
      exact ih _ out h

theorem backtrackF_sound {D : Type} (csp : CSPProblem D) (data : Option D) :
    ∀ (fuel index : Nat) (values out : List Nat),
    csp_problem_backtrackF csp data fuel index values = some out →
    (index = csp.domains.length ∧ out = values) ∨
      csp_problem_is_consistent csp out data csp.domains.length = true := by
  intro fuel
  induction fuel with
  | zero =>
    intro index values out h
    simp only [csp_problem_backtrackF] at h
    by_cases hidx : index = csp.domains.length
    · rw [if_pos hidx] at h
      simp only [Option.some.injEq] at h
      exact Or.inl ⟨hidx, h.symm⟩
    · rw [if_neg hidx] at h
      exact absurd h (by simp)
  | succ fuel ih =>
    intro index values out h
    simp only [csp_problem_backtrackF] at h
    by_cases hidx : index = csp.domains.length
    · rw [if_pos hidx] at h
      simp only [Option.some.injEq] at h
      exact Or.inl ⟨hidx, h.symm⟩
    · rw [if_neg hidx] at h
      right
      refine btTry_sound csp data (csp_problem_backtrackF csp data fuel (index + 1))
        index ?_ _ values out h
      intro v out' hcons hr
      rcases ih (index + 1) v out' hr with ⟨hN, hout⟩ | h'
      · rw [hout, ← hN]
        exact hcons
      · exact h'

/-! ## Fields of the freshly created forward-check context -/

theorem unaryPruneVals_fields {D : Type} (con : CSPConstraint D) (var : Nat) :
    ∀ (os : List Nat) (ctx : CSPForwardCheckContext) (tmp : List Nat),
    (unaryPruneVals con var os ctx tmp).1.num_domains = ctx.num_domains ∧
    (unaryPruneVals con var os ctx tmp).1.original_domain_sizes =
      ctx.original_domain_sizes ∧
    (unaryPruneVals con var os ctx tmp).1.assigned = ctx.assigned ∧
    (unaryPruneVals con var os ctx tmp).1.current_domains.length =
      ctx.current_domains.length := by
  intro os
  induction os with
  | nil =>
    intro ctx tmp
    exact ⟨rfl, rfl, rfl, rfl⟩
  | cons d ds ih =>
    intro ctx tmp
    simp only [unaryPruneVals]
    by_cases hlive : maskGet ctx var d = true
    · rw [if_pos hlive]
      by_cases hchk : con.check (tmp.set var d) none = true
      · rw [if_pos hchk]
        exact ih ctx (tmp.set var d)
      · rw [if_neg hchk]
        obtain ⟨h1, h2, h3, h4⟩ := ih (maskSet ctx var d false) (tmp.set var d)
        exact ⟨h1, h2, h3, h4.trans (maskSet_rows_length ..)⟩
    · rw [if_neg hlive]
      exact ih ctx tmp

theorem unaryPrune_fields {D : Type} :
    ∀ (cons : List (CSPConstraint D)) (ctx : CSPForwardCheckContext) (tmp : List Nat),
    (unaryPrune cons ctx tmp).1.num_domains = ctx.num_domains ∧
    (unaryPrune cons ctx tmp).1.original_domain_sizes = ctx.original_domain_sizes ∧
    (unaryPrune cons ctx tmp).1.assigned.length = ctx.assigned.length ∧
    (unaryPrune cons ctx tmp).1.current_domains.length =
      ctx.current_domains.length := by
  intro cons
  induction cons with
  | nil =>
    intro ctx tmp
    exact ⟨rfl, rfl, rfl, rfl⟩
  | cons con rest ih =>
    intro ctx tmp
    simp only [unaryPrune]
    by_cases har : csp_constraint_get_arity con ≠ 1
    · rw [if_pos har]
      exact ih ctx tmp
    · rw [if_neg har]
      have hv := unaryPruneVals_fields con (csp_constraint_get_variable con 0)
        (List.range (ctx.original_domain_sizes.getD (csp_constraint_get_variable con 0) 0))
        ctx tmp
      by_cases hcnt : countLive (unaryPruneVals con (csp_constraint_get_variable con 0)
          (List.range (ctx.original_domain_sizes.getD (csp_constraint_get_variable con 0)
            0)) ctx tmp).1 (csp_constraint_get_variable con 0) = 1
      · rw [if_pos hcnt]
        obtain ⟨h1, h2, h3, h4⟩ := ih _ _
        refine ⟨h1.trans hv.1, h2.trans hv.2.1, ?_, h4.trans hv.2.2.2⟩
        rw [h3]
        show ((unaryPruneVals con (csp_constraint_get_variable con 0) _ ctx
          tmp).1.assigned.set (csp_constraint_get_variable con 0) true).length =
          ctx.assigned.length
        rw [List.length_set, hv.2.2.1]
      · rw [if_neg hcnt]
        obtain ⟨h1, h2, h3, h4⟩ := ih _ _
        exact ⟨h1.trans hv.1, h2.trans hv.2.1, by rw [h3, hv.2.2.1],
          h4.trans hv.2.2.2⟩

theorem create_fields {D : Type} (csp : CSPProblem D) :
    (csp_forward_check_context_create csp).num_domains = csp.domains.length ∧
    (csp_forward_check_context_create csp).original_domain_sizes = csp.domains ∧
    (csp_forward_check_context_create csp).assigned.length = csp.domains.length ∧
    (csp_forward_check_context_create csp).current_domains.length =
      csp.domains.length := by
  rw [csp_forward_check_context_create]
  have h := unaryPrune_fields csp.constraints
    { num_domains := csp_problem_get_num_domains csp
      original_domain_sizes := csp.domains
      current_domains := csp.domains.map (fun d => List.replicate d true)
      assigned := List.replicate (csp_problem_get_num_domains csp) false }
    (List.replicate (csp_problem_get_num_domains csp) 0)
  refine ⟨h.1, h.2.1, ?_, ?_⟩
  · rw [h.2.2.1]
    exact List.length_replicate ..
  · rw [h.2.2.2]
    exact List.length_map ..

/-- A unary constraint forcing variable 0 to value 0, with a
data-independent pure checker. -/
def unaryZeroCon : CSPConstraint Nat :=
  ⟨[0], fun vals _ => decide (vals.getD 0 0 = 0)⟩

/-- One variable with domain `{0}` and the single unary constraint
`A[0] = 0`. -/
def c1Demo : CSPProblem Nat := ⟨[1], [unaryZeroCon]⟩

/-- C1 counterexample: `c1Demo` is fully built and its predicate
respects the contract, yet `csp_problem_solve_forward_checking` called
with the caller array `[1]` returns true while the installed
constraint's predicate is false on the returned snapshot: the initial
unary pruning pre-assigns variable 0, so the search never writes its
value into the caller's array. -/
theorem c1_counterexample :
    fullyBuilt c1Demo ∧ respectsContract c1Demo ∧
    (csp_problem_solve_forward_checking c1Demo [1] none false).1 = true ∧
    ¬(∀ con ∈ c1Demo.constraints,
      con.check (csp_problem_solve_forward_checking c1Demo [1] none false).2 none =
        true) := by
  refine ⟨?_, ?_, by decide, ?_⟩
  · intro con hc
    rw [show c1Demo.constraints = [unaryZeroCon] from rfl, List.mem_singleton] at hc
    subst hc
    refine ⟨by simp [unaryZeroCon], ?_⟩
    intro v hv
    rw [show unaryZeroCon.scope = [0] from rfl, List.mem_singleton] at hv
    subst hv
    decide
  · intro con hc vals vals' d hagree
    rw [show c1Demo.constraints = [unaryZeroCon] from rfl, List.mem_singleton] at hc
    subst hc
    show decide (vals.getD 0 0 = 0) = decide (vals'.getD 0 0 = 0)
    rw [hagree 0 (by rw [show unaryZeroCon.scope = [0] from rfl]; exact
      List.mem_singleton.mpr rfl)]
  · intro h
    have := h unaryZeroCon (List.mem_singleton.mpr rfl)
    exact absurd this (by decide)

/-- C1 amended: for every fully built problem with contract-respecting
predicates, (a) when the plain backtracking solver reports a solution,
every installed constraint's predicate holds on the returned snapshot,
and (b) the same holds for the forward-checking solver provided the
initial unary pruning pre-assigns no variable (every assigned flag of
the freshly created context is false). -/
theorem c1_soundness {D : Type} (csp : CSPProblem D) (values : List Nat)
    (data : Option D) (hfb : fullyBuilt csp) (hcontract : respectsContract csp) :
    (∀ out, csp_problem_solve csp values data = some out →
      ∀ con ∈ csp.constraints, con.check out data = true) ∧
    ((∀ q, q < csp.domains.length →
        (csp_forward_check_context_create csp).assigned.getD q false = false) →
      ∀ timeout, (csp_problem_solve_forward_checking csp values data timeout).1 = true →
        ∀ con ∈ csp.constraints,
          con.check (csp_problem_solve_forward_checking csp values data timeout).2
            data = true) := by
  constructor
  · intro out hsolve con hc
    rcases backtrackF_sound csp data (csp.domains.length - 0) 0 values out hsolve with
      ⟨hN, -⟩ | hcons
    · obtain ⟨hne, hlt⟩ := hfb con hc
      rcases hs : con.scope with _ | ⟨x, xs⟩
      · exact absurd hs hne
      · have := hlt x (by rw [hs]; exact List.mem_cons_self _ _)
        rw [← hN] at this
        exact absurd this (by omega)
    · rw [csp_problem_is_consistent, consistentList_true_iff] at hcons
      apply hcons con hc
      rw [csp_constraint_to_check, List.all_eq_true]
      intro v hv
      simp only [decide_eq_true_eq]
      exact (hfb con hc).2 v hv
  · intro hnone timeout hsolved con hc
    have hcf := create_fields csp
    have hm : (csp_forward_check_context_create csp).current_domains.length ≤
        (csp_forward_check_context_create csp).num_domains := by
      rw [hcf.2.2.2, hcf.1]
    have hP : fc_is_consistent csp values data (csp_forward_check_context_create csp) =
        true := fc_is_consistent_of_none_assigned csp data values _ hfb hnone
    have hrun := backtrack_fc_sound csp data timeout hcontract
      ((csp_forward_check_context_create csp).num_domains + 1) values
      (csp_forward_check_context_create csp) hm hP hsolved
    exact fc_is_consistent_all csp data hfb _ _ hrun.2.1
      (hrun.2.2.trans hcf.1) hrun.1 con hc

/-- `pruneDemo` is fully built. -/
theorem pruneDemo_fullyBuilt : fullyBuilt pruneDemo := by
  intro con hc
  rw [show pruneDemo.constraints = [diffCon01] from rfl, List.mem_singleton] at hc
  subst hc
  refine ⟨by simp [diffCon01], ?_⟩
  intro v hv
  rw [show diffCon01.scope = [0, 1] from rfl] at hv
  rcases List.mem_cons.mp hv with h | h
  · subst h
    decide
  · rw [List.mem_singleton] at h
    subst h
    decide

/-- `pruneDemo`'s predicate respects the contract. -/
theorem pruneDemo_contract : respectsContract pruneDemo := by
  intro con hc vals vals' d hagree
  rw [show pruneDemo.constraints = [diffCon01] from rfl, List.mem_singleton] at hc
  subst hc
  show decide (vals.getD 0 0 ≠ vals.getD 1 0) = decide (vals'.getD 0 0 ≠ vals'.getD 1 0)
  rw [hagree 0 (by rw [show diffCon01.scope = [0, 1] from rfl]; exact
      List.mem_cons_self _ _),
    hagree 1 (by rw [show diffCon01.scope = [0, 1] from rfl]; exact
      List.mem_cons_of_mem _ (List.mem_singleton.mpr rfl))]

theorem c1_witness :
    fullyBuilt pruneDemo ∧ respectsContract pruneDemo ∧
    ((∀ out, csp_problem_solve pruneDemo [7, 7] none = some out →
      ∀ con ∈ pruneDemo.constraints, con.check out none = true) ∧
    ((∀ q, q < pruneDemo.domains.length →
        (csp_forward_check_context_create pruneDemo).assigned.getD q false = false) →
      ∀ timeout,
        (csp_problem_solve_forward_checking pruneDemo [7, 7] none timeout).1 = true →
        ∀ con ∈ pruneDemo.constraints,
          con.check (csp_problem_solve_forward_checking pruneDemo [7, 7] none timeout).2
            none = true)) :=
  ⟨pruneDemo_fullyBuilt, pruneDemo_contract,
    c1_soundness pruneDemo [7, 7] none pruneDemo_fullyBuilt pruneDemo_contract⟩

/-! ## C4: pre-assigned variables -/

/-- One variable with domain `{0,1}` and the unary constraint
`A[0] = 0`: initial unary pruning leaves exactly the one live value 0
and pre-assigns the variable. -/
def c4Demo : CSPProblem Nat := ⟨[2], [unaryZeroCon]⟩

/-- C4 counterexample: in `c4Demo` the unary constraint forces variable
0 to the single value 0 (its live mask after context creation is
exactly `{0}`), and `csp_problem_solve_forward_checking` run on the
caller array `[1]` returns true — yet the returned assignment has
`A[0] = 1 ≠ 0`, because the pre-assigned variable's slot is never
written. -/
theorem c4_counterexample :
    (List.range ((csp_forward_check_context_create c4Demo).original_domain_sizes.getD
        0 0)).filter (fun o => maskGet (csp_forward_check_context_create c4Demo) 0 o) =
      [0] ∧
    (csp_problem_solve_forward_checking c4Demo [1] none false).1 = true ∧
    (csp_problem_solve_forward_checking c4Demo [1] none false).2.getD 0 0 ≠ 0 := by
  exact ⟨by decide, by decide, by decide⟩

/-- C4 amended: if the initial unary pruning leaves exactly one live
value `v` for variable `x` and marks `x` assigned, and the caller's
array already holds `v` at position `x`, then whenever
`csp_problem_solve_forward_checking` returns true the returned
assignment satisfies `A[x] = v` (the search never writes the slot of a
variable that is assigned at entry). -/
theorem c4_preassigned {D : Type} (csp : CSPProblem D) (values : List Nat)
    (data : Option D) (timeout : Bool) (x v : Nat)
    (_hlive : (List.range ((csp_forward_check_context_create
        csp).original_domain_sizes.getD x 0)).filter
        (fun o => maskGet (csp_forward_check_context_create csp) x o) = [v])
    (hass : (csp_forward_check_context_create csp).assigned.getD x false = true)
    (hinit : values.getD x 0 = v) :
    (csp_problem_solve_forward_checking csp values data timeout).1 = true →
    (csp_problem_solve_forward_checking csp values data timeout).2.getD x 0 = v := by
  intro _
  have hcf := create_fields csp
  have hm : (csp_forward_check_context_create csp).current_domains.length ≤
      (csp_forward_check_context_create csp).num_domains := by
    rw [hcf.2.2.2, hcf.1]
  have hp := backtrack_fc_preserves csp data timeout
    ((csp_forward_check_context_create csp).num_domains + 1) values
    (csp_forward_check_context_create csp) hm
  show (backtrack_fc csp data timeout
    ((csp_forward_check_context_create csp).num_domains + 1) values
    (csp_forward_check_context_create csp)).2.1.getD x 0 = v
  rw [hp.2 x hass, hinit]

theorem c4_witness :
    ((List.range ((csp_forward_check_context_create c4Demo).original_domain_sizes.getD
        0 0)).filter (fun o => maskGet (csp_forward_check_context_create c4Demo) 0 o) =
      [0] ∧
    (csp_forward_check_context_create c4Demo).assigned.getD 0 false = true ∧
    ([0] : List Nat).getD 0 0 = 0) ∧
    ((csp_problem_solve_forward_checking c4Demo [0] none false).1 = true →
      (csp_problem_solve_forward_checking c4Demo [0] none false).2.getD 0 0 = 0) :=
  ⟨⟨by decide, by decide, by decide⟩,
    c4_preassigned c4Demo [0] none false 0 0 (by decide) (by decide) (by decide)⟩

/-! ## C7: the LCV value orderer -/

/-- The conflict score of one constraint, in the words of the
specification (spec §4.6): an arity-2 constraint whose scope contains
`var` with an unassigned partner `y` contributes the number of live
values `w` of `y` for which the predicate fails on the snapshot
`A[var := u][y := w]`; every other constraint contributes nothing.
This is the claim-side definition, to be compared with the code's
`order_values_lcv`. -/
def lcv_con_score {D : Type} (ctx : CSPForwardCheckContext) (values : List Nat)
    (data : Option D) (var u : Nat) (con : CSPConstraint D) : Nat :=
  if csp_constraint_get_arity con = 2 then
    match lcvOther con var with
    | some y =>
      if ctx.assigned.getD y false then 0
      else ((List.range (ctx.original_domain_sizes.getD y 0)).filter
        (fun w => maskGet ctx y w &&
          !(con.check ((values.set var u).set y w) data))).length
    | none => 0
  else 0

/-- The total conflict score of candidate value `u` for variable `var`,
in the words of the specification: the sum of the per-constraint
conflict counts. -/
def lcv_conflict_score {D : Type} (csp : CSPProblem D) (ctx : CSPForwardCheckContext)
    (values : List Nat) (data : Option D) (var u : Nat) : Nat :=
  (csp.constraints.map (lcv_con_score ctx values data var u)).sum

theorem scope_two_mem {D : Type} (con : CSPConstraint D) (h : con.scope.length = 2) :
    con.scope.getD 0 0 ∈ con.scope ∧ con.scope.getD 1 0 ∈ con.scope := by
  rcases hs : con.scope with _ | ⟨a, rest⟩
  · rw [hs] at h
    exact absurd h (by simp)
  · rcases rest with _ | ⟨b, rest2⟩
    · rw [hs] at h
      exact absurd h (by simp)
    · constructor
      · rw [List.getD_cons_zero]
        exact List.mem_cons_self _ _
      · rw [List.getD_cons_succ, List.getD_cons_zero]
        exact List.mem_cons_of_mem _ (List.mem_cons_self _ _)

theorem lcvOther_scope {D : Type} (con : CSPConstraint D) (var other : Nat)
    (h2 : con.scope.length = 2) (hoth : lcvOther con var = some other) :
    other ∈ con.scope ∧ ∀ x ∈ con.scope, x = var ∨ x = other := by
  rcases hs : con.scope with _ | ⟨a, rest⟩
  · rw [hs] at h2
    exact absurd h2 (by simp)
  · rcases rest with _ | ⟨b, rest2⟩
    · rw [hs] at h2
      exact absurd h2 (by simp)
    · have hrest2 : rest2 = [] := by
        rw [hs] at h2
        simpa using h2
      subst hrest2
      rw [lcvOther] at hoth
      simp only [csp_constraint_get_variable, hs, List.getD_cons_zero,
        List.getD_cons_succ] at hoth
      by_cases ha : a = var
      · rw [if_pos ha, Option.some.injEq] at hoth
        subst hoth
        refine ⟨List.mem_cons_of_mem _ (List.mem_cons_self _ _), ?_⟩
        intro x hx
        rcases List.mem_cons.mp hx with h | h
        · exact Or.inl (h.trans ha)
        · rw [List.mem_singleton] at h
          exact Or.inr h
      · rw [if_neg ha] at hoth
        by_cases hb : b = var
        · rw [if_pos hb, Option.some.injEq] at hoth
          subst hoth
          refine ⟨List.mem_cons_self _ _, ?_⟩
          intro x hx
          rcases List.mem_cons.mp hx with h | h
          · exact Or.inr h
          · rw [List.mem_singleton] at h
            exact Or.inl (h.trans hb)
        · rw [if_neg hb] at hoth
          exact absurd hoth (by simp)

theorem lcvCountOther_score {D : Type} (con : CSPConstraint D) (data : Option D)
    (other var u : Nat) (ctx : CSPForwardCheckContext) (values : List Nat)
    (hpure : ∀ (w w' : List Nat), (∀ x ∈ con.scope, w.getD x 0 = w'.getD x 0) →
      con.check w data = con.check w' data)
    (hscope : ∀ x ∈ con.scope, x = var ∨ x = other)
    (hne : var ≠ other)
    (hvlt : var < values.length) (holt : other < values.length) :
    ∀ (os vals : List Nat) (conflicts : Nat),
    vals.length = values.length →
    vals.getD var 0 = u →
    (lcvCountOther con data other ctx os vals conflicts).1 =
      conflicts + (os.filter (fun w => maskGet ctx other w &&
        !(con.check ((values.set var u).set other w) data))).length ∧
    (lcvCountOther con data other ctx os vals conflicts).2.getD var 0 = u ∧
    (lcvCountOther con data other ctx os vals conflicts).2.length = values.length := by
  intro os
  induction os with
  | nil =>
    intro vals conflicts hlen hvar
    simp only [lcvCountOther, List.filter_nil]
    exact ⟨rfl, hvar, hlen⟩
  | cons o os ih =>
    intro vals conflicts hlen hvar
    simp only [lcvCountOther, List.filter_cons]
    by_cases hlive : maskGet ctx other o = true
    · rw [if_pos hlive]
      have hvals1 : (vals.set other o).getD var 0 = u := by
        rw [getD_set_ne _ _ _ _ _ (fun h => hne h.symm)]
        exact hvar
      have hlen1 : (vals.set other o).length = values.length := by
        rw [List.length_set]
        exact hlen
      have hcheq : con.check (vals.set other o) data =
          con.check ((values.set var u).set other o) data := by
        apply hpure
        intro x hx
        rcases hscope x hx with h | h
        · subst h
          rw [hvals1, getD_set_ne _ _ _ _ _ (fun h => hne h.symm),
            getD_set_eq _ _ _ _ hvlt]
        · subst h
          rw [getD_set_eq _ _ _ _ (by rw [hlen]; exact holt),
            getD_set_eq _ _ _ _ (by rw [List.length_set]; exact holt)]
      by_cases hchk : con.check (vals.set other o) data = true
      · rw [if_pos hchk]
        obtain ⟨h1, h2, h3⟩ := ih (vals.set other o) conflicts hlen1 hvals1
        refine ⟨?_, h2, h3⟩
        rw [h1]
        have : (maskGet ctx other o &&
            !(con.check ((values.set var u).set other o) data)) = false := by
          rw [← hcheq, hchk]
          simp
        rw [this]
        simp
      · rw [if_neg hchk]
        obtain ⟨h1, h2, h3⟩ := ih (vals.set other o) (conflicts + 1) hlen1 hvals1
        refine ⟨?_, h2, h3⟩
        rw [h1]
        have hcond : (maskGet ctx other o &&
            !(con.check ((values.set var u).set other o) data)) = true := by
          rw [← hcheq, bool_not_true hchk, hlive]
          simp
        simp only [hcond, if_true, List.length_cons]
        omega
    · rw [if_neg hlive]
      obtain ⟨h1, h2, h3⟩ := ih vals conflicts hlen hvar
      refine ⟨?_, h2, h3⟩
      rw [h1]
      have : (maskGet ctx other o &&
          !(con.check ((values.set var u).set other o) data)) = false := by
        rw [bool_not_true hlive]
        simp
      rw [this]
      simp

theorem lcvCons_score {D : Type} (ctx : CSPForwardCheckContext) (data : Option D)
    (var u : Nat) (values : List Nat) (hvlt : var < values.length) :
    ∀ (cons : List (CSPConstraint D)),
    (∀ con ∈ cons, ∀ (w w' : List Nat), (∀ x ∈ con.scope, w.getD x 0 = w'.getD x 0) →
      con.check w data = con.check w' data) →
    (∀ con ∈ cons, ∀ x ∈ con.scope, x < values.length) →
    (∀ con ∈ cons, con.scope.length = 2 → ∀ y, lcvOther con var = some y → var ≠ y) →
    ∀ (vals : List Nat) (conflicts : Nat),
    vals.length = values.length → vals.getD var 0 = u →
    (lcvCons ctx data var cons vals conflicts).1 =
      conflicts + (cons.map (lcv_con_score ctx values data var u)).sum ∧
    (lcvCons ctx data var cons vals conflicts).2.getD var 0 = u ∧
    (lcvCons ctx data var cons vals conflicts).2.length = values.length := by
  intro cons
  induction cons with
  | nil =>
    intro _ _ _ vals conflicts hlen hvar
    simp only [lcvCons, List.map_nil, List.sum_nil]
    exact ⟨by omega, hvar, hlen⟩
  | cons con rest ih =>
    intro hpure hsc hdist vals conflicts hlen hvar
    simp only [lcvCons, List.map_cons, List.sum_cons]
    have hpure' := fun c hc => hpure c (List.mem_cons_of_mem _ hc)
    have hsc' := fun c hc => hsc c (List.mem_cons_of_mem _ hc)
    have hdist' := fun c hc => hdist c (List.mem_cons_of_mem _ hc)
    by_cases har : csp_constraint_get_arity con ≠ 2
    · rw [if_pos har]
      have hz : lcv_con_score ctx values data var u con = 0 := by
        rw [lcv_con_score, if_neg har]
      obtain ⟨h1, h2, h3⟩ := ih hpure' hsc' hdist' vals conflicts hlen hvar
      exact ⟨by rw [h1, hz]; omega, h2, h3⟩
    · rw [if_neg har]
      have har2 : csp_constraint_get_arity con = 2 := not_not.mp har
      split
      · next hoth =>
        have hz : lcv_con_score ctx values data var u con = 0 := by
          rw [lcv_con_score, if_pos har2]
          simp only [hoth]
        obtain ⟨h1, h2, h3⟩ := ih hpure' hsc' hdist' vals conflicts hlen hvar
        exact ⟨by rw [h1, hz]; omega, h2, h3⟩
      · next other hoth =>
        by_cases hasg : ctx.assigned.getD other false = true
        · rw [if_pos hasg]
          have hz : lcv_con_score ctx values data var u con = 0 := by
            rw [lcv_con_score, if_pos har2]
            simp only [hoth]
            rw [if_pos hasg]
          obtain ⟨h1, h2, h3⟩ := ih hpure' hsc' hdist' vals conflicts hlen hvar
          exact ⟨by rw [h1, hz]; omega, h2, h3⟩
        · rw [if_neg hasg]
          have hscope := lcvOther_scope con var other har2 hoth
          have hne : var ≠ other :=
            hdist con (List.mem_cons_self _ _) har2 other hoth
          have holt : other < values.length :=
            hsc con (List.mem_cons_self _ _) other hscope.1
          obtain ⟨hc1, hc2, hc3⟩ := lcvCountOther_score con data other var u ctx values
            (hpure con (List.mem_cons_self _ _)) hscope.2 hne hvlt holt
            (List.range (ctx.original_domain_sizes.getD other 0)) vals conflicts hlen
            hvar
          obtain ⟨h1, h2, h3⟩ := ih hpure' hsc' hdist' _ _ hc3 hc2
          refine ⟨?_, h2, h3⟩
          rw [h1, hc1]
          have hz : lcv_con_score ctx values data var u con =
              ((List.range (ctx.original_domain_sizes.getD other 0)).filter
                (fun w => maskGet ctx other w &&
                  !(con.check ((values.set var u).set other w) data))).length := by
            rw [lcv_con_score, if_pos har2]
            simp only [hoth]
            rw [if_neg hasg]
          rw [hz]
          omega

theorem lcvVals_pairs {D : Type} (csp : CSPProblem D) (ctx : CSPForwardCheckContext)
    (data : Option D) (var : Nat) (values : List Nat) (hvlt : var < values.length)
    (hpure : ∀ con ∈ csp.constraints, ∀ (w w' : List Nat),
      (∀ x ∈ con.scope, w.getD x 0 = w'.getD x 0) →
      con.check w data = con.check w' data)
    (hsc : ∀ con ∈ csp.constraints, ∀ x ∈ con.scope, x < values.length)
    (hdist : ∀ con ∈ csp.constraints, con.scope.length = 2 →
      ∀ y, lcvOther con var = some y → var ≠ y) :
    ∀ (cands vals : List Nat) (pairs : List (Nat × Nat)),
    vals.length = values.length →
    (lcvVals csp ctx data var cands vals pairs).1 =
      pairs ++ (cands.filter (fun o => maskGet ctx var o)).map
        (fun o => (o, lcv_conflict_score csp ctx values data var o)) := by
  intro cands
  induction cands with
  | nil =>
    intro vals pairs _
    simp [lcvVals]
  | cons val vs ih =>
    intro vals pairs hlen
    simp only [lcvVals, List.filter_cons]
    by_cases hlive : maskGet ctx var val = true
    · rw [if_pos hlive]
      have hvval : (vals.set var val).getD var 0 = val :=
        getD_set_eq _ _ _ _ (by rw [hlen]; exact hvlt)
      have hvlen : (vals.set var val).length = values.length := by
        rw [List.length_set]
        exact hlen
      obtain ⟨hs1, hs2, hs3⟩ := lcvCons_score ctx data var val values hvlt
        csp.constraints hpure hsc hdist (vals.set var val) 0 hvlen hvval
      rw [ih _ _ hs3, hs1]
      have hscore : (0 : Nat) +
          (csp.constraints.map (lcv_con_score ctx values data var val)).sum =
          lcv_conflict_score csp ctx values data var val := by
        simp [lcv_conflict_score]
      rw [hscore, hlive]
      simp
    · rw [if_neg hlive]
      rw [bool_not_true hlive]
      simp only [Bool.false_eq_true, if_false]
      exact ih vals pairs hlen

def pairLex (p q : Nat × Nat) : Prop :=
  p.2 < q.2 ∨ (p.2 = q.2 ∧ p.1 < q.1)

theorem lcvInsert_perm (p : Nat × Nat) :
    ∀ l : List (Nat × Nat), (lcvInsert p l).Perm (p :: l) := by
  intro l
  induction l with
  | nil => exact List.Perm.refl _
  | cons q qs ih =>
    simp only [lcvInsert]
    by_cases h : q.2 > p.2
    · rw [if_pos h]
    · rw [if_neg h]
      exact (ih.cons q).trans (List.Perm.swap p q qs)

theorem lcvInsert_sorted (p : Nat × Nat) :
    ∀ l : List (Nat × Nat), l.Pairwise pairLex → (∀ q ∈ l, q.1 < p.1) →
    (lcvInsert p l).Pairwise pairLex := by
  intro l
  induction l with
  | nil =>
    intro _ _
    simp [lcvInsert]
  | cons q qs ih =>
    intro hp hf
    rcases List.pairwise_cons.mp hp with ⟨hq, hqs⟩
    simp only [lcvInsert]
    by_cases h : q.2 > p.2
    · rw [if_pos h]
      refine List.pairwise_cons.mpr ⟨?_, hp⟩
      intro r hr
      rcases List.mem_cons.mp hr with h' | h'
      · rw [h']
        exact Or.inl h
      · rcases hq r h' with hlt | ⟨heq, _⟩
        · exact Or.inl (Nat.lt_trans h hlt)
        · exact Or.inl (by omega)
    · rw [if_neg h]
      refine List.pairwise_cons.mpr
        ⟨?_, ih hqs (fun r hr => hf r (List.mem_cons_of_mem _ hr))⟩
      intro r hr
      rcases List.mem_cons.mp ((lcvInsert_perm p qs).mem_iff.mp hr) with h' | h'
      · rw [h']
        rcases Nat.lt_or_ge q.2 p.2 with hlt | hge
        · exact Or.inl hlt
        · exact Or.inr ⟨by omega, hf q (List.mem_cons_self _ _)⟩
      · exact hq r h'

theorem lcvSort_fold :
    ∀ (ps acc : List (Nat × Nat)),
    acc.Pairwise pairLex →
    (∀ q ∈ acc, ∀ r ∈ ps, q.1 < r.1) →
    ps.Pairwise (fun a b => a.1 < b.1) →
    (ps.foldl (fun acc p => lcvInsert p acc) acc).Pairwise pairLex ∧
    (ps.foldl (fun acc p => lcvInsert p acc) acc).Perm (acc ++ ps) := by
  intro ps
  induction ps with
  | nil =>
    intro acc h _ _
    simp only [List.foldl_nil, List.append_nil]
    exact ⟨h, List.Perm.refl _⟩
  | cons p ps ih =>
    intro acc hacc hcross hps
    rw [List.foldl_cons]
    rcases List.pairwise_cons.mp hps with ⟨hp, hps'⟩
    have hins_sorted : (lcvInsert p acc).Pairwise pairLex :=
      lcvInsert_sorted p acc hacc (fun q hq => hcross q hq p (List.mem_cons_self _ _))
    have hins_cross : ∀ q ∈ lcvInsert p acc, ∀ r ∈ ps, q.1 < r.1 := by
      intro q hq r hr
      rcases List.mem_cons.mp ((lcvInsert_perm p acc).mem_iff.mp hq) with h' | h'
      · rw [h']
        exact hp r hr
      · exact hcross q h' r (List.mem_cons_of_mem _ hr)
    obtain ⟨h1, h2⟩ := ih (lcvInsert p acc) hins_sorted hins_cross hps'
    refine ⟨h1, h2.trans ?_⟩
    refine ((lcvInsert_perm p acc).append_right ps).trans ?_
    rw [List.cons_append]
    exact List.perm_middle.symm

theorem lcvSort_spec (ps : List (Nat × Nat))
    (hps : ps.Pairwise (fun a b => a.1 < b.1)) :
    (lcvSort ps).Pairwise pairLex ∧ (lcvSort ps).Perm ps := by
  have h := lcvSort_fold ps [] List.Pairwise.nil (by simp) hps
  rw [lcvSort]
  simpa using h

def sumLeqCon : CSPConstraint Nat :=
  ⟨[0, 1], fun vals data =>
    match data with
    | some m => decide (vals.getD 0 0 + vals.getD 1 0 ≤ m)
    | none => true⟩

def lcvDemo : CSPProblem Nat := ⟨[3, 3], [sumLeqCon]⟩

def lcvDemoCtx : CSPForwardCheckContext := csp_forward_check_context_create lcvDemo

theorem lcvOther_ne {D : Type} (con : CSPConstraint D) (var other : Nat)
    (hoth : lcvOther con var = some other)
    (hab : con.scope.getD 0 0 ≠ con.scope.getD 1 0) : var ≠ other := by
  simp only [lcvOther] at hoth
  by_cases ha : csp_constraint_get_variable con 0 = var
  · rw [if_pos ha, Option.some.injEq] at hoth
    rw [← ha, ← hoth]
    exact hab
  · rw [if_neg ha] at hoth
    by_cases hb : csp_constraint_get_variable con 1 = var
    · rw [if_pos hb, Option.some.injEq] at hoth
      rw [← hb, ← hoth]
      exact fun h => hab h.symm
    · rw [if_neg hb] at hoth
      exact absurd hoth (by simp)

theorem lcvDemo_contract : respectsContract lcvDemo := by
  intro con hcon vals vals' data hag
  have hc : con = sumLeqCon := by simpa [lcvDemo] using hcon
  subst hc
  have h0 := hag 0 (by decide)
  have h1 := hag 1 (by decide)
  rcases data with _ | m
  · rfl
  · show decide (vals.getD 0 0 + vals.getD 1 0 ≤ m) =
      decide (vals'.getD 0 0 + vals'.getD 1 0 ≤ m)
    rw [h0, h1]

/-- C7: `order_values_lcv` returns exactly the live values of the chosen
variable, sorted ascending by conflict score (the number of live values
of the unassigned partner that the checker rejects), ties broken by
ascending value; in particular on the two-variable sum-at-most-2 problem
with nothing assigned it returns `[0, 1, 2]` for variable 0. -/
theorem c7_lcv_order {D : Type} (csp : CSPProblem D) (ctx : CSPForwardCheckContext)
    (values : List Nat) (data : Option D) (var : Nat)
    (hpure : respectsContract csp)
    (hsc : ∀ con ∈ csp.constraints, ∀ x ∈ con.scope, x < values.length)
    (hvlt : var < values.length)
    (hdist : ∀ con ∈ csp.constraints, con.scope.length = 2 →
      con.scope.getD 0 0 ≠ con.scope.getD 1 0) :
    ((order_values_lcv csp ctx values data var).1.Perm
        ((List.range (ctx.original_domain_sizes.getD var 0)).filter
          (fun o => maskGet ctx var o)) ∧
      (order_values_lcv csp ctx values data var).1.Pairwise
        (fun a b => lcv_conflict_score csp ctx values data var a <
            lcv_conflict_score csp ctx values data var b ∨
          (lcv_conflict_score csp ctx values data var a =
            lcv_conflict_score csp ctx values data var b ∧ a < b))) ∧
    (order_values_lcv lcvDemo (csp_forward_check_context_create lcvDemo)
        [9, 9] (some 2) 0).1 = [0, 1, 2] := by
  have hpure' : ∀ con ∈ csp.constraints, ∀ (w w' : List Nat),
      (∀ x ∈ con.scope, w.getD x 0 = w'.getD x 0) →
      con.check w data = con.check w' data :=
    fun con hcon w w' hw => hpure con hcon w w' data hw
  have hdist' : ∀ con ∈ csp.constraints, con.scope.length = 2 →
      ∀ y, lcvOther con var = some y → var ≠ y :=
    fun con hcon h2 y hy => lcvOther_ne con var y hy (hdist con hcon h2)
  have hpairs := lcvVals_pairs csp ctx data var values hvlt hpure' hsc hdist'
    (List.range (ctx.original_domain_sizes.getD var 0)) values [] rfl
  rw [List.nil_append] at hpairs
  have hofst : (order_values_lcv csp ctx values data var).1 =
      (lcvSort (lcvVals csp ctx data var
        (List.range (ctx.original_domain_sizes.getD var 0)) values []).1).map
        Prod.fst := rfl
  have hLsorted : ((List.range (ctx.original_domain_sizes.getD var 0)).filter
      (fun o => maskGet ctx var o)).Pairwise (fun a b => a < b) :=
    List.Pairwise.sublist (List.filter_sublist _) (List.pairwise_lt_range _)
  have hpfst : (lcvVals csp ctx data var
      (List.range (ctx.original_domain_sizes.getD var 0)) values []).1.Pairwise
      (fun p q => p.1 < q.1) := by
    rw [hpairs]
    exact List.pairwise_map.mpr (hLsorted.imp (fun h => h))
  obtain ⟨hsorted, hperm⟩ := lcvSort_spec _ hpfst
  have hmapfst : ((lcvVals csp ctx data var
      (List.range (ctx.original_domain_sizes.getD var 0)) values []).1.map
      Prod.fst) = (List.range (ctx.original_domain_sizes.getD var 0)).filter
      (fun o => maskGet ctx var o) := by
    rw [hpairs, List.map_map]
    have hid : (Prod.fst ∘ fun o => (o, lcv_conflict_score csp ctx values data var o)) =
        fun o : Nat => o := rfl
    rw [hid, List.map_id']
  have hscore : ∀ p ∈ lcvSort (lcvVals csp ctx data var
      (List.range (ctx.original_domain_sizes.getD var 0)) values []).1,
      p.2 = lcv_conflict_score csp ctx values data var p.1 := by
    intro p hp
    have hp2 := hperm.mem_iff.mp hp
    rw [hpairs] at hp2
    obtain ⟨o, _, rfl⟩ := List.mem_map.mp hp2
    rfl
  refine ⟨⟨?_, ?_⟩, ?_⟩
  · rw [hofst]
    have h2 := hperm.map Prod.fst
    rw [hmapfst] at h2
    exact h2
  · rw [hofst]
    refine List.pairwise_map.mpr ?_
    refine List.Pairwise.imp_of_mem ?_ hsorted
    intro a b ha hb hab
    rcases hab with hlt | ⟨heq, htie⟩
    · exact Or.inl (by rw [← hscore a ha, ← hscore b hb]; exact hlt)
    · exact Or.inr ⟨by rw [← hscore a ha, ← hscore b hb]; exact heq, htie⟩
  · decide

theorem c7_witness :
    ((order_values_lcv lcvDemo lcvDemoCtx [9, 9] (some 2) 0).1.Perm
        ((List.range (lcvDemoCtx.original_domain_sizes.getD 0 0)).filter
          (fun o => maskGet lcvDemoCtx 0 o)) ∧
      (order_values_lcv lcvDemo lcvDemoCtx [9, 9] (some 2) 0).1.Pairwise
        (fun a b => lcv_conflict_score lcvDemo lcvDemoCtx [9, 9] (some 2) 0 a <
            lcv_conflict_score lcvDemo lcvDemoCtx [9, 9] (some 2) 0 b ∨
          (lcv_conflict_score lcvDemo lcvDemoCtx [9, 9] (some 2) 0 a =
            lcv_conflict_score lcvDemo lcvDemoCtx [9, 9] (some 2) 0 b ∧ a < b))) ∧
    (order_values_lcv lcvDemo (csp_forward_check_context_create lcvDemo)
        [9, 9] (some 2) 0).1 = [0, 1, 2] :=
  c7_lcv_order lcvDemo lcvDemoCtx [9, 9] (some 2) 0 lcvDemo_contract
    (by decide) (by decide) (by decide)

theorem lcvFold_perm :
    ∀ (ps acc : List (Nat × Nat)),
    (ps.foldl (fun acc p => lcvInsert p acc) acc).Perm (acc ++ ps) := by
  intro ps
  induction ps with
  | nil =>
    intro acc
    rw [List.foldl_nil, List.append_nil]
  | cons p ps ih =>
    intro acc
    rw [List.foldl_cons]
    refine (ih (lcvInsert p acc)).trans ?_
    refine ((lcvInsert_perm p acc).append_right ps).trans ?_
    rw [List.cons_append]
    exact List.perm_middle.symm

theorem lcvSort_perm (ps : List (Nat × Nat)) : (lcvSort ps).Perm ps := by
  have h := lcvFold_perm ps []
  rw [List.nil_append] at h
  exact h

theorem lcvVals_fst_mem {D : Type} (csp : CSPProblem D) (ctx : CSPForwardCheckContext)
    (data : Option D) (var : Nat) :
    ∀ (cands vals : List Nat) (pairs : List (Nat × Nat)) (p : Nat × Nat),
    p ∈ (lcvVals csp ctx data var cands vals pairs).1 →
    p ∈ pairs ∨ (p.1 ∈ cands ∧ maskGet ctx var p.1 = true) := by
  intro cands
  induction cands with
  | nil =>
    intro vals pairs p hp
    exact Or.inl hp
  | cons val vs ih =>
    intro vals pairs p hp
    simp only [lcvVals] at hp
    by_cases hlive : maskGet ctx var val = true
    · rw [if_pos hlive] at hp
      rcases ih _ _ p hp with h | h
      · rcases List.mem_append.mp h with h' | h'
        · exact Or.inl h'
        · have hp1 : p.1 = val := by rw [List.mem_singleton.mp h']
          exact Or.inr ⟨by rw [hp1]; exact List.mem_cons_self _ _,
            by rw [hp1]; exact hlive⟩
      · exact Or.inr ⟨List.mem_cons_of_mem _ h.1, h.2⟩
    · rw [if_neg hlive] at hp
      rcases ih _ _ p hp with h | h
      · exact Or.inl h
      · exact Or.inr ⟨List.mem_cons_of_mem _ h.1, h.2⟩

theorem lcvVals_fst_complete {D : Type} (csp : CSPProblem D)
    (ctx : CSPForwardCheckContext) (data : Option D) (var : Nat) :
    ∀ (cands vals : List Nat) (pairs : List (Nat × Nat)) (v : Nat),
    (v ∈ cands ∧ maskGet ctx var v = true) ∨ (∃ c, (v, c) ∈ pairs) →
    ∃ c, (v, c) ∈ (lcvVals csp ctx data var cands vals pairs).1 := by
  intro cands
  induction cands with
  | nil =>
    intro vals pairs v hv
    rcases hv with ⟨hm, _⟩ | ⟨c, hc⟩
    · exact absurd hm (by simp)
    · exact ⟨c, hc⟩
  | cons val vs ih =>
    intro vals pairs v hv
    simp only [lcvVals]
    by_cases hlive : maskGet ctx var val = true
    · rw [if_pos hlive]
      rcases hv with ⟨hm, hl⟩ | ⟨c, hc⟩
      · rcases List.mem_cons.mp hm with heq | hmem
        · subst heq
          exact ih _ _ v (Or.inr ⟨_, List.mem_append_right _ (List.mem_singleton.mpr rfl)⟩)
        · exact ih _ _ v (Or.inl ⟨hmem, hl⟩)
      · exact ih _ _ v (Or.inr ⟨c, List.mem_append_left _ hc⟩)
    · rw [if_neg hlive]
      rcases hv with ⟨hm, hl⟩ | ⟨c, hc⟩
      · rcases List.mem_cons.mp hm with heq | hmem
        · rw [heq] at hl
          exact absurd hl hlive
        · exact ih _ _ v (Or.inl ⟨hmem, hl⟩)
      · exact ih _ _ v (Or.inr ⟨c, hc⟩)

theorem order_values_mem {D : Type} (csp : CSPProblem D) (ctx : CSPForwardCheckContext)
    (values : List Nat) (data : Option D) (var : Nat) :
    ∀ v ∈ (order_values_lcv csp ctx values data var).1,
    v < ctx.original_domain_sizes.getD var 0 ∧ maskGet ctx var v = true := by
  intro v hv
  have h1 : v ∈ (lcvSort (lcvVals csp ctx data var
      (List.range (ctx.original_domain_sizes.getD var 0)) values []).1).map Prod.fst := hv
  obtain ⟨p, hp, hpv⟩ := List.mem_map.mp h1
  have hp2 : p ∈ (lcvVals csp ctx data var
      (List.range (ctx.original_domain_sizes.getD var 0)) values []).1 :=
    (lcvSort_perm _).mem_iff.mp hp
  rcases lcvVals_fst_mem csp ctx data var _ values [] p hp2 with h | h
  · exact absurd h (by simp)
  · rw [← hpv]
    exact ⟨List.mem_range.mp h.1, h.2⟩

theorem order_values_complete {D : Type} (csp : CSPProblem D)
    (ctx : CSPForwardCheckContext) (values : List Nat) (data : Option D) (var v : Nat)
    (hlt : v < ctx.original_domain_sizes.getD var 0)
    (hlive : maskGet ctx var v = true) :
    v ∈ (order_values_lcv csp ctx values data var).1 := by
  obtain ⟨c, hc⟩ := lcvVals_fst_complete csp ctx data var
    (List.range (ctx.original_domain_sizes.getD var 0)) values [] v
    (Or.inl ⟨List.mem_range.mpr hlt, hlive⟩)
  have hmem : (v, c) ∈ lcvSort (lcvVals csp ctx data var
      (List.range (ctx.original_domain_sizes.getD var 0)) values []).1 :=
    (lcvSort_perm _).mem_iff.mpr hc
  show v ∈ (lcvSort (lcvVals csp ctx data var
      (List.range (ctx.original_domain_sizes.getD var 0)) values []).1).map Prod.fst
  exact List.mem_map.mpr ⟨(v, c), hmem, rfl⟩

theorem getD_map_of_lt {α β : Type} (l : List α) (f : α → β) (w : Nat) (d : β) (d0 : α)
    (h : w < l.length) : (l.map f).getD w d = f (l.getD w d0) := by
  rw [List.getD_eq_getElem?_getD, List.getD_eq_getElem?_getD, List.getElem?_map,
    List.getElem?_eq_getElem h]
  rfl

/-- The snapshot positions `fc_is_consistent` reads agree with a total
assignment satisfying every installed constraint, so the test passes. -/
theorem fc_is_consistent_of_agree {D : Type} (csp : CSPProblem D) (data : Option D)
    (hcontract : respectsContract csp) (hfb : fullyBuilt csp)
    (S v : List Nat) (c : CSPForwardCheckContext)
    (hSc : ∀ con ∈ csp.constraints, con.check S data = true)
    (hagree : ∀ w, w < csp.domains.length → c.assigned.getD w false = true →
      v.getD w 0 = S.getD w 0) :
    fc_is_consistent csp v data c = true := by
  rw [fc_is_consistent, List.all_eq_true]
  intro con hc
  by_cases hall : con.scope.all (fun x => c.assigned.getD x false) = true
  · rw [if_pos hall]
    have heq : con.check v data = con.check S data :=
      hcontract con hc v S data (fun x hx =>
        hagree x ((hfb con hc).2 x hx) (List.all_eq_true.mp hall x hx))
    rw [heq]
    exact hSc con hc
  · rw [if_neg hall]

/-- The number of variables not yet marked assigned in the context. -/
def unassignedCount (ctx : CSPForwardCheckContext) : Nat :=
  ((List.range ctx.num_domains).filter (fun w => !(ctx.assigned.getD w false))).length

theorem unassignedCount_le (ctx : CSPForwardCheckContext) :
    unassignedCount ctx ≤ ctx.num_domains := by
  rw [unassignedCount]
  calc ((List.range ctx.num_domains).filter
      (fun w => !(ctx.assigned.getD w false))).length
      ≤ (List.range ctx.num_domains).length := List.length_filter_le _ _
    _ = ctx.num_domains := List.length_range _

theorem count_unassigned_set (a : List Bool) (var : Nat) :
    ∀ n, var < n → var < a.length → a.getD var false = false →
    ((List.range n).filter (fun w => !((a.set var true).getD w false))).length + 1 =
    ((List.range n).filter (fun w => !(a.getD w false))).length := by
  intro n
  induction n with
  | zero =>
    intro h
    exact absurd h (by simp)
  | succ n ih =>
    intro hvar hlen hun
    rw [List.range_succ, List.filter_append, List.filter_append,
      List.length_append, List.length_append]
    by_cases hvn : var = n
    · subst hvn
      have hfeq : (List.range var).filter (fun w => !((a.set var true).getD w false)) =
          (List.range var).filter (fun w => !(a.getD w false)) := by
        apply List.filter_congr
        intro x hx
        rw [getD_set_ne _ _ _ _ _ (Nat.ne_of_gt (List.mem_range.mp hx))]
      have h1 : ((List.filter (fun w => !((a.set var true).getD w false)) [var])).length
          = 0 := by
        simp only [List.filter_cons, List.filter_nil]
        rw [getD_set_eq _ _ _ _ hlen]
        rfl
      have h2 : ((List.filter (fun w => !(a.getD w false)) [var])).length = 1 := by
        simp only [List.filter_cons, List.filter_nil]
        rw [hun]
        rfl
      rw [hfeq, h1, h2]
    · have hvlt : var < n := Nat.lt_of_le_of_ne (Nat.lt_succ_iff.mp hvar) hvn
      have htl : ((List.filter (fun w => !((a.set var true).getD w false)) [n])).length =
          ((List.filter (fun w => !(a.getD w false)) [n])).length := by
        simp only [List.filter_cons, List.filter_nil]
        rw [getD_set_ne _ _ _ _ _ (fun h => hvn h)]
      rw [htl]
      have := ih hvlt hlen hun
      omega

/-- A total assignment solving the problem: one in-domain value per
variable, satisfying every installed constraint under the given data. -/
def isSolution {D : Type} (csp : CSPProblem D) (data : Option D) (S : List Nat) : Prop :=
  S.length = csp.domains.length ∧
  (∀ i, i < csp.domains.length → S.getD i 0 < csp.domains.getD i 0) ∧
  ∀ con ∈ csp.constraints, con.check S data = true

/-- A freshly initialised context in which the initial unary pruning
pass removed nothing: full live masks, nothing assigned. -/
def pristineCtx {D : Type} (csp : CSPProblem D) : CSPForwardCheckContext :=
  { num_domains := csp.domains.length
    original_domain_sizes := csp.domains
    current_domains := csp.domains.map (fun d => List.replicate d true)
    assigned := List.replicate csp.domains.length false }

/-- Search-state slots holding values inside the variable's original
domain (only assigned slots are constrained). -/
def inDomain (ctx : CSPForwardCheckContext) (values : List Nat) : Prop :=
  ∀ w, w < ctx.num_domains → ctx.assigned.getD w false = true →
    values.getD w 0 < ctx.original_domain_sizes.getD w 0

theorem fcTry_inDomain {D : Type} (csp : CSPProblem D) (data : Option D)
    (rec : List Nat → CSPForwardCheckContext → Bool × List Nat × CSPForwardCheckContext)
    (hrecD : ∀ (v : List Nat) (c : CSPForwardCheckContext),
      c.current_domains.length ≤ c.num_domains → c.num_domains ≤ v.length →
      inDomain c v → (rec v c).1 = true →
      inDomain (rec v c).2.2 (rec v c).2.1 ∧ (rec v c).2.1.length = v.length)
    (hrecP : ∀ (v : List Nat) (c : CSPForwardCheckContext),
      c.current_domains.length ≤ c.num_domains →
      (rec v c).2.1.length = v.length ∧
      ∀ q, c.assigned.getD q false = true → (rec v c).2.1.getD q 0 = v.getD q 0)
    (hrecF : ∀ (v : List Nat) (c : CSPForwardCheckContext),
      c.current_domains.length ≤ c.num_domains →
      (rec v c).1 = false → (rec v c).2.2 = c)
    (var : Nat) :
    ∀ (order values : List Nat) (ctx : CSPForwardCheckContext),
    ctx.current_domains.length ≤ ctx.num_domains →
    ctx.assigned.getD var false = false →
    var < ctx.num_domains →
    ctx.num_domains ≤ values.length →
    (∀ v ∈ order, v < ctx.original_domain_sizes.getD var 0) →
    inDomain ctx values →
    (fcTry csp data rec var order values ctx).1 = true →
    inDomain (fcTry csp data rec var order values ctx).2.2
      (fcTry csp data rec var order values ctx).2.1 ∧
    (fcTry csp data rec var order values ctx).2.1.length = values.length := by
  intro order
  induction order with
  | nil =>
    intro values ctx _ _ _ _ _ _ htrue
    exact absurd htrue (by simp [fcTry])
  | cons val rest ih =>
    intro values ctx hm hvar hvlt hnl horder hdom htrue
    simp only [fcTry] at htrue ⊢
    by_cases hcons :
        fc_is_consistent csp (values.set var val) data (setAssigned ctx var true) = true
    · rw [if_pos hcons] at htrue ⊢
      set st := prune_neighbors_fresh csp (values.set var val) data
        (setAssigned ctx var true) var with hst
      have hm1 : (setAssigned ctx var true).current_domains.length ≤
          (setAssigned ctx var true).num_domains := hm
      have hps := pruneCons_spec data var (setAssigned ctx var true) csp.constraints
        (setAssigned ctx var true) (values.set var val)
        (List.replicate (setAssigned ctx var true).num_domains 0)
        (List.replicate (setAssigned ctx var true).num_domains [])
        (pruneInv_init (setAssigned ctx var true) hm1)
      rw [← prune_neighbors_fresh_def, ← hst] at hps
      obtain ⟨hinv, hlen2, hpres2, -, -⟩ := hps
      have hmst : st.1.current_domains.length ≤ st.1.num_domains := by
        rw [hinv.rowsLen, hinv.nd]
        exact hm1
      have hnum_st : st.1.num_domains = ctx.num_domains := hinv.nd
      have hlen_st : st.2.1.length = values.length := by
        rw [hlen2, List.length_set]
      have hdom1 : inDomain (setAssigned ctx var true) (values.set var val) := by
        intro w hw hassg
        show (values.set var val).getD w 0 < ctx.original_domain_sizes.getD w 0
        by_cases hwv : w = var
        · subst hwv
          rw [getD_set_eq values w val 0 (Nat.lt_of_lt_of_le hvlt hnl)]
          exact horder val (List.mem_cons_self _ _)
        · rw [getD_set_ne _ _ _ _ _ (fun h => hwv h.symm)]
          have hassg' : ctx.assigned.getD w false = true := by
            have h0 : (ctx.assigned.set var true).getD w false = true := hassg
            rw [getD_set_ne _ _ _ _ _ (fun h => hwv h.symm)] at h0
            exact h0
          exact hdom w hw hassg'
      have hdomst : inDomain st.1 st.2.1 := by
        intro w hw hassg
        have hw' : (w : Nat) < (setAssigned ctx var true).num_domains := by
          have h0 := hw
          rw [hnum_st] at h0
          exact h0
        have hassg1 : (setAssigned ctx var true).assigned.getD w false = true := by
          rw [← hinv.asg]
          exact hassg
        show st.2.1.getD w 0 < st.1.original_domain_sizes.getD w 0
        rw [hpres2 w hassg1, hinv.ods]
        exact hdom1 w hw' hassg1
      by_cases hr1 : (rec st.2.1 st.1).1 = true
      · rw [if_pos hr1] at htrue ⊢
        obtain ⟨hrD, hrlen⟩ := hrecD st.2.1 st.1 hmst
          (by rw [hnum_st, hlen_st]; exact hnl) hdomst hr1
        constructor
        · have hrf := restore_pruned_fields (rec st.2.1 st.1).2.2 st.2.2.1 st.2.2.2
          intro w hw hassg
          have hw' : w < (rec st.2.1 st.1).2.2.num_domains := by
            rw [← hrf.1]
            exact hw
          have hassg' : (rec st.2.1 st.1).2.2.assigned.getD w false = true := by
            rw [← hrf.2.2.1]
            exact hassg
          show (rec st.2.1 st.1).2.1.getD w 0 <
            (restore_pruned (rec st.2.1 st.1).2.2
              st.2.2.1 st.2.2.2).original_domain_sizes.getD w 0
          rw [hrf.2.1]
          exact hrD w hw' hassg'
        · rw [hrlen, hlen_st]
      · rw [if_neg hr1] at htrue ⊢
        have hr1f : (rec st.2.1 st.1).1 = false := bool_not_true hr1
        have heq : (rec st.2.1 st.1).2.2 = st.1 := hrecF st.2.1 st.1 hmst hr1f
        have hctxnext : setAssigned
            (restore_pruned (rec st.2.1 st.1).2.2 st.2.2.1 st.2.2.2) var false = ctx := by
          rw [heq, hst]
          exact fc_restore_roundtrip csp data (values.set var val) ctx var hm hvar
        rw [hctxnext] at htrue ⊢
        obtain ⟨hplen, hppres⟩ := hrecP st.2.1 st.1 hmst
        have hlenr : (rec st.2.1 st.1).2.1.length = values.length := by
          rw [hplen, hlen_st]
        have hdomr : inDomain ctx (rec st.2.1 st.1).2.1 := by
          intro w hw hassg
          have hwv : w ≠ var := fun h => by
            rw [h, hvar] at hassg
            exact absurd hassg (by simp)
          have hassg1 : (setAssigned ctx var true).assigned.getD w false = true := by
            show (ctx.assigned.set var true).getD w false = true
            rw [getD_set_ne _ _ _ _ _ (fun h => hwv h.symm)]
            exact hassg
          have hassgst : st.1.assigned.getD w false = true := by
            rw [hinv.asg]
            exact hassg1
          show (rec st.2.1 st.1).2.1.getD w 0 < ctx.original_domain_sizes.getD w 0
          rw [hppres w hassgst, hpres2 w hassg1,
            getD_set_ne _ _ _ _ _ (fun h => hwv h.symm)]
          exact hdom w hw hassg
        obtain ⟨ha, hb⟩ := ih (rec st.2.1 st.1).2.1 ctx hm hvar hvlt
          (by rw [hlenr]; exact hnl)
          (fun v hv => horder v (List.mem_cons_of_mem _ hv)) hdomr htrue
        exact ⟨ha, hb.trans hlenr⟩
    · rw [if_neg hcons] at htrue ⊢
      rw [setAssigned_cancel ctx var hvar] at htrue ⊢
      have hdom1 : inDomain ctx (values.set var val) := by
        intro w hw hassg
        have hwv : w ≠ var := fun h => by
          rw [h, hvar] at hassg
          exact absurd hassg (by simp)
        rw [getD_set_ne _ _ _ _ _ (fun h => hwv h.symm)]
        exact hdom w hw hassg
      obtain ⟨ha, hb⟩ := ih (values.set var val) ctx hm hvar hvlt
        (by rw [List.length_set]; exact hnl)
        (fun v hv => horder v (List.mem_cons_of_mem _ hv)) hdom1 htrue
      exact ⟨ha, hb.trans (List.length_set values var val)⟩

theorem backtrack_fc_inDomain {D : Type} (csp : CSPProblem D) (data : Option D)
    (timeout : Bool) :
    ∀ (fuel : Nat) (values : List Nat) (ctx : CSPForwardCheckContext),
    ctx.current_domains.length ≤ ctx.num_domains →
    ctx.num_domains ≤ values.length →
    inDomain ctx values →
    (backtrack_fc csp data timeout fuel values ctx).1 = true →
    inDomain (backtrack_fc csp data timeout fuel values ctx).2.2
      (backtrack_fc csp data timeout fuel values ctx).2.1 ∧
    (backtrack_fc csp data timeout fuel values ctx).2.1.length = values.length := by
  intro fuel
  induction fuel with
  | zero =>
    intro values ctx _ _ _ htrue
    exact absurd htrue (by simp [backtrack_fc])
  | succ fuel ih =>
    intro values ctx hm hnl hdom htrue
    simp only [backtrack_fc] at htrue ⊢
    by_cases ht : timeout = true
    · rw [if_pos ht] at htrue
      exact absurd htrue (by simp)
    · rw [if_neg ht] at htrue ⊢
      by_cases hall : allAssigned ctx = true
      · rw [if_pos hall] at htrue ⊢
        exact ⟨hdom, rfl⟩
      · rw [if_neg hall] at htrue ⊢
        have hsel := select_unassigned_var_spec ctx (bool_not_true hall)
        obtain ⟨hplen, hppres⟩ :=
          order_values_lcv_vals csp ctx values data (select_unassigned_var ctx)
        have hdomp : inDomain ctx
            (order_values_lcv csp ctx values data (select_unassigned_var ctx)).2 := by
          intro w hw hassg
          have hwv : w ≠ select_unassigned_var ctx := fun h => by
            rw [h, hsel.1] at hassg
            exact absurd hassg (by simp)
          rw [hppres w hwv hassg]
          exact hdom w hw hassg
        have horder := order_values_mem csp ctx values data (select_unassigned_var ctx)
        obtain ⟨ha, hb⟩ := fcTry_inDomain csp data (backtrack_fc csp data timeout fuel)
          ih
          (fun v c hmc => backtrack_fc_preserves csp data timeout fuel v c hmc)
          (fun v c hmc hfc => (backtrack_fc_restores csp data timeout fuel v c hmc).2 hfc)
          (select_unassigned_var ctx) _ _ ctx hm hsel.1 hsel.2
          (by rw [hplen]; exact hnl) (fun v hv => (horder v hv).1) hdomp htrue
        exact ⟨ha, hb.trans hplen⟩

/-- Invariant of the completeness argument: the context is well-formed
for the problem, the snapshot agrees with the solution `S` on every
assigned slot, and `S`'s value is still live for every unassigned
variable. -/
structure FCInv {D : Type} (csp : CSPProblem D) (S : List Nat)
    (ctx : CSPForwardCheckContext) (values : List Nat) : Prop where
  nd : ctx.num_domains = csp.domains.length
  ods : ctx.original_domain_sizes = csp.domains
  alen : ctx.assigned.length = csp.domains.length
  hm : ctx.current_domains.length ≤ ctx.num_domains
  vlen : values.length = csp.domains.length
  agree : ∀ w, w < csp.domains.length → ctx.assigned.getD w false = true →
    values.getD w 0 = S.getD w 0
  live : ∀ w, w < csp.domains.length → ctx.assigned.getD w false = false →
    maskGet ctx w (S.getD w 0) = true

theorem fcTry_complete {D : Type} (csp : CSPProblem D) (data : Option D)
    (hcontract : respectsContract csp) (hfb : fullyBuilt csp)
    (S : List Nat) (hSsol : isSolution csp data S)
    (rec : List Nat → CSPForwardCheckContext → Bool × List Nat × CSPForwardCheckContext)
    (var : Nat) (ctx : CSPForwardCheckContext)
    (hvar : ctx.assigned.getD var false = false)
    (hvarlt : var < csp.domains.length)
    (hrecC : ∀ (v : List Nat) (c : CSPForwardCheckContext),
      FCInv csp S c v → c.assigned = ctx.assigned.set var true → (rec v c).1 = true)
    (hrecP : ∀ (v : List Nat) (c : CSPForwardCheckContext),
      c.current_domains.length ≤ c.num_domains →
      (rec v c).2.1.length = v.length ∧
      ∀ q, c.assigned.getD q false = true → (rec v c).2.1.getD q 0 = v.getD q 0)
    (hrecF : ∀ (v : List Nat) (c : CSPForwardCheckContext),
      c.current_domains.length ≤ c.num_domains →
      (rec v c).1 = false → (rec v c).2.2 = c) :
    ∀ (order values : List Nat),
    FCInv csp S ctx values →
    S.getD var 0 ∈ order →
    (fcTry csp data rec var order values ctx).1 = true := by
  intro order
  induction order with
  | nil =>
    intro values _ hmem
    exact absurd hmem (by simp)
  | cons val rest ih =>
    intro values hInv hmem
    simp only [fcTry]
    have hm : ctx.current_domains.length ≤ ctx.num_domains := hInv.hm
    have hvlen : values.length = csp.domains.length := hInv.vlen
    have hvim : var < values.length := by
      rw [hvlen]
      exact hvarlt
    have hvarlen : var < ctx.assigned.length := by
      rw [hInv.alen]
      exact hvarlt
    by_cases hval : val = S.getD var 0
    · have hagree1 : ∀ w, w < csp.domains.length →
          (setAssigned ctx var true).assigned.getD w false = true →
          (values.set var val).getD w 0 = S.getD w 0 := by
        intro w hw hassg
        by_cases hwv : w = var
        · subst hwv
          rw [getD_set_eq _ _ _ _ hvim, hval]
        · have hassg' : ctx.assigned.getD w false = true := by
            have h0 : (ctx.assigned.set var true).getD w false = true := hassg
            rw [getD_set_ne _ _ _ _ _ (fun h => hwv h.symm)] at h0
            exact h0
          rw [getD_set_ne _ _ _ _ _ (fun h => hwv h.symm)]
          exact hInv.agree w hw hassg'
      have hcons : fc_is_consistent csp (values.set var val) data
          (setAssigned ctx var true) = true :=
        fc_is_consistent_of_agree csp data hcontract hfb S (values.set var val)
          (setAssigned ctx var true) hSsol.2.2 hagree1
      rw [if_pos hcons]
      set st := prune_neighbors_fresh csp (values.set var val) data
        (setAssigned ctx var true) var with hst
      have hm1 : (setAssigned ctx var true).current_domains.length ≤
          (setAssigned ctx var true).num_domains := hm
      have hps := pruneCons_spec data var (setAssigned ctx var true) csp.constraints
        (setAssigned ctx var true) (values.set var val)
        (List.replicate (setAssigned ctx var true).num_domains 0)
        (List.replicate (setAssigned ctx var true).num_domains [])
        (pruneInv_init (setAssigned ctx var true) hm1)
      rw [← prune_neighbors_fresh_def, ← hst] at hps
      obtain ⟨hinv, hlen2, hpres2, -, hprov⟩ := hps
      have hInv1 : FCInv csp S st.1 st.2.1 := by
        refine ⟨?_, ?_, ?_, ?_, ?_, ?_, ?_⟩
        · rw [hinv.nd]
          exact hInv.nd
        · rw [hinv.ods]
          exact hInv.ods
        · rw [hinv.asg]
          show (ctx.assigned.set var true).length = csp.domains.length
          rw [List.length_set]
          exact hInv.alen
        · rw [hinv.rowsLen, hinv.nd]
          exact hm
        · rw [hlen2, List.length_set]
          exact hvlen
        · intro w hw hassg
          have hassg1 : (setAssigned ctx var true).assigned.getD w false = true := by
            rw [← hinv.asg]
            exact hassg
          rw [hpres2 w hassg1]
          exact hagree1 w hw hassg1
        · intro w hw hassg
          have hassg1 : (setAssigned ctx var true).assigned.getD w false = false := by
            rw [← hinv.asg]
            exact hassg
          have hwv : w ≠ var := by
            intro h
            have h0 : (ctx.assigned.set var true).getD var false = true := by
              rw [getD_set_eq _ _ _ _ hvarlen]
            rw [h] at hassg1
            have h1 : (ctx.assigned.set var true).getD var false = false := hassg1
            rw [h0] at h1
            exact absurd h1 (by simp)
          have hun : ctx.assigned.getD w false = false := by
            have h0 : (ctx.assigned.set var true).getD w false = false := hassg1
            rw [getD_set_ne _ _ _ _ _ (fun h => hwv h.symm)] at h0
            exact h0
          rw [hinv.masks w (S.getD w 0)]
          have hmg1 : maskGet (setAssigned ctx var true) w (S.getD w 0) =
              maskGet ctx w (S.getD w 0) := rfl
          rw [hmg1, hInv.live w hw hun]
          have hnotmem : ¬ S.getD w 0 ∈ st.2.2.2.getD w [] := by
            intro hmem2
            rcases hprov w (S.getD w 0) hmem2 with habs |
              ⟨con, hconmem, h2, hoth, _, vmid, _, hvagree, hvmidw, hvfail⟩
            · rw [getD_replicate'] at habs
              revert habs
              split <;> simp
            · have hscope := lcvOther_scope con var w h2 hoth
              have hagreeS : ∀ x ∈ con.scope, vmid.getD x 0 = S.getD x 0 := by
                intro x hx
                rcases hscope.2 x hx with hxv | hxw
                · rw [hxv]
                  have hassgv : (setAssigned ctx var true).assigned.getD var false =
                      true := by
                    show (ctx.assigned.set var true).getD var false = true
                    rw [getD_set_eq _ _ _ _ hvarlen]
                  rw [hvagree var hassgv, getD_set_eq _ _ _ _ hvim, hval]
                · rw [hxw]
                  exact hvmidw (by rw [List.length_set, hvlen]; exact hw)
              have hchk : con.check vmid data = con.check S data :=
                hcontract con hconmem vmid S data hagreeS
              rw [hchk, hSsol.2.2 con hconmem] at hvfail
              exact absurd hvfail (by simp)
          rw [decide_eq_false hnotmem]
          rfl
      have hr1 : (rec st.2.1 st.1).1 = true :=
        hrecC st.2.1 st.1 hInv1 (by rw [hinv.asg]; rfl)
      rw [if_pos hr1]
    · have hmem' : S.getD var 0 ∈ rest := by
        rcases List.mem_cons.mp hmem with h | h
        · exact absurd h.symm hval
        · exact h
      by_cases hcons : fc_is_consistent csp (values.set var val) data
          (setAssigned ctx var true) = true
      · rw [if_pos hcons]
        set st := prune_neighbors_fresh csp (values.set var val) data
          (setAssigned ctx var true) var with hst
        have hm1 : (setAssigned ctx var true).current_domains.length ≤
            (setAssigned ctx var true).num_domains := hm
        have hps := pruneCons_spec data var (setAssigned ctx var true) csp.constraints
          (setAssigned ctx var true) (values.set var val)
          (List.replicate (setAssigned ctx var true).num_domains 0)
          (List.replicate (setAssigned ctx var true).num_domains [])
          (pruneInv_init (setAssigned ctx var true) hm1)
        rw [← prune_neighbors_fresh_def, ← hst] at hps
        obtain ⟨hinv, hlen2, hpres2, -, -⟩ := hps
        have hmst : st.1.current_domains.length ≤ st.1.num_domains := by
          rw [hinv.rowsLen, hinv.nd]
          exact hm1
        by_cases hr1 : (rec st.2.1 st.1).1 = true
        · rw [if_pos hr1]
        · rw [if_neg hr1]
          have hr1f : (rec st.2.1 st.1).1 = false := bool_not_true hr1
          have heq : (rec st.2.1 st.1).2.2 = st.1 := hrecF st.2.1 st.1 hmst hr1f
          have hctxnext : setAssigned
              (restore_pruned (rec st.2.1 st.1).2.2 st.2.2.1 st.2.2.2) var false =
              ctx := by
            rw [heq, hst]
            exact fc_restore_roundtrip csp data (values.set var val) ctx var hm hvar
          rw [hctxnext]
          obtain ⟨hplen, hppres⟩ := hrecP st.2.1 st.1 hmst
          have hInv2 : FCInv csp S ctx (rec st.2.1 st.1).2.1 := by
            refine ⟨hInv.nd, hInv.ods, hInv.alen, hInv.hm, ?_, ?_, hInv.live⟩
            · rw [hplen, hlen2, List.length_set]
              exact hvlen
            · intro w hw hassg
              have hwv : w ≠ var := fun h => by
                rw [h, hvar] at hassg
                exact absurd hassg (by simp)
              have hassg1 : (setAssigned ctx var true).assigned.getD w false =
                  true := by
                show (ctx.assigned.set var true).getD w false = true
                rw [getD_set_ne _ _ _ _ _ (fun h => hwv h.symm)]
                exact hassg
              have hassgst : st.1.assigned.getD w false = true := by
                rw [hinv.asg]
                exact hassg1
              rw [hppres w hassgst, hpres2 w hassg1,
                getD_set_ne _ _ _ _ _ (fun h => hwv h.symm)]
              exact hInv.agree w hw hassg
          exact ih (rec st.2.1 st.1).2.1 hInv2 hmem'
      · rw [if_neg hcons]
        rw [setAssigned_cancel ctx var hvar]
        have hInv2 : FCInv csp S ctx (values.set var val) := by
          refine ⟨hInv.nd, hInv.ods, hInv.alen, hInv.hm, ?_, ?_, hInv.live⟩
          · rw [List.length_set]
            exact hvlen
          · intro w hw hassg
            have hwv : w ≠ var := fun h => by
              rw [h, hvar] at hassg
              exact absurd hassg (by simp)
            rw [getD_set_ne _ _ _ _ _ (fun h => hwv h.symm)]
            exact hInv.agree w hw hassg
        exact ih (values.set var val) hInv2 hmem'

theorem backtrack_fc_complete {D : Type} (csp : CSPProblem D) (data : Option D)
    (hcontract : respectsContract csp) (hfb : fullyBuilt csp)
    (S : List Nat) (hSsol : isSolution csp data S) :
    ∀ (fuel : Nat) (values : List Nat) (ctx : CSPForwardCheckContext),
    FCInv csp S ctx values →
    unassignedCount ctx < fuel →
    (backtrack_fc csp data false fuel values ctx).1 = true := by
  intro fuel
  induction fuel with
  | zero =>
    intro values ctx _ hfuel
    exact absurd hfuel (by simp)
  | succ fuel ih =>
    intro values ctx hInv hfuel
    simp only [backtrack_fc]
    rw [if_neg (by simp)]
    by_cases hall : allAssigned ctx = true
    · rw [if_pos hall]
    · rw [if_neg hall]
      have hsel := select_unassigned_var_spec ctx (bool_not_true hall)
      set var := select_unassigned_var ctx with hvr
      obtain ⟨hplen, hppres⟩ := order_values_lcv_vals csp ctx values data var
      have hvarlt : var < csp.domains.length := by
        rw [← hInv.nd]
        exact hsel.2
      have hInvp : FCInv csp S ctx (order_values_lcv csp ctx values data var).2 := by
        refine ⟨hInv.nd, hInv.ods, hInv.alen, hInv.hm, ?_, ?_, hInv.live⟩
        · rw [hplen]
          exact hInv.vlen
        · intro w hw hassg
          have hwv : w ≠ var := fun h => by
            rw [h, hsel.1] at hassg
            exact absurd hassg (by simp)
          rw [hppres w hwv hassg]
          exact hInv.agree w hw hassg
      have hmem : S.getD var 0 ∈ (order_values_lcv csp ctx values data var).1 := by
        apply order_values_complete
        · rw [hInv.ods]
          exact hSsol.2.1 var hvarlt
        · exact hInv.live var hvarlt hsel.1
      have hrecC : ∀ (v : List Nat) (c : CSPForwardCheckContext),
          FCInv csp S c v → c.assigned = ctx.assigned.set var true →
          (backtrack_fc csp data false fuel v c).1 = true := by
        intro v c hc hasg
        apply ih v c hc
        have hnum : c.num_domains = ctx.num_domains := by
          rw [hc.nd, hInv.nd]
        have hcount : unassignedCount c + 1 = unassignedCount ctx := by
          rw [unassignedCount, unassignedCount, hnum, hasg]
          exact count_unassigned_set ctx.assigned var ctx.num_domains hsel.2
            (by rw [hInv.alen, ← hInv.nd]; exact hsel.2) hsel.1
        omega
      exact fcTry_complete csp data hcontract hfb S hSsol
        (backtrack_fc csp data false fuel) var ctx hsel.1 hvarlt hrecC
        (fun v c hmc => backtrack_fc_preserves csp data false fuel v c hmc)
        (fun v c hmc hfc => (backtrack_fc_restores csp data false fuel v c hmc).2 hfc)
        _ _ hInvp hmem

/-- A unary constraint whose checker depends on the caller data: under
NULL data (the initial unary pruning pass) it accepts only value 0,
under real data only value 5. -/
def c2Con : CSPConstraint Nat :=
  ⟨[0], fun vals d =>
    match d with
    | none => decide (vals.getD 0 0 = 0)
    | some _ => decide (vals.getD 0 0 = 5)⟩

/-- One variable with domain `{0}` constrained by `c2Con`. -/
def c2Demo : CSPProblem Nat := ⟨[1], [c2Con]⟩

/-- C2 counterexample: on `c2Demo` with caller data present and the
caller's array holding the out-of-domain value 5, `solve_forward_check`
returns true although no assignment of domain values satisfies the
constraint: the initial unary pruning evaluates the checker with NULL
data, leaves the single value 0 live, marks the variable pre-assigned,
and the search then reports SOLVED without ever checking the stale
caller value against the real data. -/
theorem c2_counterexample :
    (csp_problem_solve_forward_checking c2Demo [5] (some 0) false).1 = true ∧
    ¬∃ S, isSolution c2Demo (some 0) S := by
  constructor
  · decide
  · rintro ⟨S, _, hbound, hcheck⟩
    have hb := hbound 0 (by decide)
    rw [show c2Demo.domains.getD 0 0 = 1 from rfl] at hb
    have h0 : S.getD 0 0 = 0 := by omega
    have hc := hcheck c2Con (List.mem_cons_self _ _)
    rw [show c2Con.check S (some 0) = decide (S.getD 0 0 = 5) from rfl, h0] at hc
    exact absurd hc (by decide)

/-- C2 (amended): for a fully built problem whose constraints all have
arity 1 or 2, whose checkers read only their scope, and on which the
initial unary pruning pass neither prunes a value nor pre-assigns a
variable (the created context is pristine), a run with the cancellation
flag never set returns true if and only if some assignment of domain
values to all variables satisfies every installed constraint. -/
theorem c2_fc_solve_iff {D : Type} (csp : CSPProblem D) (data : Option D)
    (values : List Nat)
    (hcontract : respectsContract csp)
    (hfb : fullyBuilt csp)
    (_har : ∀ con ∈ csp.constraints, con.scope.length = 1 ∨ con.scope.length = 2)
    (hvlen : values.length = csp.domains.length)
    (hpristine : csp_forward_check_context_create csp = pristineCtx csp) :
    (csp_problem_solve_forward_checking csp values data false).1 = true ↔
      ∃ S, isSolution csp data S := by
  show (backtrack_fc csp data false
      ((csp_forward_check_context_create csp).num_domains + 1) values
      (csp_forward_check_context_create csp)).1 = true ↔ _
  rw [hpristine]
  have hm : (pristineCtx csp).current_domains.length ≤
      (pristineCtx csp).num_domains := by
    show (csp.domains.map (fun d => List.replicate d true)).length ≤
      csp.domains.length
    rw [List.length_map]
  have hassg : ∀ q, (pristineCtx csp).assigned.getD q false = false := by
    intro q
    show (List.replicate csp.domains.length false).getD q false = false
    rw [getD_replicate']
    split <;> rfl
  constructor
  · intro htrue
    set R := backtrack_fc csp data false ((pristineCtx csp).num_domains + 1) values
      (pristineCtx csp) with hR
    obtain ⟨hfc, hall, -⟩ := backtrack_fc_sound csp data false hcontract
      ((pristineCtx csp).num_domains + 1) values (pristineCtx csp) hm
      (fc_is_consistent_of_none_assigned csp data values _ hfb (fun q _ => hassg q))
      htrue
    obtain ⟨hdomf, hlenf⟩ := backtrack_fc_inDomain csp data false
      ((pristineCtx csp).num_domains + 1) values (pristineCtx csp) hm
      (Nat.le_of_eq hvlen.symm)
      (fun w _ hq => absurd (hassg w) (by rw [hq]; simp)) htrue
    obtain ⟨⟨hn2, hods2, -⟩, -⟩ := backtrack_fc_restores csp data false
      ((pristineCtx csp).num_domains + 1) values (pristineCtx csp) hm
    rw [allAssigned, List.all_eq_true] at hall
    refine ⟨R.2.1, ?_, ?_, ?_⟩
    · rw [hlenf, hvlen]
    · intro i hi
      have hi2 : i < R.2.2.num_domains := by
        rw [hn2]
        exact hi
      have hassgf : R.2.2.assigned.getD i false = true :=
        hall i (List.mem_range.mpr hi2)
      have hd := hdomf i hi2 hassgf
      rw [hods2] at hd
      exact hd
    · intro con hcmem
      rw [fc_is_consistent, List.all_eq_true] at hfc
      have h := hfc con hcmem
      have hready : con.scope.all (fun x => R.2.2.assigned.getD x false) = true := by
        rw [List.all_eq_true]
        intro x hx
        refine hall x (List.mem_range.mpr ?_)
        rw [hn2]
        exact (hfb con hcmem).2 x hx
      rw [if_pos hready] at h
      exact h
  · rintro ⟨S, hS⟩
    apply backtrack_fc_complete csp data hcontract hfb S hS
    · refine ⟨rfl, rfl, ?_, hm, hvlen, ?_, ?_⟩
      · show (List.replicate csp.domains.length false).length = csp.domains.length
        rw [List.length_replicate]
      · intro w _ htrue
        rw [hassg w] at htrue
        exact absurd htrue (by simp)
      · intro w hw _
        show ((csp.domains.map (fun d => List.replicate d true)).getD w []).getD
          (S.getD w 0) false = true
        rw [getD_map_of_lt csp.domains _ w [] 0 hw, getD_replicate',
          if_pos (hS.2.1 w hw)]
    · have := unassignedCount_le (pristineCtx csp)
      omega

theorem c2_witness :
    ((csp_problem_solve_forward_checking lcvDemo [9, 9] (some 2) false).1 = true ↔
      ∃ S, isSolution lcvDemo (some 2) S) :=
  c2_fc_solve_iff lcvDemo (some 2) [9, 9] lcvDemo_contract
    (by unfold fullyBuilt; decide) (by decide) (by decide) (by decide)

end CspLib
